import Mathlib

/-!
# Wiregate: UDP-over-TLS pipe and traffic shaper

Shallow embedding of the framed message codec
(`Src/udptlspipe/internal/tunnel/msgreadwriter.go`), of the server-side upgrade
and of the tracking of destination connections
(`Src/udptlspipe/internal/pipe/server.go`), of the UDP pseudo-listener
(`Src/updtlspipe/internal/udp/listener.go`) and of the traffic shaper
(`Src/traffic_weir`: `main.go`, `scheduler`, `qdisc`, `ifb`, `peer`, `config`),
followed by the properties proved about them.
-/

namespace Tunnel

/-- A Go `byte`. -/
abbrev Byte := Fin 256

/-- Go conversion `byte(v)` of an unsigned value: the low eight bits. -/
def toByte (v : Nat) : Byte := ⟨v % 256, Nat.mod_lt _ (by decide)⟩

/-- Go conversion `uint16(v)` of a non-negative `int`: the low sixteen bits. -/
def uint16 (v : Nat) : Nat := v % 65536

/-- Go `const MaxMessageLength = 1320`. -/
def MaxMessageLength : Nat := 1320

/-- Go `const MinMessageLength = 100`. -/
def MinMessageLength : Int := 100

/-- Go `const MaxPaddingLength = 256`. -/
def MaxPaddingLength : Int := 256

/-- Go `make([]byte, n)`: a zeroed slice of length `n`. -/
def makeBytes (n : Nat) : List Byte := List.replicate n 0

/-- Go `copy(dst[off:], src)` as a function of the whole of `dst`: the bytes of
`src` that fit overwrite `dst` from offset `off` on. -/
def copyAt (dst : List Byte) (off : Nat) (src : List Byte) : List Byte :=
  dst.take off ++ src.take (dst.length - off) ++
    dst.drop (off + min (dst.length - off) src.length)

/-- Go `binary.BigEndian.PutUint16(msg[off:off+2], v)`: `b[0] = byte(v >> 8)`,
`b[1] = byte(v)`. -/
def putUint16At (msg : List Byte) (off : Nat) (v : Nat) : List Byte :=
  copyAt msg off [toByte (v / 256), toByte v]

/-- Go `binary.BigEndian.Uint16(b)`: `uint16(b[1]) | uint16(b[0])<<8`. -/
def bigEndianUint16 (b0 b1 : Byte) : Nat := b0.val * 256 + b1.val

/-- The two bytes `PutUint16` produces for `v`, most significant first. -/
def uint16Bytes (v : Nat) : List Byte := [toByte (v / 256), toByte v]

/-- Go `pack`: allocate `len(b)+len(padding)+4` bytes and fill in the body length,
the body, the padding length and the padding. -/
def pack (b padding : List Byte) : List Byte :=
  let msg := makeBytes (b.length + padding.length + 4)
  let msg := putUint16At msg 0 (uint16 b.length)
  let msg := copyAt msg 2 b
  let msg := putUint16At msg (b.length + 2) (uint16 padding.length)
  let msg := copyAt msg (b.length + 4) padding
  msg

/-- Errors the codec can return. `EOF` and `ErrUnexpectedEOF` are those of
`io.ReadFull`; `bufferTooSmall` is the `fmt.Errorf("message length %d is greater
than the buffer size %d", ...)` of `MsgReadWriter.Read`. -/
inductive IOError where
  | EOF
  | ErrUnexpectedEOF
  | bufferTooSmall (msgLen bufLen : Nat)
  deriving DecidableEq, Repr

/-- The base `io.ReadWriter` as an in-memory byte stream: `input` holds the bytes
still to be read (end of list is end of stream), `output` the bytes written so
far; `log` collects the lengths reported through `log.Error` by `readPrefixed`.
-/
structure Base where
  input : List Byte
  output : List Byte
  log : List Nat
  deriving DecidableEq, Repr

/-- Go `io.ReadFull(r, buf)` with `len(buf) = n` on an in-memory stream: returns the
error (if any), the bytes read, and the rest of the stream. An empty buffer
reads nothing; an exhausted stream gives `EOF`; a stream that ends early gives
`ErrUnexpectedEOF` after consuming what was there. -/
def readFull (s : List Byte) (n : Nat) : Option IOError × List Byte × List Byte :=
  if n = 0 then (none, [], s)
  else if s.length = 0 then (some IOError.EOF, [], s)
  else if s.length < n then (some IOError.ErrUnexpectedEOF, s, [])
  else (none, s.take n, s.drop n)

/-- Go `binary.Read(r, binary.BigEndian, &length)` for `length uint16`: two bytes
through `io.ReadFull`, decoded big-endian. -/
def binaryReadUint16 (s : List Byte) : Option IOError × Nat × List Byte :=
  match readFull s 2 with
  | (none, [b0, b1], rest) => (none, bigEndianUint16 b0 b1, rest)
  | (none, _, rest) => (none, 0, rest)
  | (some e, _, rest) => (some e, 0, rest)

/-- Go `readPrefixed`: read the 2-byte length, log a warning when it exceeds
`MaxMessageLength`, then read that many bytes. Returns `(b, err)` and the
reader after the call. -/
def readPrefixed (r : Base) : (List Byte × Option IOError) × Base :=
  match binaryReadUint16 r.input with
  | (some e, _, rest) => (([], some e), { r with input := rest })
  | (none, length, rest) =>
    let log := if length > MaxMessageLength then r.log ++ [length] else r.log
    match readFull rest length with
    | (err, b, rest2) => ((b, err), { r with input := rest2, log := log })

/-- Result of `MsgReadWriter.Read`: `(n, err)`, the caller's buffer after the
call, and the reader after the call. -/
structure ReadResult where
  n : Nat
  err : Option IOError
  buf : List Byte
  rw : Base
  deriving DecidableEq, Repr

/-- Go `MsgReadWriter.Read`: read the body, read (skip) the padding, fail when the
buffer is shorter than the body, else copy the body into the buffer. -/
def MsgReadWriter.Read (rw : Base) (b : List Byte) : ReadResult :=
  match readPrefixed rw with
  | ((_, some e), rw1) => { n := 0, err := some e, buf := b, rw := rw1 }
  | ((msg, none), rw1) =>
    match readPrefixed rw1 with
    | ((_, some e), rw2) => { n := 0, err := some e, buf := b, rw := rw2 }
    | ((_, none), rw2) =>
      if b.length < msg.length then
        { n := 0, err := some (IOError.bufferTooSmall msg.length b.length), buf := b, rw := rw2 }
      else
        { n := msg.length, err := none, buf := copyAt b 0 msg, rw := rw2 }

/-- Go `createRandomPadding`: one random byte picks the length
`length % (maxLength - minLength) + minLength`, then that many random bytes are
drawn. `rnd` is the stream of bytes `crypto/rand` delivers. -/
def createRandomPadding (minLength maxLength : Int) (rnd : Nat → Byte) : List Byte :=
  let length : Int := ((rnd 0).val : Int)
  let length := Int.tmod length (maxLength - minLength) + minLength
  (List.range length.toNat).map (fun i => rnd (i + 1))

/-- Go `rw.base.Write(msg)` on the in-memory stream: appends, never fails. -/
def baseWrite (rw : Base) (msg : List Byte) : Option IOError × Base :=
  (none, { rw with output := rw.output ++ msg })

/-- Result of `MsgReadWriter.Write`: `(n, err)` and the writer after the call. -/
structure WriteResult where
  n : Nat
  err : Option IOError
  rw : Base
  deriving DecidableEq, Repr

/-- Go `MsgReadWriter.Write`: choose the padding bounds, create the padding, pack
and write. -/
def MsgReadWriter.Write (rw : Base) (b : List Byte) (rnd : Nat → Byte) : WriteResult :=
  let minLength : Int := MinMessageLength - (b.length : Int)
  let minLength := if minLength ≤ 0 then 1 else minLength
  let maxLength : Int := MaxPaddingLength
  let maxLength := if maxLength ≤ minLength then minLength + 1 else maxLength
  let padding := createRandomPadding minLength maxLength rnd
  let msg := pack b padding
  match baseWrite rw msg with
  | (some e, rw1) => { n := 0, err := some e, rw := rw1 }
  | (none, rw1) => { n := b.length, err := none, rw := rw1 }

/-- Successive `MsgReadWriter.Read` calls on one reader, one call per caller
buffer in `bufs`; returns the results in order and the reader after the last
call. -/
def readMany (rw : Base) : List (List Byte) → List ReadResult × Base
  | [] => ([], rw)
  | buf :: bufs =>
    let r := MsgReadWriter.Read rw buf
    let rest := readMany r.rw bufs
    (r :: rest.1, rest.2)

/-- The bytes on the wire when the messages `(body, padding)` are packed and
written back to back. -/
def stream : List (List Byte × List Byte) → List Byte
  | [] => []
  | m :: ms => pack m.1 m.2 ++ stream ms

/-- The log after `readPrefixed` has seen a length field `n`. -/
def logAfter (log : List Nat) (n : Nat) : List Nat :=
  if n > MaxMessageLength then log ++ [n] else log

end Tunnel

namespace Pipe

/-- The part of a parsed `*http.Request` that `upgradeServerConn` looks at: the
protocol, the header (canonical key to values) and the parsed query of the URL
(key to values). -/
structure Request where
  proto : String
  header : List (String × List String)
  query : List (String × List String)
  deriving DecidableEq, Repr

/-- Go `http.Header.Get` / `url.Values.Get`: the first value stored under `key`, or
the empty string when there is none. -/
def valuesGet (m : List (String × List String)) (key : String) : String :=
  match m.lookup key with
  | some (v :: _) => v
  | _ => ""

/-- Simple case folding of the runes that `strings.EqualFold` identifies with an
ASCII letter: the ASCII capitals, U+017F (long s, folds to `s`) and U+212A
(Kelvin sign, folds to `k`); every other rune is left as it is. -/
def foldRune (c : Char) : Char :=
  if 65 ≤ c.toNat ∧ c.toNat ≤ 90 then Char.ofNat (c.toNat + 32)
  else if c.toNat = 0x17F then Char.ofNat 115
  else if c.toNat = 0x212A then Char.ofNat 107
  else c

/-- Go `strings.EqualFold(s, t)` for a `t` made of ASCII letters (here always
`"websocket"`): rune by rune equality under simple case folding. -/
def equalFold (s t : String) : Bool :=
  s.data.map foldRune == t.data.map foldRune

/-- What `upgradeServerConn` does with the connection, in order. -/
inductive Event where
  | readRequest
  | respondToProbe (req : Request)
  | wsUpgrade
  deriving DecidableEq, Repr

/-- The errors `upgradeServerConn` returns. -/
inductive UpgradeError where
  | cannotReadRequest
  | notWebsocket
  | wrongPassword (clientPassword : String)
  | upgradeFailed
  deriving DecidableEq, Repr

/-- The fields of `Server` that the upgrade reads. -/
structure Server where
  password : String
  deriving DecidableEq, Repr

/-- The accepted connection as the upgrade sees it: what `http.ReadRequest`
yields on it (`none` for an error) and whether the `ws.Upgrade` handshake on it
succeeds. -/
structure Conn where
  request : Option Request
  wsUpgradeOk : Bool
  deriving DecidableEq, Repr

/-- Result of `upgradeServerConn`: `err` (`none` when a WebSocket connection is
returned) and the trace of what was done with the connection. -/
structure UpgradeResult where
  err : Option UpgradeError
  trace : List Event
  deriving DecidableEq, Repr

/-- Go `Server.upgradeServerConn`: read the request, send it to the probe
responder when it is not a WebSocket upgrade or carries the wrong password,
otherwise perform the WebSocket handshake. -/
def upgradeServerConn (s : Server) (conn : Conn) : UpgradeResult :=
  match conn.request with
  | none => { err := some UpgradeError.cannotReadRequest, trace := [Event.readRequest] }
  | some req =>
    if !equalFold (valuesGet req.header "Upgrade") "websocket" then
      { err := some UpgradeError.notWebsocket,
        trace := [Event.readRequest, Event.respondToProbe req] }
    else
      let clientPassword := valuesGet req.query "password"
      if s.password ≠ "" ∧ clientPassword ≠ s.password then
        { err := some (UpgradeError.wrongPassword clientPassword),
          trace := [Event.readRequest, Event.respondToProbe req] }
      else if !conn.wsUpgradeOk then
        { err := some UpgradeError.upgradeFailed,
          trace := [Event.readRequest, Event.wsUpgrade] }
      else
        { err := none, trace := [Event.readRequest, Event.wsUpgrade] }

end Pipe

namespace Udp

open Tunnel (Byte copyAt)

/-- Capacity of `chanAccept` and of every `chanMsg` (`make(chan ..., 256)`). -/
def chanCap : Nat := 256

/-- Errors of the virtual connection: `net.ErrClosed`. -/
inductive NetError where
  | ErrClosed
  deriving DecidableEq, Repr

/-- Go `udpConn`: a connection with a single peer. `peerAddr` is the peer address in
its `String()` form, `remaining` the bytes of the last datagram not yet read (a
nil and an empty slice are both `[]`, the code tells neither apart), `chanMsg`
the buffered channel of datagrams, oldest first, and `chanClosed` tells whether
`close(c.chanClosed)` has happened. -/
structure udpConn where
  peerAddr : String
  remaining : List Byte
  closed : Bool
  chanMsg : List (List Byte)
  chanClosed : Bool
  deriving DecidableEq, Repr

/-- Go `newUDPConn`. -/
def newUDPConn (peerAddr : String) : udpConn :=
  { peerAddr := peerAddr, remaining := [], closed := false, chanMsg := [], chanClosed := false }

/-- Go `udpConn.addMsg`: send on `chanMsg`; `none` when the channel is full and the
send blocks. -/
def udpConn.addMsg (c : udpConn) (b : List Byte) : Option udpConn :=
  if c.chanMsg.length < chanCap then some { c with chanMsg := c.chanMsg ++ [b] } else none

/-- Go `udpConn.isClosed`. -/
def udpConn.isClosed (c : udpConn) : Bool := c.closed

/-- Go `udpConn.readRemaining`: returns `n`, the buffer after the copy and the
connection after the call. -/
def udpConn.readRemaining (c : udpConn) (b : List Byte) : Nat × List Byte × udpConn :=
  if c.remaining.length = 0 then (0, b, c)
  else if c.remaining.length ≥ b.length then
    let n := b.length
    (n, copyAt b 0 (c.remaining.take n), { c with remaining := c.remaining.drop n })
  else
    let n := c.remaining.length
    (n, copyAt b 0 c.remaining, { c with remaining := [] })

/-- The case a `select` takes when both of its cases are ready (the Go runtime
picks one of the ready cases at random). -/
inductive Select where
  | msg
  | closed
  deriving DecidableEq, Repr

/-- Result of `udpConn.Read`: `(n, err)`, the buffer and the connection after
the call. -/
structure ReadResult where
  n : Nat
  err : Option NetError
  buf : List Byte
  conn : udpConn
  deriving DecidableEq, Repr

/-- Outcome of the `select` in `udpConn.Read`. -/
inductive SelectResult where
  | recv (buf : List Byte) (rest : List (List Byte))
  | closed
  | blocked
  deriving DecidableEq, Repr

/-- The `select` of `udpConn.Read` over `buf := <-c.chanMsg` and `<-c.chanClosed`:
a case that is ready is taken, `pick` decides when both are, and the statement
blocks when neither is. -/
def selectMsgOrClosed (chanMsg : List (List Byte)) (chanClosed : Bool) (pick : Select) :
    SelectResult :=
  match chanMsg, chanClosed with
  | buf :: rest, false => SelectResult.recv buf rest
  | buf :: rest, true =>
    match pick with
    | Select.msg => SelectResult.recv buf rest
    | Select.closed => SelectResult.closed
  | [], true => SelectResult.closed
  | [], false => SelectResult.blocked

/-- Go `udpConn.Read`: serve from `remaining` when that yields bytes; otherwise
`select` between the next datagram on `chanMsg` and the closed signal. `none`
when neither case is ready and the call blocks; `pick` is the case taken when
both are ready. -/
def udpConn.Read (c : udpConn) (b : List Byte) (pick : Select) : Option ReadResult :=
  match c.readRemaining b with
  | (n, b1, c1) =>
    if n > 0 then some { n := n, err := none, buf := b1, conn := c1 }
    else
      match selectMsgOrClosed c1.chanMsg c1.chanClosed pick with
      | SelectResult.recv buf rest =>
        match ({ c1 with chanMsg := rest, remaining := buf } : udpConn).readRemaining b1 with
        | (n2, b2, c2) => some { n := n2, err := none, buf := b2, conn := c2 }
      | SelectResult.closed =>
        some { n := 0, err := some NetError.ErrClosed, buf := b1, conn := c1 }
      | SelectResult.blocked => none

/-- Go `udpConn.Close`: set `closed` and close `chanClosed`, once. -/
def udpConn.Close (c : udpConn) : udpConn :=
  if c.closed then c else { c with closed := true, chanClosed := true }

/-- Successive `Read` calls on one connection, one per buffer of `bufs`; stops at
a call that blocks. Returns the results in order and the connection after the
last call. -/
def readSeq (pick : Select) : udpConn → List (List Byte) → List ReadResult × udpConn
  | c, [] => ([], c)
  | c, b :: bs =>
    match c.Read b pick with
    | none => ([], c)
    | some r =>
      let rest := readSeq pick r.conn bs
      (r :: rest.1, rest.2)

/-- An operation on a virtual connection. -/
inductive ConnOp where
  | read (b : List Byte) (pick : Select)
  | addMsg (b : List Byte)
  | close
  deriving DecidableEq, Repr

/-- The connection after one operation; an operation that blocks leaves it as it
is. -/
def ConnOp.apply (c : udpConn) : ConnOp → udpConn
  | ConnOp.read b pick => match c.Read b pick with
    | some r => r.conn
    | none => c
  | ConnOp.addMsg b => match c.addMsg b with
    | some c1 => c1
    | none => c
  | ConnOp.close => c.Close

/-- The connection after a sequence of operations. -/
def runOps (c : udpConn) (ops : List ConnOp) : udpConn := ops.foldl ConnOp.apply c

/-- A connection that was created, used through `before`, closed, and used
through `after`. -/
def afterClose (addr : String) (before after : List ConnOp) : udpConn :=
  runOps (runOps (newUDPConn addr) before).Close after

/-- Go `Listener`: `conns` holds the `udpConn` objects created so far (a `*udpConn`
is an index into it), `natTable` maps a peer address to its connection (the
first entry for a key is the current one), `chanAccept` is the buffered accept
channel, oldest first. -/
structure Listener where
  conns : List udpConn
  natTable : List (String × Nat)
  chanAccept : List Nat
  chanClosed : Bool
  closed : Bool
  deriving DecidableEq, Repr

/-- Go `Listener.acceptMsg`: look the address up in the NAT table; when there is no
connection for it or that connection is closed, create one, store it and send it
on `chanAccept`; then add the datagram to the connection. `none` when a channel
send blocks. -/
def Listener.acceptMsg (l : Listener) (addr : String) (msg : List Byte) : Option Listener :=
  let key := addr
  let found : Option Nat :=
    match l.natTable.lookup key with
    | none => none
    | some i =>
      match l.conns.get? i with
      | none => none
      | some c => if c.isClosed then none else some i
  match found with
  | some i =>
    match l.conns.get? i with
    | none => none
    | some c =>
      match c.addMsg msg with
      | none => none
      | some c1 => some { l with conns := l.conns.set i c1 }
  | none =>
    let i := l.conns.length
    let conn := newUDPConn addr
    if l.chanAccept.length < chanCap then
      match conn.addMsg msg with
      | none => none
      | some c1 =>
        some { l with
          conns := l.conns ++ [c1],
          natTable := (key, i) :: l.natTable,
          chanAccept := l.chanAccept ++ [i] }
    else none

/-- The connection expected for the peer `a` once the datagrams `pre` have been
handed over: open, nothing partially read, and the payloads that came from `a`
queued in arrival order. -/
def connOf (pre : List (String × List Byte)) (a : String) : udpConn :=
  { peerAddr := a, remaining := [], closed := false,
    chanMsg := (pre.filter (fun d => d.1 = a)).map Prod.snd, chanClosed := false }

/-- Go `Listener.isClosed`. -/
def Listener.isClosed (l : Listener) : Bool := l.closed

/-- Result of `Listener.Accept`: the accepted connection (an index into `conns`)
or the error, and the listener after the call. -/
structure AcceptResult where
  conn : Option Nat
  err : Option NetError
  l : Listener
  deriving DecidableEq, Repr

/-- Go `Listener.Accept`: fail at once on a closed listener, otherwise `select`
between the next connection on `chanAccept` (the case `Select.msg`) and the
closed signal. `none` when neither case is ready and the call blocks. -/
def Listener.Accept (l : Listener) (pick : Select) : Option AcceptResult :=
  if l.isClosed then some { conn := none, err := some NetError.ErrClosed, l := l }
  else
    match l.chanAccept, l.chanClosed with
    | i :: rest, false => some { conn := some i, err := none, l := { l with chanAccept := rest } }
    | i :: rest, true =>
      match pick with
      | Select.msg => some { conn := some i, err := none, l := { l with chanAccept := rest } }
      | Select.closed => some { conn := none, err := some NetError.ErrClosed, l := l }
    | [], true => some { conn := none, err := some NetError.ErrClosed, l := l }
    | [], false => none

/-- Calls `Close` on the connection object at index `i`. -/
def closeConnAt (conns : List udpConn) (i : Nat) : List udpConn :=
  match conns.get? i with
  | some c => conns.set i c.Close
  | none => conns

/-- The `for _, c := range l.natTable` loop of `Listener.Close`: calls `Close` on
the connection every key of the NAT table is mapped to. -/
def closeTracked (natTable : List (String × Nat)) (conns : List udpConn) : List udpConn :=
  (natTable.map Prod.fst).foldl
    (fun cs key =>
      match natTable.lookup key with
      | some i => closeConnAt cs i
      | none => cs)
    conns

/-- Go `Listener.Close`: nothing on a closed listener; otherwise set `closed`,
close `chanClosed` and close every connection the NAT table maps a key to (the
shared socket is closed last and carries no state here). -/
def Listener.Close (l : Listener) : Listener :=
  if l.isClosed then l
  else { l with closed := true, chanClosed := true, conns := closeTracked l.natTable l.conns }

/-- An operation on the listener. -/
inductive ListenerOp where
  | acceptMsg (addr : String) (msg : List Byte)
  | accept (pick : Select)
  | close
  deriving DecidableEq, Repr

/-- The listener after one operation; an operation that blocks leaves it as it
is. -/
def ListenerOp.apply (l : Listener) : ListenerOp → Listener
  | ListenerOp.acceptMsg addr msg =>
    match l.acceptMsg addr msg with
    | some l1 => l1
    | none => l
  | ListenerOp.accept pick =>
    match l.Accept pick with
    | some r => r.l
    | none => l
  | ListenerOp.close => l.Close

/-- The listener after a sequence of operations. -/
def runListenerOps (l : Listener) (ops : List ListenerOp) : Listener :=
  ops.foldl ListenerOp.apply l

/-- The connection at index `j` exists and is closed. -/
def ClosedAt (cs : List udpConn) (j : Nat) : Prop :=
  ∃ c, cs.get? j = some c ∧ c.closed = true ∧ c.chanClosed = true

/-- A step of a run of the listener: a datagram is handed to `acceptMsg`, a caller
takes a connection with `Accept`, or a caller reads from the connection with
index `i` with `Read`. -/
inductive MuxEvent where
  | dgram (addr : String) (msg : List Byte)
  | accept (pick : Select)
  | read (i : Nat) (b : List Byte) (pick : Select)
  deriving DecidableEq, Repr

/-- A run so far: the listener, and the connections that the calls of `Accept`
have returned, in order. -/
structure MuxState where
  l : Listener
  accepted : List Nat
  deriving DecidableEq, Repr

/-- One step of a run. A datagram whose channel send blocks stops the run
(`none`); a call of `Accept` or `Read` that blocks waits, and the state stays as
it is. -/
def MuxEvent.apply (s : MuxState) : MuxEvent → Option MuxState
  | MuxEvent.dgram addr msg =>
    match s.l.acceptMsg addr msg with
    | none => none
    | some l1 => some { s with l := l1 }
  | MuxEvent.accept pick =>
    match s.l.Accept pick with
    | none => some s
    | some r =>
      match r.conn with
      | some i => some { l := r.l, accepted := s.accepted ++ [i] }
      | none => some { s with l := r.l }
  | MuxEvent.read i b pick =>
    match s.l.conns.get? i with
    | none => some s
    | some c =>
      match c.Read b pick with
      | none => some s
      | some r => some { s with l := { s.l with conns := s.l.conns.set i r.conn } }

end Udp

/-! # Traffic shaper (`Src/traffic_weir`)

The shaper drives the kernel through external commands. A run is modelled with
the system as a parameter (`Env`: what every command returns, given the commands
run before it) and the commands issued are recorded in order (`World.trace`),
next to the two globals of package `config` that change during a run. -/

namespace Weir

/-! ## Go string functions

Go strings are modelled as Lean strings; the functions below follow the
`strings`, `strconv` and `fmt` functions the shaper uses. -/

/-- Go `strings.HasPrefix` on the runes of two strings. -/
def startsWithL : List Char → List Char → Bool
  | _, [] => true
  | [], _ :: _ => false
  | c :: cs, p :: ps => c == p && startsWithL cs ps

/-- Go `strings.Contains` on the runes of two strings. -/
def containsL : List Char → List Char → Bool
  | [], sub => sub.isEmpty
  | c :: cs, sub => startsWithL (c :: cs) sub || containsL cs sub

/-- Go `strings.Split(s, sep)` for a separator of one rune. -/
def splitL (sep : Char) : List Char → List Char → List (List Char)
  | [], cur => [cur.reverse]
  | c :: cs, cur =>
    if c = sep then cur.reverse :: splitL sep cs [] else splitL sep cs (c :: cur)

/-- Go `unicode.IsSpace`. -/
def isSpace (c : Char) : Bool :=
  let n := c.toNat
  n = 9 || n = 10 || n = 11 || n = 12 || n = 13 || n = 32 || n = 0x85 || n = 0xA0 ||
    n = 0x1680 || (0x2000 ≤ n && n ≤ 0x200a) || n = 0x2028 || n = 0x2029 || n = 0x202f ||
    n = 0x205f || n = 0x3000

/-- Go `strings.Fields` on the runes of a string: the maximal runs of non-space
runes. -/
def fieldsL : List Char → List Char → List (List Char)
  | [], cur => if cur.isEmpty then [] else [cur.reverse]
  | c :: cs, cur =>
    if isSpace c then
      if cur.isEmpty then fieldsL cs [] else cur.reverse :: fieldsL cs []
    else fieldsL cs (c :: cur)

/-- Go `strings.HasPrefix`. -/
def startsWith (s pre : String) : Bool := startsWithL s.data pre.data

/-- Go `strings.Contains`. -/
def contains (s sub : String) : Bool := containsL s.data sub.data

/-- Go `strings.Split(s, sep)` for a separator of one rune. -/
def split (s : String) (sep : Char) : List String := (splitL sep s.data []).map String.mk

/-- Go `strings.Fields`. -/
def fields (s : String) : List String := (fieldsL s.data []).map String.mk

/-- Go `strings.TrimSpace`. -/
def trimSpace (s : String) : String :=
  String.mk ((s.data.dropWhile isSpace).reverse.dropWhile isSpace).reverse

/-- Go `strings.TrimPrefix`. -/
def trimStart (s pre : String) : String :=
  if startsWith s pre then String.mk (s.data.drop pre.data.length) else s

/-- First element of `strings.Split(s, sep)`, which is never empty. -/
def splitHead (s : String) (sep : Char) : String :=
  match split s sep with
  | x :: _ => x
  | [] => ""

/-- The digit `d` of a base up to 16 as a lower-case rune. -/
def digitChar (d : Nat) : Char := Char.ofNat (if d < 10 then 48 + d else 87 + d)

/-- The digits of `n` in base `b`, most significant first, in front of `acc`;
`fuel` bounds the number of digits. -/
def toDigitsAux (b : Nat) : Nat → Nat → List Char → List Char
  | 0, _, acc => acc
  | fuel + 1, n, acc =>
    if n < b then digitChar n :: acc
    else toDigitsAux b fuel (n / b) (digitChar (n % b) :: acc)

/-- Go `%x` of a non-negative integer. -/
def hexOfNat (n : Nat) : List Char := toDigitsAux 16 (n + 1) n []

/-- Go `%d` of a non-negative integer. -/
def decOfNat (n : Nat) : List Char := toDigitsAux 10 (n + 1) n []

/-- Go `fmt.Sprintf("%d", x)` for an `int64`. -/
def fmtD (x : Int) : String :=
  if x < 0 then String.mk ('-' :: decOfNat (-x).toNat) else String.mk (decOfNat x.toNat)

/-- Go `fmt.Sprintf("%x", x)` for an `int`. -/
def fmtX (x : Int) : String :=
  if x < 0 then String.mk ('-' :: hexOfNat (-x).toNat) else String.mk (hexOfNat x.toNat)

/-- Go `fmt.Sprintf("%04x", x)` for an `int64`: zero padding to a width of four,
the sign included. -/
def fmtX04 (x : Int) : String :=
  if x < 0 then
    String.mk ('-' :: (List.replicate (3 - (hexOfNat (-x).toNat).length) '0'
      ++ hexOfNat (-x).toNat))
  else
    String.mk (List.replicate (4 - (hexOfNat x.toNat).length) '0' ++ hexOfNat x.toNat)

/-- Conversion of an integer to `int64` (two's complement wrap-around). -/
def wrap64 (x : Int) : Int := (x + 2 ^ 63) % 2 ^ 64 - 2 ^ 63

/-- Value of a hexadecimal digit as `strconv.ParseUint` reads it in base 16. -/
def hexVal (c : Char) : Option Nat :=
  let n := c.toNat
  if 48 ≤ n ∧ n ≤ 57 then some (n - 48)
  else if 97 ≤ n ∧ n ≤ 102 then some (n - 87)
  else if 65 ≤ n ∧ n ≤ 70 then some (n - 55)
  else none

/-- The digit loop of `strconv.ParseUint(s, 16, 64)`: `none` on a rune that is
not a hexadecimal digit and on overflow of 64 bits. -/
def parseUintLoop : List Char → Nat → Option Nat
  | [], n => some n
  | c :: cs, n =>
    match hexVal c with
    | none => none
    | some d =>
      if n ≥ 2 ^ 60 then none
      else if n * 16 + d ≥ 2 ^ 64 then none
      else parseUintLoop cs (n * 16 + d)

/-- Go `strconv.ParseUint(s, 16, 64)`; `none` stands for an error. -/
def parseUint16 (s : List Char) : Option Nat :=
  match s with
  | [] => none
  | _ => parseUintLoop s 0

/-- Go `strconv.ParseInt(s, 16, 64)`; `none` stands for an error. -/
def parseInt16 (s : String) : Option Int :=
  match s.data with
  | [] => none
  | '+' :: rest =>
    match parseUint16 rest with
    | none => none
    | some un => if un ≥ 2 ^ 63 then none else some (un : Int)
  | '-' :: rest =>
    match parseUint16 rest with
    | none => none
    | some un => if un > 2 ^ 63 then none else some (-(un : Int))
  | cs =>
    match parseUint16 cs with
    | none => none
    | some un => if un ≥ 2 ^ 63 then none else some (un : Int)

/-- The UTF-8 bytes of a rune. -/
def utf8Bytes (c : Char) : List Nat :=
  let n := c.toNat
  if n < 0x80 then [n]
  else if n < 0x800 then [0xC0 + n / 64, 0x80 + n % 64]
  else if n < 0x10000 then [0xE0 + n / 4096, 0x80 + n / 64 % 64, 0x80 + n % 64]
  else [0xF0 + n / 262144, 0x80 + n / 4096 % 64, 0x80 + n / 64 % 64, 0x80 + n % 64]

/-- Go `[]byte(s)`: the bytes of a string. -/
def bytesOf (s : String) : List Nat := s.data.flatMap utf8Bytes

/-! ## External commands and configuration -/

/-- An external command: the program and its arguments. -/
abbrev Cmd := List String

/-- What running a command yields: the error (`none` when it ran and exited
with status 0; otherwise its text, such as `exit status 2`) and the combined
output. -/
structure CmdResult where
  err : Option String
  output : String
  deriving DecidableEq, Repr

/-- The system the shaper runs on: the result of every external command, given
the commands run before it, whether `/sys/module/ifb` exists and whether
`exec.LookPath` finds the TC utility. -/
structure Env where
  exec : List Cmd → Cmd → CmdResult
  statIfbModule : Bool
  lookPathTC : Bool

/-- The mutable state of a run: the commands issued so far, oldest first, and
the globals `config.SchedulerType` and `config.Supports64Bit`. -/
structure World where
  trace : List Cmd
  schedulerType : String
  supports64Bit : Bool
  deriving DecidableEq, Repr

/-- A Go `error`: `none` is `nil`, otherwise the message. -/
abbrev Err := Option String

/-- Runs a command (`cmd.Run()` / `cmd.CombinedOutput()`). -/
def run (env : Env) (w : World) (cmd : Cmd) : CmdResult × World :=
  (env.exec w.trace cmd, { w with trace := w.trace ++ [cmd] })

/-- Constant `config.TCPath`. -/
def TCPath : String := "/sbin/tc"

/-- Constant `config.MaxRate32`. -/
def MaxRate32 : Int := 4194303

/-- Constant `config.MaxRate64`. -/
def MaxRate64 : Int := 4194303

/-- Go `fmt.Sprintf(config.IFBFormat, dev)` with `IFBFormat = "ifb-%s"`. -/
def ifbName (dev : String) : String := "ifb-" ++ dev

/-- The text of an error as `%v` prints it (`<nil>` for no error). -/
def errText (e : Err) : String :=
  match e with
  | some m => m
  | none => "<nil>"

/-! ## scheduler: rates and class IDs -/

/-- Go `scheduler.ValidateRate`: the rate to use and the error. -/
def ValidateRate (supports64Bit : Bool) (rate : Int) : Int × Err :=
  if rate < 0 then (0, some "rate cannot be negative")
  else
    let maxRate := if supports64Bit then MaxRate64 else MaxRate32
    if rate = 0 then (maxRate, none)
    else if rate > maxRate then
      (0, some ("rate " ++ fmtD rate ++ " exceeds maximum supported rate " ++ fmtD maxRate))
    else (rate, none)

/-- Go `scheduler.Detect64BitSupport`: try to add a test class on `lo` with a
rate above the 32-bit maximum, delete it again, and report 32-bit support only
when the add failed with `invalid rate` or `overflow` in its output. -/
def Detect64BitSupport (env : Env) (w : World) : Bool × World :=
  let testDev := "lo"
  let testRate : Int := wrap64 (MaxRate32 + 1)
  let r := run env w [TCPath, "class", "add", "dev", testDev,
    "parent", "1:", "classid", "1:999",
    "htb", "rate", fmtD (wrap64 (testRate * 1000)) ++ "bit"]
  let c := run env r.2 [TCPath, "class", "del", "dev", testDev, "classid", "1:999"]
  if r.1.err.isSome && (contains r.1.output "invalid rate" || contains r.1.output "overflow")
  then (false, c.2)
  else (true, c.2)

/-- Offset basis of 64-bit FNV (`offset64` in `hash/fnv`). -/
def offset64 : Nat := 14695981039346656037

/-- Prime of 64-bit FNV (`prime64` in `hash/fnv`). -/
def prime64 : Nat := 1099511628211

/-- Go `(*sum64a).Write`: for every byte, `hash ^= c` then `hash *= prime64` in
`uint64`. -/
def sum64aWrite : Nat → List Nat → Nat
  | hash, [] => hash
  | hash, c :: data => sum64aWrite (((hash ^^^ c) * prime64) % 2 ^ 64) data

/-- Go `scheduler.PeerToClassBase`: `int(h.Sum64() % 0xfff)` of the FNV-1a hash
of the peer string. -/
def PeerToClassBase (peer : String) : Int :=
  ((sum64aWrite offset64 (bytesOf peer) % 0xfff : Nat) : Int)

/-- The FNV-1a hash of 64 bits as its specification gives it: start from the
offset basis and, for each octet, XOR it in and multiply by the FNV prime modulo
`2^64`. -/
def FNV1a_64 (octets : List Nat) : Nat :=
  octets.foldl (fun h o => (h ^^^ o) * 1099511628211 % 18446744073709551616)
    14695981039346656037

/-- The class-ID normalisation of `CreateClass`: split at `:`, require two
parts, parse the second as a hexadecimal `int64`, print it as `1:%04x`. The
error of `strconv.ParseInt` is not spelled out in the message. -/
def normalizeClassID (classID : String) : Except String String :=
  match split classID ':' with
  | [_, num] =>
    match parseInt16 num with
    | none => Except.error "invalid class number"
    | some classNum => Except.ok ("1:" ++ fmtX04 classNum)
  | _ => Except.error "invalid class ID format: must be in format 'handle:number'"

/-- The `class change` of `CreateClass` and, when it fails, the `class add` with
the same arguments; `kind` is the scheduler name and `params` its parameters. -/
def classChangeOrAdd (env : Env) (dev classIDHex kind : String) (params : List String)
    (w : World) : Err × World :=
  let m := run env w ([TCPath, "class", "change", "dev", dev,
    "parent", "1:", "classid", classIDHex, kind] ++ params)
  match m.1.err with
  | none => (none, m.2)
  | some _ =>
    let c := run env m.2 ([TCPath, "class", "add", "dev", dev,
      "parent", "1:", "classid", classIDHex, kind] ++ params)
    match c.1.err with
    | none => (none, c.2)
    | some e =>
      (some ("failed to add " ++ kind ++ " traffic class on " ++ dev ++ ": " ++ e
        ++ "\nOutput: " ++ c.1.output), c.2)

/-- Go `scheduler.CreateClass`: validate the rate, normalise the class ID, then
`class change` and, when that fails, `class add` (nothing for CAKE). -/
def CreateClass (env : Env) (dev classID : String) (rateKbps : Int) (w : World) :
    Err × World :=
  match ValidateRate w.supports64Bit rateKbps with
  | (_, some e) => (some ("invalid rate for class creation: " ++ e), w)
  | (rate, none) =>
    let rateBits := wrap64 (rate * 1000)
    match normalizeClassID classID with
    | Except.error e => (some e, w)
    | Except.ok classIDHex =>
      match w.schedulerType with
      | "cake" => (none, w)
      | "hfsc" =>
        classChangeOrAdd env dev classIDHex "hfsc"
          ["sc", "rate", fmtD rateBits ++ "bit", "ul", "rate", fmtD rateBits ++ "bit"] w
      | _ =>
        classChangeOrAdd env dev classIDHex "htb"
          ["rate", fmtD rateBits ++ "bit", "burst", "15k", "ceil", fmtD rateBits ++ "bit"] w

/-! ## scheduler: filters -/

/-- Go `scheduler.SetupIPv6Filters`. -/
def SetupIPv6Filters (env : Env) (dev classID peer : String) (w : World) : Err × World :=
  let ipOnly := splitHead peer '/'
  if !contains ipOnly ":" then (none, w)
  else
    let r := run env w [TCPath, "filter", "add", "dev", dev,
      "protocol", "ipv6",
      "parent", "1:", "prio", "2",
      "u32", "match", "ip6", "src", ipOnly,
      "flowid", classID]
    match r.1.err with
    | some e => (some ("failed to add IPv6 filter on " ++ dev ++ ": " ++ e), r.2)
    | none => (none, r.2)

/-- Go `scheduler.TryAddFiltersForIP`: a filter matching the source address when
`uploadRate > 0`, one matching the destination address when `downloadRate > 0`,
then the IPv6 filters for an IPv6 address. -/
def TryAddFiltersForIP (env : Env) (dev classID peer : String) (uploadRate downloadRate : Int)
    (w : World) : Err × World :=
  let ipOnly := splitHead peer '/'
  let v6 := contains ipOnly ":"
  let protocol := if v6 then "ipv6" else "ip"
  let matchType := if v6 then "ip6" else "ip"
  let priority := if v6 then "2" else "1"
  let up : Err × World :=
    if uploadRate > 0 then
      let r := run env w [TCPath, "filter", "add", "dev", dev,
        "protocol", protocol, "parent", "1:", "prio", priority,
        "u32", "match", matchType, "src", ipOnly,
        "flowid", classID]
      match r.1.err with
      | some e =>
        (some ("failed to add upload filter on " ++ dev ++ ": " ++ e ++ "\nCommand output: "
          ++ r.1.output), r.2)
      | none => (none, r.2)
    else (none, w)
  match up with
  | (some e, w1) => (some e, w1)
  | (none, w1) =>
    let down : Err × World :=
      if downloadRate > 0 then
        let r := run env w1 [TCPath, "filter", "add", "dev", dev,
          "protocol", protocol, "parent", "1:", "prio", priority,
          "u32", "match", matchType, "dst", ipOnly,
          "flowid", classID]
        match r.1.err with
        | some e =>
          (some ("failed to add download filter on " ++ dev ++ ": " ++ e
            ++ "\nCommand output: " ++ r.1.output), r.2)
        | none => (none, r.2)
      else (none, w1)
    match down with
    | (some e, w2) => (some e, w2)
    | (none, w2) =>
      if contains ipOnly ":" then
        match SetupIPv6Filters env dev classID peer w2 with
        | (some e, w3) => (some ("failed to set up IPv6 filters on " ++ dev ++ ": " ++ e), w3)
        | (none, w3) => (none, w3)
      else (none, w2)

/-- The search for the token after `handle` among the fields of a filter header
line; `none` when there is none. -/
def handleOf : List String → Option String
  | [] => none
  | part :: rest =>
    if part = "handle" then
      match rest with
      | h :: _ => some h
      | [] => handleOf rest
    else handleOf rest

/-- The loop of `ParseFilterOutput` over the lines of the output:
`currentHandle` is the handle of the last header line and is reported, once, on
the first line that mentions the address. -/
def parseFilterLines (targetIP : String) : List String → String → List String
  | [], _ => []
  | line :: lines, currentHandle =>
    let cur :=
      if startsWith line "filter" then
        match handleOf (fields line) with
        | some h => h
        | none => currentHandle
      else currentHandle
    if cur ≠ "" ∧ (contains line ("match " ++ targetIP) ∨ contains line ("src " ++ targetIP)
        ∨ contains line ("dst " ++ targetIP)) then
      cur :: parseFilterLines targetIP lines ""
    else parseFilterLines targetIP lines cur

/-- Go `scheduler.ParseFilterOutput` (and its copy `ifb.parseFilterOutput`). -/
def ParseFilterOutput (output targetIP : String) : List String :=
  parseFilterLines targetIP (split output '\n') ""

/-- Issues one command per handle and ignores the results. -/
def delHandles (env : Env) (mk : String → Cmd) : List String → World → World
  | [], w => w
  | h :: hs, w => delHandles env mk hs (run env w (mk h)).2

/-- The body of `scheduler.RemoveFilter` for one device: list the filters on
`1:` and delete those that match the address by handle. -/
def removeFilterOn (env : Env) (dev ip : String) (w : World) : Err × World :=
  let ipOnly := splitHead ip '/'
  let protocol := if contains ipOnly ":" then "ipv6" else "ip"
  let l := run env w [TCPath, "filter", "show", "dev", dev, "parent", "1:"]
  match l.1.err with
  | some e => (some ("failed to list filters on " ++ dev ++ ": " ++ e), l.2)
  | none =>
    let filters := ParseFilterOutput l.1.output ipOnly
    (none, delHandles env (fun handle => [TCPath, "filter", "del", "dev", dev,
      "parent", "1:",
      "handle", handle, "prio", "1",
      "protocol", protocol]) filters l.2)

/-- Go `scheduler.RemoveFilter`: the removal on `dev` and, when `dev` is not an
IFB device, the same on `ifb-dev`, whose errors are ignored (the inner call is
on a device with the `ifb-` prefix and does not recurse further). -/
def RemoveFilter (env : Env) (dev ip : String) (w : World) : Err × World :=
  match removeFilterOn env dev ip w with
  | (some e, w1) => (some e, w1)
  | (none, w1) =>
    if !startsWith dev "ifb-" then
      (none, (removeFilterOn env (ifbName dev) ip w1).2)
    else (none, w1)

/-- Go `scheduler.AddDefaultFilterOnDevice`. -/
def AddDefaultFilterOnDevice (env : Env) (dev allowedIP : String) (w : World) : Err × World :=
  let ipOnly := splitHead allowedIP '/'
  let v6 := contains ipOnly ":"
  let protocol := if v6 then "ipv6" else "ip"
  let matchType := if v6 then "ip6" else "ip"
  let u := run env w [TCPath, "filter", "add", "dev", dev,
    "parent", "1:",
    "protocol", protocol,
    "prio", "9999",
    "u32", "match", matchType, "src", ipOnly,
    "flowid", "1:99"]
  match u.1.err with
  | some e =>
    (some ("failed to add default upload filter on " ++ dev ++ ": " ++ e ++ ", output: "
      ++ u.1.output), u.2)
  | none =>
    let d := run env u.2 [TCPath, "filter", "add", "dev", dev,
      "parent", "1:",
      "protocol", protocol,
      "prio", "9999",
      "u32", "match", matchType, "dst", ipOnly,
      "flowid", "1:99"]
    match d.1.err with
    | some e =>
      (some ("failed to add default download filter on " ++ dev ++ ": " ++ e ++ ", output: "
        ++ d.1.output), d.2)
    | none => (none, d.2)

/-! ## scheduler: removal -/

/-- The `class del` of a removal attempt and, when its output says `in use`, the
second pass: delete the filter by match again and retry the `class del`. -/
def delClassWithRetry (env : Env) (dev classID protocol matchType dir ipOnly : String)
    (w : World) : World :=
  let c := run env w [TCPath, "class", "del", "dev", dev, "classid", classID]
  match c.1.err with
  | none => c.2
  | some _ =>
    if contains c.1.output "in use" then
      let f := run env c.2 [TCPath, "filter", "del", "dev", dev,
        "parent", "1:", "protocol", protocol, "prio", "1",
        "u32", "match", matchType, dir, ipOnly]
      (run env f.2 [TCPath, "class", "del", "dev", dev, "classid", classID]).2
    else c.2

/-- One pass of the attempt loop of `RemovePeerRateLimitOnDevice`. On the main
interface it removes the download filters (by handle, then by match on `dst`)
and the download class; on an IFB device the upload filters (match on `src`),
the upload class and the ingress redirect filters of the real device. The
result tells whether the class was found and is still listed afterwards. -/
def removeAttempt (env : Env) (dev ipOnly protocol matchType uploadClassID
    downloadClassID : String) (w : World) : Bool × World :=
  let onIfb := startsWith dev "ifb-"
  let dir := if onIfb then "src" else "dst"
  let classID := if onIfb then uploadClassID else downloadClassID
  let l := run env w [TCPath, "filter", "show", "dev", dev, "parent", "1:"]
  let filters := ParseFilterOutput l.1.output ipOnly
  let w1 := delHandles env (fun handle => [TCPath, "filter", "del", "dev", dev,
    "parent", "1:", "handle", handle, "prio", "1",
    "protocol", protocol]) filters l.2
  let m := run env w1 [TCPath, "filter", "del", "dev", dev,
    "parent", "1:", "protocol", protocol, "prio", "1",
    "u32", "match", matchType, dir, ipOnly]
  let chk := run env m.2 [TCPath, "class", "show", "dev", dev]
  let classExists := contains chk.1.output classID
  if classExists then
    let w2 := delClassWithRetry env dev classID protocol matchType dir ipOnly chk.2
    let w3 :=
      if onIfb then
        let realDev := trimStart dev "ifb-"
        let ing := run env w2 [TCPath, "filter", "show", "dev", realDev, "parent", "ffff:"]
        delHandles env (fun handle => [TCPath, "filter", "del", "dev", realDev,
          "parent", "ffff:", "handle", handle, "prio", "1"])
          (ParseFilterOutput ing.1.output ipOnly) ing.2
      else w2
    let v := run env w3 [TCPath, "class", "show", "dev", dev]
    (contains v.1.output classID, v.2)
  else (false, chk.2)

/-- The attempt loop of `RemovePeerRateLimitOnDevice` with `n` attempts left: a
pass that leaves the class listed is repeated unless it was the last one. -/
def removeLoop (body : World → Bool × World) : Nat → World → World
  | 0, w => w
  | n + 1, w =>
    let r := body w
    if r.1 && n ≠ 0 then removeLoop body n r.2 else r.2

/-- Go `scheduler.RemovePeerRateLimitOnDevice`: up to three removal attempts,
then `class replace` of the default class `1:99`; always returns `nil`. -/
def RemovePeerRateLimitOnDevice (env : Env) (dev allowedIP peerKey : String) (w : World) :
    Err × World :=
  let classBase := PeerToClassBase peerKey
  let uploadClassID := "1:" ++ fmtX classBase ++ "1"
  let downloadClassID := "1:" ++ fmtX classBase ++ "2"
  let ipOnly := splitHead allowedIP '/'
  let v6 := contains ipOnly ":"
  let protocol := if v6 then "ipv6" else "ip"
  let matchType := if v6 then "ip6" else "ip"
  let w1 := removeLoop
    (removeAttempt env dev ipOnly protocol matchType uploadClassID downloadClassID) 3 w
  let d := run env w1 [TCPath, "class", "replace", "dev", dev,
    "parent", "1:", "classid", "1:99",
    w1.schedulerType, "rate", fmtD MaxRate64 ++ "000bit"]
  (none, d.2)

/-! ## scheduler: CAKE -/

/-- Go `scheduler.SetupCAKEPerPeerLimits`: for a positive download rate an
ingress qdisc (errors ignored) and a policing filter on `ffff:` matching the
destination; for a positive upload rate a policing filter on `1:` matching the
source. -/
def SetupCAKEPerPeerLimits (env : Env) (iface allowedIP : String) (downloadRate uploadRate : Int)
    (w : World) : Err × World :=
  let ipOnly := splitHead allowedIP '/'
  let v6 := contains ipOnly ":"
  let protocol := if v6 then "ipv6" else "ip"
  let matchType := if v6 then "ip6" else "ip"
  let down : Err × World :=
    if downloadRate > 0 then
      let i := run env w [TCPath, "qdisc", "add", "dev", iface, "ingress"]
      let rateBits := wrap64 (downloadRate * 1000)
      let burst := wrap64 (downloadRate * 125)
      let f := run env i.2 [TCPath, "filter", "add", "dev", iface,
        "parent", "ffff:", "protocol", protocol, "prio", "1",
        "u32", "match", matchType, "dst", ipOnly,
        "police", "rate", fmtD rateBits ++ "bit",
        "burst", fmtD burst,
        "drop", "flowid", ":1"]
      match f.1.err with
      | some e =>
        (some ("failed to add CAKE download filter: " ++ e ++ ", output: " ++ f.1.output), f.2)
      | none => (none, f.2)
    else (none, w)
  match down with
  | (some e, w1) => (some e, w1)
  | (none, w1) =>
    if uploadRate > 0 then
      let rateBits := wrap64 (uploadRate * 1000)
      let burst := wrap64 (uploadRate * 125)
      let f := run env w1 [TCPath, "filter", "add", "dev", iface,
        "parent", "1:", "protocol", protocol, "prio", "1",
        "u32", "match", matchType, "src", ipOnly,
        "police", "rate", fmtD rateBits ++ "bit",
        "burst", fmtD burst,
        "drop", "flowid", ":1"]
      match f.1.err with
      | some e =>
        (some ("failed to add CAKE upload filter: " ++ e ++ ", output: " ++ f.1.output), f.2)
      | none => (none, f.2)
    else (none, w1)

/-- Go `scheduler.RemoveCAKERateLimit`: delete the download filter on `ffff:` and
the upload filter on `1:`, ignoring errors. -/
def RemoveCAKERateLimit (env : Env) (iface allowedIP : String) (w : World) : Err × World :=
  let ipOnly := splitHead allowedIP '/'
  let v6 := contains ipOnly ":"
  let protocol := if v6 then "ipv6" else "ip"
  let matchType := if v6 then "ip6" else "ip"
  let d := run env w [TCPath, "filter", "del", "dev", iface,
    "parent", "ffff:", "protocol", protocol, "prio", "1",
    "u32", "match", matchType, "dst", ipOnly]
  let u := run env d.2 [TCPath, "filter", "del", "dev", iface,
    "parent", "1:", "protocol", protocol, "prio", "1",
    "u32", "match", matchType, "src", ipOnly]
  (none, u.2)

/-! ## qdisc -/

/-- Go `qdisc.CheckIPv6Support`. -/
def CheckIPv6Support (env : Env) (dev : String) (w : World) : Bool × World :=
  let l := run env w [TCPath, "filter", "show", "dev", dev, "parent", "1:"]
  match l.1.err with
  | some _ => (false, l.2)
  | none => (contains l.1.output "protocol ipv6", l.2)

/-- Go `qdisc.NeedsIPv6Support`. -/
def NeedsIPv6Support (allowedIP : String) : Bool := contains allowedIP ":"

/-- Go `qdisc.EnsureIPv6Support`. -/
def EnsureIPv6Support (env : Env) (dev : String) (w : World) : Err × World :=
  match CheckIPv6Support env dev w with
  | (true, w1) => (none, w1)
  | (false, w1) =>
    let r := run env w1 [TCPath, "filter", "add", "dev", dev,
      "protocol", "ipv6", "parent", "1:", "prio", "2",
      "u32", "match", "ip6", "src", "::/0", "flowid", "1:99"]
    match r.1.err with
    | some e => (some ("failed to add IPv6 base filter: " ++ e ++ ", output: " ++ r.1.output), r.2)
    | none => (none, r.2)

/-- Go `qdisc.AddDualStackSupport`: the IPv4 and the IPv6 base filter; failures
are only logged. -/
def AddDualStackSupport (env : Env) (dev : String) (w : World) : Err × World :=
  let a := run env w [TCPath, "filter", "add", "dev", dev,
    "protocol", "ip", "parent", "1:", "prio", "1",
    "u32", "match", "u32", "0", "0", "flowid", "1:99"]
  let b := run env a.2 [TCPath, "filter", "add", "dev", dev,
    "protocol", "ipv6", "parent", "1:", "prio", "2",
    "u32", "match", "ip6", "src", "::/0", "flowid", "1:99"]
  (none, b.2)

/-- The tail of `SetupRootQdisc`: run the `qdisc add`, fail on its error, else
add the dual-stack base filters. -/
def addRootQdisc (env : Env) (dev : String) (cmd : Cmd) (w : World) : Err × World :=
  let r := run env w cmd
  match r.1.err with
  | some e =>
    (some ("failed to set up root qdisc on " ++ dev ++ ": " ++ e ++ "\nOutput: " ++ r.1.output),
      r.2)
  | none => (none, (AddDualStackSupport env dev r.2).2)

/-- Go `qdisc.SetupRootQdisc`: CAKE, with a fall-back to HTB when the CAKE qdisc
cannot be added; HFSC; HTB for every other scheduler type. -/
def SetupRootQdisc (env : Env) (dev : String) (w : World) : Err × World :=
  match w.schedulerType with
  | "cake" =>
    let c := run env w [TCPath, "qdisc", "add", "dev", dev,
      "root", "handle", "1:", "cake", "bandwidth", "1Gbit", "besteffort"]
    match c.1.err with
    | some _ =>
      addRootQdisc env dev [TCPath, "qdisc", "add", "dev", dev,
        "root", "handle", "1:", "htb", "default", "99"] c.2
    | none => (none, c.2)
  | "hfsc" =>
    addRootQdisc env dev [TCPath, "qdisc", "add", "dev", dev,
      "root", "handle", "1:", "hfsc", "default", "99"] w
  | _ =>
    addRootQdisc env dev [TCPath, "qdisc", "add", "dev", dev,
      "root", "handle", "1:", "htb", "default", "99"] w

/-- The scan of the `qdisc show` lines in `CheckAndSetupRootQdiscWithIPv6`: the
second field of the first line that mentions `qdisc` and `root`, is not a
`qdisc noqueue` line and starts with the field `qdisc`. -/
def existingQdiscType : List String → Option String
  | [] => none
  | line :: lines =>
    if contains line "qdisc" ∧ contains line "root" ∧ ¬ contains line "qdisc noqueue" then
      match fields line with
      | p0 :: p1 :: _ => if p0 = "qdisc" then some p1 else existingQdiscType lines
      | _ => existingQdiscType lines
    else existingQdiscType lines

/-- The scan of the `class show` lines in `CheckAndSetupRootQdiscWithIPv6`: is
there a line that mentions `class ` and neither `1:99` nor `root`. -/
def hasActiveClassLine : List String → Bool
  | [] => false
  | line :: lines =>
    if contains line "class " ∧ ¬ contains line "1:99" ∧ ¬ contains line "root" then true
    else hasActiveClassLine lines

/-- The end of `CheckAndSetupRootQdiscWithIPv6`: set the root qdisc up and, on
an `Exclusivity flag on` or `File exists` error, delete the root and ingress
qdiscs and try once more. -/
def setupWithRetry (env : Env) (dev : String) (w : World) : Err × World :=
  match SetupRootQdisc env dev w with
  | (none, w1) => (none, w1)
  | (some e, w1) =>
    if contains e "Exclusivity flag on" ∨ contains e "File exists" then
      let a := run env w1 [TCPath, "qdisc", "del", "dev", dev, "root"]
      let b := run env a.2 [TCPath, "qdisc", "del", "dev", dev, "ingress"]
      match SetupRootQdisc env dev b.2 with
      | (none, w2) => (none, w2)
      | (some e2, w2) => (some ("failed to set up qdisc on " ++ dev ++ ": " ++ e2), w2)
    else (some ("failed to set up qdisc on " ++ dev ++ ": " ++ e), w1)

/-- Go `qdisc.CheckAndSetupRootQdiscWithIPv6` (the `allowedIP` argument is not
used by the source): keep a qdisc of the desired type; keep a qdisc of another
type, and adopt its type, when a class line counts as active; otherwise delete
it and set the desired qdisc up. -/
def CheckAndSetupRootQdiscWithIPv6 (env : Env) (dev : String) (w : World) : Err × World :=
  let chk := run env w [TCPath, "qdisc", "show", "dev", dev]
  match chk.1.err with
  | some e => (some ("failed to check qdisc on " ++ dev ++ ": " ++ e), chk.2)
  | none =>
    let outputStr := chk.1.output
    if contains outputStr ("qdisc " ++ chk.2.schedulerType) then (none, chk.2)
    else
      match existingQdiscType (split outputStr '\n') with
      | none => setupWithRetry env dev chk.2
      | some existing =>
        if existing ≠ "" ∧ existing ≠ chk.2.schedulerType then
          let cl := run env chk.2 [TCPath, "class", "show", "dev", dev]
          let hasActiveClasses :=
            match cl.1.err with
            | none => hasActiveClassLine (split cl.1.output '\n')
            | some _ => false
          if hasActiveClasses then
            (none, { cl.2 with schedulerType := existing })
          else
            let d := run env cl.2 [TCPath, "qdisc", "del", "dev", dev, "root"]
            setupWithRetry env dev d.2
        else setupWithRetry env dev chk.2

/-- Go `qdisc.CheckAndSetupRootQdisc`. -/
def CheckAndSetupRootQdisc (env : Env) (dev : String) (w : World) : Err × World :=
  CheckAndSetupRootQdiscWithIPv6 env dev w

/-- Go `qdisc.NukeInterface`: delete the ingress and root qdiscs, the root qdisc
of the IFB device and the IFB link; every failure is only logged. -/
def NukeInterface (env : Env) (dev : String) (w : World) : Err × World :=
  let ifbDev := ifbName dev
  let a := run env w [TCPath, "qdisc", "del", "dev", dev, "ingress"]
  let b := run env a.2 [TCPath, "qdisc", "del", "dev", dev, "root"]
  let c := run env b.2 [TCPath, "qdisc", "del", "dev", ifbDev, "root"]
  let d := run env c.2 ["ip", "link", "del", ifbDev]
  (none, d.2)

/-! ## ifb -/

/-- Go `ifb.CheckIFBSupport`: the module directory exists, or `modprobe ifb`
succeeds, or a test IFB link can be created (and is deleted again). -/
def CheckIFBSupport (env : Env) (w : World) : Bool × World :=
  if env.statIfbModule then (true, w)
  else
    let m := run env w ["modprobe", "ifb"]
    match m.1.err with
    | none => (true, m.2)
    | some _ =>
      let t := run env m.2 ["ip", "link", "add", "test_ifb", "type", "ifb"]
      match t.1.err with
      | none => (true, (run env t.2 ["ip", "link", "del", "test_ifb"]).2)
      | some _ => (false, t.2)

/-- Go `ifb.SetupIFB`: create the IFB device when it is missing, bring it up,
add and verify the ingress qdisc of the real device when it is missing, then set
up the root qdisc of the IFB device. -/
def SetupIFB (env : Env) (realDev : String) (w : World) : Err × World :=
  let ifbDev := ifbName realDev
  match CheckIFBSupport env w with
  | (false, w1) => (some "IFB is not supported on this system", w1)
  | (true, w1) =>
    let sh := run env w1 ["ip", "link", "show", ifbDev]
    let created : Err × World :=
      match sh.1.err with
      | none => (none, sh.2)
      | some _ =>
        let a := run env sh.2 ["ip", "link", "add", ifbDev, "type", "ifb"]
        match a.1.err with
        | some e =>
          (some ("failed to create IFB device " ++ ifbDev ++ ": " ++ e ++ ", output: "
            ++ a.1.output), a.2)
        | none => (none, a.2)
    match created with
    | (some e, w2) => (some e, w2)
    | (none, w2) =>
      let up := run env w2 ["ip", "link", "set", "dev", ifbDev, "up"]
      match up.1.err with
      | some e =>
        (some ("failed to set IFB device " ++ ifbDev ++ " up: " ++ e ++ ", output: "
          ++ up.1.output), up.2)
      | none =>
        let q := run env up.2 [TCPath, "qdisc", "show", "dev", realDev, "ingress"]
        let ingressExists :=
          match q.1.err with
          | none => contains q.1.output "ingress"
          | some _ => false
        if !ingressExists then
          let a := run env q.2 [TCPath, "qdisc", "add", "dev", realDev, "handle", "ffff:",
            "ingress"]
          match a.1.err with
          | some e => (some ("failed to add ingress qdisc on " ++ realDev ++ ": " ++ e), a.2)
          | none =>
            let v := run env a.2 [TCPath, "qdisc", "show", "dev", realDev, "ingress"]
            if v.1.err.isSome ∨ ¬ contains v.1.output "ingress" then
              (some ("failed to verify ingress qdisc creation on " ++ realDev), v.2)
            else CheckAndSetupRootQdisc env ifbDev v.2
        else CheckAndSetupRootQdisc env ifbDev q.2

/-- The retry loop of `AddIngressRedirect`: up to `n` more tries of the redirect
filter; the error of the last try is returned. -/
def addRedirectLoop (env : Env) (cmd : Cmd) : Nat → World → Err × World
  | 0, w => (none, w)
  | n + 1, w =>
    let f := run env w cmd
    match f.1.err with
    | none => (none, f.2)
    | some e =>
      if n = 0 then
        (some ("failed to add ingress redirect filter after retries: " ++ e ++ ", output: "
          ++ f.1.output), f.2)
      else addRedirectLoop env cmd n f.2

/-- Go `ifb.AddIngressRedirect`: require the ingress qdisc, delete the existing
redirect filters for the address by handle, then add the redirect filter with up
to three tries. -/
def AddIngressRedirect (env : Env) (realDev allowedIP ifb : String) (w : World) : Err × World :=
  let q := run env w [TCPath, "qdisc", "show", "dev", realDev, "ingress"]
  if q.1.err.isSome ∨ ¬ contains q.1.output "ingress" then
    (some ("ingress qdisc not found on " ++ realDev), q.2)
  else
    let ipOnly := splitHead allowedIP '/'
    let v6 := contains ipOnly ":"
    let protocol := if v6 then "ipv6" else "ip"
    let matchType := if v6 then "ip6" else "ip"
    let l := run env q.2 [TCPath, "filter", "show", "dev", realDev, "parent", "ffff:"]
    let w1 := delHandles env (fun handle => [TCPath, "filter", "del", "dev", realDev,
      "parent", "ffff:", "handle", handle, "prio", "1"])
      (ParseFilterOutput l.1.output ipOnly) l.2
    addRedirectLoop env [TCPath, "filter", "add", "dev", realDev,
      "parent", "ffff:",
      "protocol", protocol,
      "prio", "1",
      "u32",
      "match", matchType, "src", ipOnly,
      "action", "mirred", "egress", "redirect", "dev", ifb] 3 w1

/-- Go `ifb.SetupBasicTCShaping`: add the ingress qdisc (errors only logged) and
a policing filter on `ffff:` matching the allowed IP as source. -/
def SetupBasicTCShaping (env : Env) (dev allowedIP : String) (rateKbps : Int) (w : World) :
    Err × World :=
  let i := run env w [TCPath, "qdisc", "add", "dev", dev, "ingress"]
  let rateBits := wrap64 (rateKbps * 1000)
  let burst := wrap64 (rateKbps * 125)
  let ipOnly := splitHead allowedIP '/'
  let v6 := contains ipOnly ":"
  let protocol := if v6 then "ipv6" else "ip"
  let matchType := if v6 then "ip6" else "ip"
  let f := run env i.2 [TCPath, "filter", "add", "dev", dev, "parent", "ffff:",
    "protocol", protocol, "prio", "1", "u32",
    "match", matchType, "src", allowedIP,
    "police", "rate", fmtD rateBits ++ "bit",
    "burst", fmtD burst,
    "drop", "flowid", ":1"]
  match f.1.err with
  | some e => (some ("failed to add policing filter: " ++ e ++ ", output: " ++ f.1.output), f.2)
  | none => (none, f.2)

/-! ## main -/

/-- The command-line flags of the shaper after `flag.Parse`, with their
defaults. -/
structure Flags where
  iface : String := ""
  peerKey : String := ""
  uploadRate : Int := 0
  downloadRate : Int := 0
  protocol : String := "wg"
  remove : Bool := false
  nuke : Bool := false
  scheduler : String := "htb"
  allowedIPs : String := ""
  deriving DecidableEq, Repr

/-- The pattern `if err := f(...); err != nil { log; os.Exit(1) }` of `main`: exit
with status 1 on an error, else go on. -/
def orExit (r : Err × World) (k : World → Nat × World) : Nat × World :=
  match r with
  | (some _, w) => (1, w)
  | (none, w) => k w

/-- The `-remove` branch of `main`. -/
def mainRemove (env : Env) (f : Flags) (allowedIP : String) (w : World) : Nat × World :=
  if w.schedulerType = "cake" then
    orExit (RemoveCAKERateLimit env f.iface allowedIP w) fun w1 => (0, w1)
  else
    orExit (RemovePeerRateLimitOnDevice env f.iface allowedIP f.peerKey w) fun w1 =>
    let sh := run env w1 ["ip", "link", "show", ifbName f.iface]
    let last := fun (w : World) =>
      orExit (AddDefaultFilterOnDevice env f.iface allowedIP w) fun w5 => (0, w5)
    match sh.1.err with
    | none =>
      orExit (RemovePeerRateLimitOnDevice env (ifbName f.iface) allowedIP f.peerKey sh.2) fun w2 =>
      orExit (AddDefaultFilterOnDevice env (ifbName f.iface) allowedIP w2) fun w3 =>
      last w3
    | some _ => last sh.2

/-- The upload section of `main` for HTB and HFSC. -/
def mainUpload (env : Env) (f : Flags) (allowedIP uploadClassID : String) (uploadRate : Int)
    (w : World) : Nat × World :=
  if uploadRate > 0 then
    let ifbDev := ifbName f.iface
    match SetupIFB env f.iface w with
    | (some e, w1) =>
      if e = "IFB is not supported on this system" then
        orExit (SetupBasicTCShaping env f.iface allowedIP uploadRate w1) fun w2 => (0, w2)
      else (1, w1)
    | (none, w1) =>
      orExit (AddIngressRedirect env f.iface allowedIP ifbDev w1) fun w2 =>
      orExit (CheckAndSetupRootQdisc env ifbDev w2) fun w3 =>
      orExit (CreateClass env ifbDev uploadClassID uploadRate w3) fun w4 =>
      orExit (TryAddFiltersForIP env ifbDev uploadClassID allowedIP uploadRate 0 w4) fun w5 =>
      (0, w5)
  else if uploadRate = 0 then
    orExit (RemoveFilter env (ifbName f.iface) allowedIP w) fun w1 => (0, w1)
  else (0, w)

/-- The apply part of `main`: root qdisc, IPv6 support, class IDs, then either
the CAKE limits or the download and upload sections. -/
def mainApply (env : Env) (f : Flags) (allowedIP : String) (uploadRate downloadRate : Int)
    (w : World) : Nat × World :=
  orExit (CheckAndSetupRootQdiscWithIPv6 env f.iface w) fun w1 =>
  let w2 := if NeedsIPv6Support allowedIP then (EnsureIPv6Support env f.iface w1).2 else w1
  let classBase := PeerToClassBase f.peerKey
  let downloadClassID := "1:" ++ fmtX classBase ++ "2"
  let uploadClassID := "1:" ++ fmtX classBase ++ "1"
  if w2.schedulerType = "cake" then
    orExit (SetupCAKEPerPeerLimits env f.iface allowedIP downloadRate uploadRate w2) fun w3 =>
    (0, w3)
  else if downloadRate > 0 then
    orExit (CreateClass env f.iface downloadClassID downloadRate w2) fun w3 =>
    orExit (TryAddFiltersForIP env f.iface downloadClassID allowedIP 0 downloadRate w3) fun w4 =>
    mainUpload env f allowedIP uploadClassID uploadRate w4
  else if downloadRate = 0 then
    orExit (RemoveFilter env f.iface allowedIP w2) fun w3 =>
    mainUpload env f allowedIP uploadClassID uploadRate w3
  else mainUpload env f allowedIP uploadClassID uploadRate w2

/-- Go `main` of the shaper, from the parsed flags to the exit status and the
commands issued: nuke first; otherwise the 64-bit probe, the validation of the
rates, of the required flags and of the protocol, the look-up of the TC
utility, and then the remove or the apply branch. The logger is taken to have
been opened by `init`; the deferred `recover` only runs on a panic, and nothing
here panics. The result is the exit status and the final state. -/
def main (env : Env) (f : Flags) : Nat × World :=
  let w0 : World := { trace := [], schedulerType := f.scheduler, supports64Bit := false }
  if f.nuke then
    if f.iface = "" then (1, w0)
    else orExit (NukeInterface env f.iface w0) fun w => (0, w)
  else
    let d := Detect64BitSupport env w0
    let w1 : World := { d.2 with supports64Bit := d.1 }
    match ValidateRate w1.supports64Bit f.uploadRate with
    | (_, some _) => (1, w1)
    | (uploadRate, none) =>
      match ValidateRate w1.supports64Bit f.downloadRate with
      | (_, some _) => (1, w1)
      | (downloadRate, none) =>
        if f.iface = "" ∨ f.peerKey = "" ∨ f.protocol = "" ∨ f.allowedIPs = "" then (1, w1)
        else if f.protocol ≠ "wg" ∧ f.protocol ≠ "awg" then (1, w1)
        else if !env.lookPathTC then (1, w1)
        else
          let allowedIP := trimSpace (splitHead f.allowedIPs ',')
          if f.remove then mainRemove env f allowedIP w1
          else mainApply env f allowedIP uploadRate downloadRate w1

/-- The kind of the root qdisc of `dev` that the commands of `hist` leave: that
of the last `qdisc add ... root` not followed by a `qdisc del ... root`. -/
def rootKind (dev : String) : List Cmd → Option String
  | [] => none
  | cmd :: hist =>
    match rootKind dev hist with
    | some k => some k
    | none =>
      match cmd with
      | "/sbin/tc" :: "qdisc" :: "add" :: "dev" :: d :: "root" :: "handle" :: "1:" :: kind :: _ =>
        if d = dev then some kind else none
      | _ => none

/-- Whether the commands of `hist` have added the class `classID` on `dev`. -/
def classAdded (dev classID : String) : List Cmd → Bool
  | [] => false
  | cmd :: hist =>
    match cmd with
    | "/sbin/tc" :: "class" :: "add" :: "dev" :: d :: "parent" :: "1:" :: "classid" :: c :: _ =>
      (d = dev && c = classID) || classAdded dev classID hist
    | _ => classAdded dev classID hist

/-- A freshly booted system on which the shaper may do everything: the IFB module
is loaded, the TC utility is installed, no interface has a qdisc yet and no IFB
device exists. `qdisc show` and `ip link show` report what the earlier commands
have set up; a class can be added where a root qdisc exists and changed or
deleted once it has been added; every other command succeeds without output. -/
def freshSystem : Env where
  statIfbModule := true
  lookPathTC := true
  exec := fun hist cmd =>
    match cmd with
    | ["/sbin/tc", "qdisc", "show", "dev", dev] =>
      match rootKind dev hist.reverse with
      | some kind => ⟨none, "qdisc " ++ kind ++ " 1: root refcnt 2 \n"⟩
      | none => ⟨none, "qdisc noqueue 0: root refcnt 2 \n"⟩
    | ["/sbin/tc", "qdisc", "show", "dev", dev, "ingress"] =>
      if ["/sbin/tc", "qdisc", "add", "dev", dev, "handle", "ffff:", "ingress"] ∈ hist then
        ⟨none, "qdisc ingress ffff: parent ffff:fff1 ---------------- \n"⟩
      else ⟨none, ""⟩
    | ["ip", "link", "show", dev] =>
      if ["ip", "link", "add", dev, "type", "ifb"] ∈ hist then
        ⟨none, "7: " ++ dev ++ ": <BROADCAST,NOARP,UP,LOWER_UP> mtu 1500 \n"⟩
      else ⟨some "exit status 1", "Device " ++ dev ++ " does not exist.\n"⟩
    | "/sbin/tc" :: "class" :: "add" :: "dev" :: dev :: _ =>
      match rootKind dev hist.reverse with
      | some _ => ⟨none, ""⟩
      | none => ⟨some "exit status 2", "Error: Failed to find specified qdisc.\n"⟩
    | "/sbin/tc" :: "class" :: "change" :: "dev" :: dev :: "parent" :: "1:" :: "classid" :: c
        :: _ =>
      if classAdded dev c hist then ⟨none, ""⟩
      else ⟨some "exit status 2", "RTNETLINK answers: No such file or directory\n"⟩
    | ["/sbin/tc", "class", "del", "dev", dev, "classid", c] =>
      if classAdded dev c hist then ⟨none, ""⟩
      else ⟨some "exit status 2", "RTNETLINK answers: No such file or directory\n"⟩
    | _ => ⟨none, ""⟩


/-! ## Inputs and predicates of the properties -/

/-- The lower-case hexadecimal digits `[0-9a-f]`. -/
def isLowerHex (c : Char) : Bool :=
  (48 ≤ c.toNat && c.toNat ≤ 57) || (97 ≤ c.toNat && c.toNat ≤ 102)

/-- Whether a string matches the pattern `^1:[0-9a-f]{4}$`. -/
def matchesClassID (s : String) : Bool :=
  match s.data with
  | '1' :: ':' :: rest => rest.length == 4 && rest.all isLowerHex
  | _ => false

/-- The probe commands of `Detect64BitSupport`: add the test class, delete it. -/
def probeCmds : List Cmd :=
  [["/sbin/tc", "class", "add", "dev", "lo", "parent", "1:", "classid", "1:999",
      "htb", "rate", "4194304000bit"],
   ["/sbin/tc", "class", "del", "dev", "lo", "classid", "1:999"]]

/-- The invocation `-interface wg0 -peer peerA -upload-rate 1000 -download-rate 0
-scheduler htb -allowed-ips 10.0.0.2/32`. -/
def zeroDownloadFlags : Flags :=
  { iface := "wg0", peerKey := "peerA", uploadRate := 1000, downloadRate := 0,
    scheduler := "htb", allowedIPs := "10.0.0.2/32" }

/-- The invocation of the case `Basic injection` of `TestCommandInjection`:
`-interface lo -peer "test_peer; echo 'injected'" -upload-rate 1000
-download-rate 2000 -scheduler htb -allowed-ips 127.0.0.1/32`. -/
def injectionFlags : Flags :=
  { iface := "lo", peerKey := "test_peer; echo 'injected'", uploadRate := 1000,
    downloadRate := 2000, scheduler := "htb", allowedIPs := "127.0.0.1/32" }

/-- The invocation of `TestSchedulerSecurity` with the scheduler `sched`:
`-interface lo -peer test_peer_scheduler -upload-rate 1000 -download-rate 2000
-allowed-ips 127.0.0.1/32 -scheduler sched`. -/
def schedulerFlags (sched : String) : Flags :=
  { iface := "lo", peerKey := "test_peer_scheduler", uploadRate := 1000,
    downloadRate := 2000, scheduler := sched, allowedIPs := "127.0.0.1/32" }

/-- The invocation `-interface lo -peer test_peer -upload-rate -1000 -download-rate
2000 -scheduler htb -allowed-ips 127.0.0.1/32` (the case `Negative rate` of
`TestInputValidation`). -/
def negativeRateFlags : Flags :=
  { iface := "lo", peerKey := "test_peer", uploadRate := -1000, downloadRate := 2000,
    scheduler := "htb", allowedIPs := "127.0.0.1/32" }

/-- A system whose device has an HTB root qdisc with a peer class `1:12` and the
default class `1:99`, both directly under the root qdisc, which is how
`tc class show` lists classes created with `parent 1:`. Every other command
succeeds without output. -/
def htbWithPeerClass : Env where
  statIfbModule := true
  lookPathTC := true
  exec := fun _ cmd =>
    match cmd with
    | ["/sbin/tc", "qdisc", "show", "dev", _] =>
      ⟨none, "qdisc htb 1: root refcnt 2 r2q 10 default 0x99 direct_packets_stat 0\n"⟩
    | ["/sbin/tc", "class", "show", "dev", _] =>
      ⟨none, "class htb 1:12 root prio 0 rate 1Mbit ceil 1Mbit burst 15Kb cburst 1600b \n"
        ++ "class htb 1:99 root prio 0 rate 4194Mbit ceil 4194Mbit burst 0b cburst 0b \n"⟩
    | _ => ⟨none, ""⟩

/-- A system as `htbWithPeerClass`, but the peer class `1:12` hangs below an inner
class `1:1`, so that its line in `tc class show` names a parent instead of
`root`. -/
def htbWithLeafClass : Env where
  statIfbModule := true
  lookPathTC := true
  exec := fun _ cmd =>
    match cmd with
    | ["/sbin/tc", "qdisc", "show", "dev", _] =>
      ⟨none, "qdisc htb 1: root refcnt 2 r2q 10 default 0x99 direct_packets_stat 0\n"⟩
    | ["/sbin/tc", "class", "show", "dev", _] =>
      ⟨none, "class htb 1:12 parent 1:1 prio 0 rate 1Mbit ceil 1Mbit burst 15Kb cburst 1600b \n"⟩
    | _ => ⟨none, ""⟩

/-! ## peer: parsing the output of `wg show` -/

/-- Go `dropCR` of `bufio`: drop one trailing carriage return. -/
def dropCR (l : List Char) : List Char :=
  match l.reverse with
  | '\r' :: rest => rest.reverse
  | _ => l

/-- Constant `bufio.MaxScanTokenSize`. -/
def MaxScanTokenSize : Nat := 65536

/-- Whether a line does not fit the buffer of a `bufio.Scanner`: its bytes fill
the `MaxScanTokenSize` bytes of the buffer before a newline or the end of the
input is seen. -/
def tooLong (piece : List Char) : Bool :=
  decide (MaxScanTokenSize ≤ (piece.flatMap utf8Bytes).length)

/-- The tokens that `scanner.Scan()` / `scanner.Text()` deliver with the default
split function `bufio.ScanLines`, from the pieces between the newlines of the
input: each piece without its trailing carriage return; an empty last piece is
no token; the scan stops (`ErrTooLong`) at a piece that does not fit the
buffer. -/
def scanTokens : List (List Char) → List (List Char)
  | [] => []
  | [last] => if last.isEmpty || tooLong last then [] else [dropCR last]
  | piece :: rest => if tooLong piece then [] else dropCR piece :: scanTokens rest

/-- The lines a `bufio.Scanner` over `strings.NewReader(output)` yields. -/
def scanLines (output : String) : List String :=
  (scanTokens (splitL '\n' output.data [])).map String.mk

/-- The part of `l` before the first `sep` and the part after it, when `sep`
occurs in `l`. -/
def cutL (sep : Char) : List Char → List Char → Option (List Char × List Char)
  | [], _ => none
  | c :: cs, cur => if c = sep then some (cur.reverse, cs) else cutL sep cs (c :: cur)

/-- Go `strings.SplitN(s, sep, 2)` for a separator of one rune: `some (a, b)` for
the two parts around the first separator, `none` when the result has one part
only. -/
def splitN2 (s : String) (sep : Char) : Option (String × String) :=
  match cutL sep s.data [] with
  | some (a, b) => some (String.mk a, String.mk b)
  | none => none

/-- Go `config.PeerInfo`. -/
structure PeerInfo where
  PublicKey : String
  AllowedIPs : List String
  deriving DecidableEq, Repr

/-- The addresses one `allowed ips` line contributes: the value after the first
colon, trimmed, split at commas, each part trimmed, the empty ones left out. -/
def allowedIPsOfLine (line : String) : List String :=
  match splitN2 line ':' with
  | some (_, value) =>
    ((split (trimSpace value) ',').map trimSpace).filter (fun ip => ip ≠ "")
  | none => []

/-- The scan loop of `ParsePeerInfo` over the remaining lines: `foundPeer` and
the allowed IPs collected so far go in, their final values come out. -/
def parsePeerLines (targetPeerKey : String) : List String → Bool → List String →
    Bool × List String
  | [], foundPeer, ips => (foundPeer, ips)
  | text :: rest, foundPeer, ips =>
    let line := trimSpace text
    if contains line targetPeerKey then parsePeerLines targetPeerKey rest true ips
    else if foundPeer && (contains line "allowed ip" || contains line "allowed_ip") then
      parsePeerLines targetPeerKey rest foundPeer (ips ++ allowedIPsOfLine line)
    else parsePeerLines targetPeerKey rest foundPeer ips

/-- Go `peer.ParsePeerInfo`: the peer information, or the error
`peer not found in output`. -/
def ParsePeerInfo (output targetPeerKey : String) : Except String PeerInfo :=
  match parsePeerLines targetPeerKey (scanLines output) false [] with
  | (true, ips) => Except.ok { PublicKey := targetPeerKey, AllowedIPs := ips }
  | (false, _) => Except.error ("peer not found in output: " ++ output)

/-! ## Further inputs of the properties -/

/-- The output of `wg show wg0` for an interface with two peers, `AAAA=` with
the allowed IP `10.0.0.2/32` and `BBBB=` with `10.0.0.3/32`. -/
def twoPeerOutput : String :=
  "interface: wg0\n  public key: SSSS=\n  listening port: 51820\n\n"
    ++ "peer: AAAA=\n  endpoint: 192.0.2.1:51820\n  allowed ips: 10.0.0.2/32\n\n"
    ++ "peer: BBBB=\n  endpoint: 192.0.2.2:51820\n  allowed ips: 10.0.0.3/32\n"

/-- A filter listing with two filters: handle `800::800` matches the destination
`10.0.0.10`, handle `800::801` the destination `10.0.0.1`. -/
def twoFilterOutput : String :=
  "filter parent 1: protocol ip pref 1 u32 handle 800::800 flowid 1:dc92\n"
    ++ "  match ip dst 10.0.0.10\n"
    ++ "filter parent 1: protocol ip pref 1 u32 handle 800::801 flowid 1:69b2\n"
    ++ "  match ip dst 10.0.0.1\n"

/-- A system on which every external command fails with exit status 2, as the
TC commands do on an interface without a root qdisc; the TC utility is
installed. -/
def failingSystem : Env where
  statIfbModule := true
  lookPathTC := true
  exec := fun _ _ => ⟨some "exit status 2", "Error: Failed to find specified qdisc.\n"⟩

/-- The invocation `-interface wg0 -peer peerA -allowed-ips 10.0.0.2/32 -remove`
(rates 0, protocol `wg`, scheduler `htb` by default). -/
def removeFlags : Flags :=
  { iface := "wg0", peerKey := "peerA", allowedIPs := "10.0.0.2/32", remove := true }

/-- The start state of a run with scheduler `htb`. -/
def htbWorld : World := { trace := [], schedulerType := "htb", supports64Bit := true }

end Weir

namespace Pipe

/-! ## Destination connections (`Src/udptlspipe/internal/pipe/server.go`) -/

/-- A Go `net.Conn` interface value: `none` is the nil interface, `some i` the
connection with identity `i`. -/
abbrev NetConn := Option Nat

/-- The state that the tracking of destination connections touches: the keys of
the map `Server.dstConns`, the connections on which `Close` has been called, and
how often `log.OnCloserError` was handed the nil interface. -/
structure DstState where
  dstConns : List NetConn
  closed : List Nat
  nilCloserCalls : Nat
  deriving DecidableEq, Repr

/-- Library function `log.OnCloserError(conn, level)`: it calls `conn.Close()` and
logs the error, if any. A call with the nil interface has no connection to
close and is only counted here. -/
def onCloserError (s : DstState) (conn : NetConn) : DstState :=
  match conn with
  | some c => { s with closed := c :: s.closed }
  | none => { s with nilCloserCalls := s.nilCloserCalls + 1 }

/-- Go `Server.saveDstConn`: `s.dstConns[conn] = struct{}{}`. -/
def saveDstConn (s : DstState) (conn : NetConn) : DstState :=
  if conn ∈ s.dstConns then s else { s with dstConns := conn :: s.dstConns }

/-- Go `Server.closeDstConn`: return at once when `conn != nil`; otherwise
`log.OnCloserError(conn, ...)` and `delete(s.dstConns, conn)`. -/
def closeDstConn (s : DstState) (conn : NetConn) : DstState :=
  if conn ≠ none then s
  else
    let s1 := onCloserError s conn
    { s1 with dstConns := s1.dstConns.filter (fun c => c ≠ conn) }

/-- Go `Server.processConn`, as far as the tracking of the destination
connection goes. `dial` is the result of `s.dialDst()` (`none` for an error).
The argument of `defer s.closeDstConn(dstConn)` is evaluated at the `defer`
statement, where `dstConn` is still nil; the deferred call runs when the
function returns, after the dial error or after the upgrade and the tunnel,
which do not touch `dstConns`. -/
def processConn (s : DstState) (dial : Option Nat) : DstState :=
  let dstConn : NetConn := none
  let deferred := dstConn
  match dial with
  | none => closeDstConn s deferred
  | some c => closeDstConn (saveDstConn s (some c)) deferred

end Pipe

/-! # Properties -/

namespace Tunnel

/-! ## Codec lemmas -/

theorem copyAt_append (pre mid post src : List Byte) (off : Nat)
    (hoff : off = pre.length) (h : mid.length = src.length) :
    copyAt (pre ++ mid ++ post) off src = pre ++ src ++ post := by
  subst hoff
  unfold copyAt
  have h1 : (pre ++ mid ++ post).length - pre.length = mid.length + post.length := by
    simp only [List.length_append]; omega
  rw [h1]
  have h2 : min (mid.length + post.length) src.length = mid.length := by omega
  rw [h2]
  have h3 : src.take (mid.length + post.length) = src := by
    apply List.take_of_length_le; omega
  rw [h3]
  have h4 : (pre ++ mid ++ post).take pre.length = pre := by
    rw [List.append_assoc, List.take_left]
  have h5 : (pre ++ mid ++ post).drop (pre.length + mid.length) = post := by
    have : pre.length + mid.length = (pre ++ mid).length := by simp
    rw [this, List.drop_left]
  rw [h4, h5]

theorem makeBytes_add (m n : Nat) : makeBytes (m + n) = makeBytes m ++ makeBytes n := by
  unfold makeBytes
  exact (List.append_replicate_replicate).symm

theorem makeBytes_length (n : Nat) : (makeBytes n).length = n := by
  unfold makeBytes
  exact List.length_replicate _ _

theorem uint16Bytes_length (v : Nat) : (uint16Bytes v).length = 2 := rfl

theorem pack_eq (b p : List Byte) :
    pack b p = uint16Bytes (uint16 b.length) ++ b ++ uint16Bytes (uint16 p.length) ++ p := by
  have e0 : makeBytes (b.length + p.length + 4)
      = [] ++ makeBytes 2 ++ (makeBytes b.length ++ (makeBytes 2 ++ makeBytes p.length)) := by
    rw [List.nil_append, ← makeBytes_add, ← makeBytes_add, ← makeBytes_add]
    congr 1; omega
  have s1 : putUint16At (makeBytes (b.length + p.length + 4)) 0 (uint16 b.length)
      = uint16Bytes (uint16 b.length) ++ makeBytes b.length
          ++ (makeBytes 2 ++ makeBytes p.length) := by
    rw [e0]
    have := copyAt_append [] (makeBytes 2)
      (makeBytes b.length ++ (makeBytes 2 ++ makeBytes p.length))
      (uint16Bytes (uint16 b.length)) 0 rfl rfl
    rw [List.nil_append] at this ⊢
    rw [List.append_assoc]
    exact this
  have s2 : copyAt (uint16Bytes (uint16 b.length) ++ makeBytes b.length
          ++ (makeBytes 2 ++ makeBytes p.length)) 2 b
      = (uint16Bytes (uint16 b.length) ++ b) ++ makeBytes 2 ++ makeBytes p.length := by
    have := copyAt_append (uint16Bytes (uint16 b.length)) (makeBytes b.length)
      (makeBytes 2 ++ makeBytes p.length) b 2 rfl (makeBytes_length _)
    rw [this]
    simp only [List.append_assoc]
  have s3 : putUint16At ((uint16Bytes (uint16 b.length) ++ b) ++ makeBytes 2
          ++ makeBytes p.length) (b.length + 2) (uint16 p.length)
      = (uint16Bytes (uint16 b.length) ++ b ++ uint16Bytes (uint16 p.length))
          ++ makeBytes p.length ++ [] := by
    have := copyAt_append (uint16Bytes (uint16 b.length) ++ b) (makeBytes 2)
      (makeBytes p.length) (uint16Bytes (uint16 p.length)) (b.length + 2)
      (by rw [List.length_append, uint16Bytes_length]; omega) rfl
    rw [List.append_nil]
    exact this
  have s4 : copyAt ((uint16Bytes (uint16 b.length) ++ b ++ uint16Bytes (uint16 p.length))
          ++ makeBytes p.length ++ []) (b.length + 4) p
      = uint16Bytes (uint16 b.length) ++ b ++ uint16Bytes (uint16 p.length) ++ p := by
    have := copyAt_append (uint16Bytes (uint16 b.length) ++ b ++ uint16Bytes (uint16 p.length))
      (makeBytes p.length) [] p (b.length + 4)
      (by simp only [List.length_append, uint16Bytes_length]; omega) (makeBytes_length _)
    rw [this, List.append_nil]
  unfold pack
  simp only []
  rw [s1, s2, s3, s4]

theorem bigEndianUint16_toByte (v : Nat) (h : v < 65536) :
    bigEndianUint16 (toByte (v / 256)) (toByte v) = v := by
  simp only [bigEndianUint16, toByte]
  omega

theorem readFull_append (x rest : List Byte) :
    readFull (x ++ rest) x.length = (none, x, rest) := by
  unfold readFull
  by_cases h0 : x.length = 0
  · have : x = [] := List.length_eq_zero.mp h0
    subst this; simp
  · have h1 : ¬ (x ++ rest).length = 0 := by simp only [List.length_append]; omega
    have h2 : ¬ (x ++ rest).length < x.length := by simp only [List.length_append]; omega
    simp only [h0, h1, h2, if_false, List.take_left, List.drop_left]

theorem binaryReadUint16_bytes (v : Nat) (h : v < 65536) (rest : List Byte) :
    binaryReadUint16 (uint16Bytes v ++ rest) = (none, v, rest) := by
  have := readFull_append (uint16Bytes v) rest
  rw [uint16Bytes_length] at this
  unfold binaryReadUint16
  rw [this]
  simp only [uint16Bytes, bigEndianUint16_toByte v h]

theorem readPrefixed_bytes (x rest out : List Byte) (log : List Nat)
    (h : x.length < 65536) :
    readPrefixed ⟨uint16Bytes x.length ++ x ++ rest, out, log⟩
      = ((x, none), ⟨rest, out, logAfter log x.length⟩) := by
  unfold readPrefixed
  simp only [List.append_assoc]
  rw [binaryReadUint16_bytes _ h]
  simp only [readFull_append, logAfter]

theorem uint16_of_lt (n : Nat) (h : n < 65536) : uint16 n = n := Nat.mod_eq_of_lt h

/-- Calling `MsgReadWriter.Read` on a stream that starts with `pack b p`: both fields are
read, the stream advances past the message, and the body is delivered when the
buffer is long enough. -/
theorem Read_pack (b p rest out buf : List Byte) (log : List Nat)
    (hb : b.length < 65536) (hp : p.length < 65536) :
    MsgReadWriter.Read ⟨pack b p ++ rest, out, log⟩ buf =
      if buf.length < b.length then
        { n := 0, err := some (IOError.bufferTooSmall b.length buf.length), buf := buf,
          rw := ⟨rest, out, logAfter (logAfter log b.length) p.length⟩ }
      else
        { n := b.length, err := none, buf := b ++ buf.drop b.length,
          rw := ⟨rest, out, logAfter (logAfter log b.length) p.length⟩ } := by
  rw [pack_eq, uint16_of_lt _ hb, uint16_of_lt _ hp]
  unfold MsgReadWriter.Read
  have e : uint16Bytes b.length ++ b ++ uint16Bytes p.length ++ p ++ rest
      = uint16Bytes b.length ++ b ++ (uint16Bytes p.length ++ p ++ rest) := by
    simp only [List.append_assoc]
  rw [e, readPrefixed_bytes b _ out log hb]
  simp only []
  rw [readPrefixed_bytes p rest out _ hp]
  simp only []
  by_cases hlen : buf.length < b.length
  · simp only [hlen, if_true]
  · simp only [hlen, if_false]
    congr 1
    unfold copyAt
    have : min (buf.length - 0) b.length = b.length := by omega
    simp only [List.take_zero, List.nil_append, Nat.sub_zero, Nat.zero_add]
    rw [Nat.sub_zero] at this
    rw [this, List.take_of_length_le (by omega)]

theorem pack_length (b p : List Byte) : (pack b p).length = b.length + p.length + 4 := by
  rw [pack_eq]
  simp only [List.length_append, uint16Bytes_length]
  omega

theorem mem_logAfter (log : List Nat) (n x : Nat) (h : x ∈ log) : x ∈ logAfter log n := by
  unfold logAfter
  split
  · exact List.mem_append_left _ h
  · exact h

theorem mem_logAfter_self (log : List Nat) (n : Nat) (h : MaxMessageLength < n) :
    n ∈ logAfter log n := by
  unfold logAfter
  simp [h]

theorem Read_pack_fits (b p rest out buf : List Byte) (log : List Nat)
    (hb : b.length < 65536) (hp : p.length < 65536) (hfit : b.length ≤ buf.length) :
    (MsgReadWriter.Read ⟨pack b p ++ rest, out, log⟩ buf).err = none ∧
    (MsgReadWriter.Read ⟨pack b p ++ rest, out, log⟩ buf).n = b.length ∧
    (MsgReadWriter.Read ⟨pack b p ++ rest, out, log⟩ buf).buf.take b.length = b := by
  have hlt : ¬ buf.length < b.length := by omega
  rw [Read_pack b p rest out buf log hb hp]
  simp only [hlt, if_false, List.take_left, and_self]

theorem Read_pack_rw (b p rest out buf : List Byte) (log : List Nat)
    (hb : b.length < 65536) (hp : p.length < 65536) :
    (MsgReadWriter.Read ⟨pack b p ++ rest, out, log⟩ buf).rw
      = ⟨rest, out, logAfter (logAfter log b.length) p.length⟩ := by
  rw [Read_pack b p rest out buf log hb hp]
  split <;> rfl

/-! ## Codec properties -/

/-- C1: for every body `b` of at most 1320 bytes and every padding `p` of 1 to
256 bytes (any contents), `MsgReadWriter.Read` on a stream that holds
`pack b p`, called with a buffer of at least `|b|` bytes, returns `n = |b|`
with no error, and the first `n` bytes of the buffer are `b`. -/
theorem read_pack_roundtrip (b p rest out buf : List Byte) (log : List Nat)
    (hb : b.length ≤ 1320) (hp1 : 1 ≤ p.length) (hp2 : p.length ≤ 256)
    (hbuf : b.length ≤ buf.length) :
    (MsgReadWriter.Read ⟨pack b p ++ rest, out, log⟩ buf).n = b.length ∧
    (MsgReadWriter.Read ⟨pack b p ++ rest, out, log⟩ buf).err = none ∧
    (MsgReadWriter.Read ⟨pack b p ++ rest, out, log⟩ buf).buf.take
      (MsgReadWriter.Read ⟨pack b p ++ rest, out, log⟩ buf).n = b := by
  have hlt : ¬ buf.length < b.length := by omega
  rw [Read_pack b p rest out buf log (by omega) (by omega)]
  simp only [hlt, if_false, List.take_left, and_self]

theorem read_pack_roundtrip_witness :
    ([1, 2, 3] : List Byte).length ≤ 1320 ∧
    (MsgReadWriter.Read ⟨pack [1, 2, 3] [7, 7] ++ [], [], []⟩ [0, 0, 0, 0]).n = 3 ∧
    (MsgReadWriter.Read ⟨pack [1, 2, 3] [7, 7] ++ [], [], []⟩ [0, 0, 0, 0]).err = none ∧
    (MsgReadWriter.Read ⟨pack [1, 2, 3] [7, 7] ++ [], [], []⟩ [0, 0, 0, 0]).buf.take
      (MsgReadWriter.Read ⟨pack [1, 2, 3] [7, 7] ++ [], [], []⟩ [0, 0, 0, 0]).n = [1, 2, 3] :=
  ⟨by decide,
    read_pack_roundtrip [1, 2, 3] [7, 7] [] [] [0, 0, 0, 0] []
      (by decide) (by decide) (by decide) (by decide)⟩

theorem stream_drop_sum (msgs : List (List Byte × List Byte)) (rest : List Byte) (k : Nat) :
    (stream msgs ++ rest).drop
        ((msgs.take k).map (fun m => m.1.length + m.2.length + 4)).sum
      = stream (msgs.drop k) ++ rest := by
  induction msgs generalizing k with
  | nil => simp [stream]
  | cons m ms ih =>
    cases k with
    | zero => simp
    | succ k =>
      simp only [List.take_succ_cons, List.map_cons, List.sum_cons, List.drop_succ_cons, stream]
      rw [← pack_length, List.append_assoc, List.drop_append]
      exact ih k

/-- C2: for every list of messages `(b_i, p_i)` written back to back on one
stream, successive `MsgReadWriter.Read` calls with buffers at least as long as
every body return `b_1, b_2, ...` in order with no error; the bytes of each
buffer past the body are left as they were (no padding byte reaches the
caller), and after `k` calls the reader has consumed exactly the
`|b_i| + |p_i| + 4` bytes of the first `k` messages. -/
theorem readMany_stream (msgs : List (List Byte × List Byte)) (bufs : List (List Byte))
    (rest out : List Byte) (log : List Nat)
    (hm : ∀ m ∈ msgs, m.1.length < 65536 ∧ m.2.length < 65536)
    (hbuf : ∀ buf ∈ bufs, ∀ m ∈ msgs, m.1.length ≤ buf.length)
    (hk : bufs.length ≤ msgs.length) :
    (readMany ⟨stream msgs ++ rest, out, log⟩ bufs).1.map (fun r => (r.n, r.err, r.buf))
      = List.zipWith
          (fun m buf => (m.1.length, (none : Option IOError), m.1 ++ buf.drop m.1.length))
          msgs bufs ∧
    (readMany ⟨stream msgs ++ rest, out, log⟩ bufs).2.input
      = (stream msgs ++ rest).drop
          ((msgs.take bufs.length).map (fun m => m.1.length + m.2.length + 4)).sum ∧
    (readMany ⟨stream msgs ++ rest, out, log⟩ bufs).2.input
      = stream (msgs.drop bufs.length) ++ rest := by
  rw [stream_drop_sum]
  induction bufs generalizing msgs log with
  | nil => simp [readMany]
  | cons buf bufs ih =>
    cases msgs with
    | nil => simp at hk
    | cons m ms =>
      have hm1 := hm m (List.mem_cons_self _ _)
      have hb1 : ¬ buf.length < m.1.length := by
        have := hbuf buf (List.mem_cons_self _ _) m (List.mem_cons_self _ _)
        omega
      have hR := Read_pack m.1 m.2 (stream ms ++ rest) out buf log hm1.1 hm1.2
      simp only [hb1, if_false] at hR
      have ih1 := ih ms (logAfter (logAfter log m.1.length) m.2.length)
        (fun x hx => hm x (List.mem_cons_of_mem _ hx))
        (fun bf hbf x hx => hbuf bf (List.mem_cons_of_mem _ hbf) x (List.mem_cons_of_mem _ hx))
        (by simpa using hk)
      simp only [readMany, stream, List.append_assoc, hR, List.map_cons, List.zipWith_cons_cons,
        List.length_cons, List.drop_succ_cons]
      refine ⟨?_, ?_, ?_⟩
      · rw [ih1.1]
      · exact ih1.2.1
      · exact ih1.2.2

theorem readMany_stream_witness :
    (readMany ⟨stream [([1, 2], [9]), ([3], [8, 8])] ++ [5], [], []⟩ [[0, 0, 0], [0, 0]]).1.map
        (fun r => (r.n, r.err, r.buf))
      = [(2, none, [1, 2, 0]), (1, none, [3, 0])] ∧
    (readMany ⟨stream [([1, 2], [9]), ([3], [8, 8])] ++ [5], [], []⟩ [[0, 0, 0], [0, 0]]).2.input
      = (stream [([1, 2], [9]), ([3], [8, 8])] ++ [5]).drop (7 + 7) ∧
    (readMany ⟨stream [([1, 2], [9]), ([3], [8, 8])] ++ [5], [], []⟩ [[0, 0, 0], [0, 0]]).2.input
      = [5] :=
  readMany_stream [([1, 2], [9]), ([3], [8, 8])] [[0, 0, 0], [0, 0]] [5] [] []
    (by decide) (by decide) (by decide)

/-- C3 (as stated, refuted): a message whose body_len field is 1321, read into
the 65536-byte buffer that `pipe` uses, is not rejected: `MsgReadWriter.Read`
returns `n = 1321` with no error and the body in the buffer. -/
theorem read_oversized_not_rejected :
    MaxMessageLength < (List.replicate 1321 (7 : Byte)).length ∧
    (MsgReadWriter.Read ⟨pack (List.replicate 1321 7) [1] ++ [], [], []⟩
      (makeBytes 65536)).err = none ∧
    (MsgReadWriter.Read ⟨pack (List.replicate 1321 7) [1] ++ [], [], []⟩
      (makeBytes 65536)).n = 1321 ∧
    (MsgReadWriter.Read ⟨pack (List.replicate 1321 7) [1] ++ [], [], []⟩
      (makeBytes 65536)).buf.take 1321 = List.replicate 1321 7 := by
  have hlen : (List.replicate 1321 (7 : Byte)).length = 1321 := List.length_replicate _ _
  have hfit : (List.replicate 1321 (7 : Byte)).length ≤ (makeBytes 65536).length := by
    rw [makeBytes_length, hlen]; omega
  have h := Read_pack_fits (List.replicate 1321 7) [1] [] [] (makeBytes 65536) []
    (by rw [hlen]; omega) (by simp) hfit
  rw [hlen] at h
  refine ⟨?_, h.1, h.2.1, h.2.2⟩
  rw [hlen]; unfold MaxMessageLength; omega

/-- C3 (amended): for every encoded message whose body_len field is greater than
1320, `MsgReadWriter.Read` logs a warning with that length and still reads the
whole message: it returns the body (`n = body_len`, no error) when the buffer
holds it and an error with `n = 0` only when the buffer is shorter; either way
the message is drained, so the next `Read` decodes the following message. -/
theorem read_oversized_warns_and_drains (b p b2 p2 rest out buf buf2 : List Byte)
    (log : List Nat)
    (hb : MaxMessageLength < b.length) (hb16 : b.length < 65536) (hp : p.length < 65536)
    (hb2 : b2.length < 65536) (hp2 : p2.length < 65536) (hbuf2 : b2.length ≤ buf2.length) :
    b.length ∈ (MsgReadWriter.Read ⟨pack b p ++ (pack b2 p2 ++ rest), out, log⟩ buf).rw.log ∧
    (b.length ≤ buf.length →
      (MsgReadWriter.Read ⟨pack b p ++ (pack b2 p2 ++ rest), out, log⟩ buf).n = b.length ∧
      (MsgReadWriter.Read ⟨pack b p ++ (pack b2 p2 ++ rest), out, log⟩ buf).err = none ∧
      (MsgReadWriter.Read ⟨pack b p ++ (pack b2 p2 ++ rest), out, log⟩ buf).buf.take b.length
        = b) ∧
    (buf.length < b.length →
      (MsgReadWriter.Read ⟨pack b p ++ (pack b2 p2 ++ rest), out, log⟩ buf).n = 0 ∧
      (MsgReadWriter.Read ⟨pack b p ++ (pack b2 p2 ++ rest), out, log⟩ buf).err
        = some (IOError.bufferTooSmall b.length buf.length)) ∧
    (MsgReadWriter.Read ⟨pack b p ++ (pack b2 p2 ++ rest), out, log⟩ buf).rw.input
      = pack b2 p2 ++ rest ∧
    (MsgReadWriter.Read
      (MsgReadWriter.Read ⟨pack b p ++ (pack b2 p2 ++ rest), out, log⟩ buf).rw buf2).n
        = b2.length ∧
    (MsgReadWriter.Read
      (MsgReadWriter.Read ⟨pack b p ++ (pack b2 p2 ++ rest), out, log⟩ buf).rw buf2).err
        = none ∧
    (MsgReadWriter.Read
      (MsgReadWriter.Read ⟨pack b p ++ (pack b2 p2 ++ rest), out, log⟩ buf).rw buf2).buf.take
        b2.length = b2 := by
  have hlog : b.length ∈ logAfter (logAfter log b.length) p.length :=
    mem_logAfter _ _ _ (mem_logAfter_self _ _ hb)
  have hR := Read_pack b p (pack b2 p2 ++ rest) out buf log hb16 hp
  have h2 := Read_pack_fits b2 p2 rest out buf2 (logAfter (logAfter log b.length) p.length)
    hb2 hp2 hbuf2
  rw [Read_pack_rw b p (pack b2 p2 ++ rest) out buf log hb16 hp]
  refine ⟨hlog, ?_, ?_, rfl, h2.2.1, h2.1, h2.2.2⟩
  · intro hfit
    have h1 := Read_pack_fits b p (pack b2 p2 ++ rest) out buf log hb16 hp hfit
    exact ⟨h1.2.1, h1.1, h1.2.2⟩
  · intro hlen
    simp only [hlen, if_true] at hR
    rw [hR]
    exact ⟨rfl, rfl⟩

theorem read_oversized_warns_and_drains_witness :
    (MsgReadWriter.Read
      (MsgReadWriter.Read
        ⟨pack (List.replicate 1321 7) [1] ++ (pack [4, 5] [2] ++ []), [], []⟩ []).rw
      [0, 0, 0]).buf.take 2 = [4, 5] :=
  (read_oversized_warns_and_drains (List.replicate 1321 7) [1] [4, 5] [2] [] [] [] [0, 0, 0] []
    (by rw [List.length_replicate]; unfold MaxMessageLength; omega)
    (by rw [List.length_replicate]; omega) (by simp) (by simp) (by simp) (by simp)).2.2.2.2.2.2

/-- C4: when the caller's buffer is shorter than the message body,
`MsgReadWriter.Read` returns `n = 0` with an error and leaves the buffer as it
was, yet the whole message (body and padding) has been consumed, so the next
`Read` returns the next message on the stream. -/
theorem read_short_buffer (b p b2 p2 rest out buf buf2 : List Byte) (log : List Nat)
    (hshort : buf.length < b.length)
    (hb : b.length < 65536) (hp : p.length < 65536)
    (hb2 : b2.length < 65536) (hp2 : p2.length < 65536) (hbuf2 : b2.length ≤ buf2.length) :
    (MsgReadWriter.Read ⟨pack b p ++ (pack b2 p2 ++ rest), out, log⟩ buf).n = 0 ∧
    (MsgReadWriter.Read ⟨pack b p ++ (pack b2 p2 ++ rest), out, log⟩ buf).err
      = some (IOError.bufferTooSmall b.length buf.length) ∧
    (MsgReadWriter.Read ⟨pack b p ++ (pack b2 p2 ++ rest), out, log⟩ buf).buf = buf ∧
    (MsgReadWriter.Read ⟨pack b p ++ (pack b2 p2 ++ rest), out, log⟩ buf).rw.input
      = pack b2 p2 ++ rest ∧
    (MsgReadWriter.Read
      (MsgReadWriter.Read ⟨pack b p ++ (pack b2 p2 ++ rest), out, log⟩ buf).rw buf2).n
        = b2.length ∧
    (MsgReadWriter.Read
      (MsgReadWriter.Read ⟨pack b p ++ (pack b2 p2 ++ rest), out, log⟩ buf).rw buf2).err
        = none ∧
    (MsgReadWriter.Read
      (MsgReadWriter.Read ⟨pack b p ++ (pack b2 p2 ++ rest), out, log⟩ buf).rw buf2).buf.take
        b2.length = b2 ∧
    (MsgReadWriter.Read
      (MsgReadWriter.Read ⟨pack b p ++ (pack b2 p2 ++ rest), out, log⟩ buf).rw buf2).rw.input
        = rest := by
  have hR := Read_pack b p (pack b2 p2 ++ rest) out buf log hb hp
  simp only [hshort, if_true] at hR
  have h2 := Read_pack_fits b2 p2 rest out buf2 (logAfter (logAfter log b.length) p.length)
    hb2 hp2 hbuf2
  have h3 := Read_pack_rw b2 p2 rest out buf2 (logAfter (logAfter log b.length) p.length)
    hb2 hp2
  rw [Read_pack_rw b p (pack b2 p2 ++ rest) out buf log hb hp]
  refine ⟨?_, ?_, ?_, rfl, h2.2.1, h2.1, h2.2.2, ?_⟩
  · rw [hR]
  · rw [hR]
  · rw [hR]
  · rw [h3]

theorem read_short_buffer_witness :
    (MsgReadWriter.Read ⟨pack [1, 2, 3] [9] ++ (pack [4] [8] ++ [6]), [], []⟩ [0, 0]).n = 0 ∧
    (MsgReadWriter.Read ⟨pack [1, 2, 3] [9] ++ (pack [4] [8] ++ [6]), [], []⟩ [0, 0]).err
      = some (IOError.bufferTooSmall 3 2) ∧
    (MsgReadWriter.Read ⟨pack [1, 2, 3] [9] ++ (pack [4] [8] ++ [6]), [], []⟩ [0, 0]).buf
      = [0, 0] ∧
    (MsgReadWriter.Read ⟨pack [1, 2, 3] [9] ++ (pack [4] [8] ++ [6]), [], []⟩ [0, 0]).rw.input
      = pack [4] [8] ++ [6] ∧
    (MsgReadWriter.Read
      (MsgReadWriter.Read ⟨pack [1, 2, 3] [9] ++ (pack [4] [8] ++ [6]), [], []⟩ [0, 0]).rw
      [0, 0]).n = 1 ∧
    (MsgReadWriter.Read
      (MsgReadWriter.Read ⟨pack [1, 2, 3] [9] ++ (pack [4] [8] ++ [6]), [], []⟩ [0, 0]).rw
      [0, 0]).err = none ∧
    (MsgReadWriter.Read
      (MsgReadWriter.Read ⟨pack [1, 2, 3] [9] ++ (pack [4] [8] ++ [6]), [], []⟩ [0, 0]).rw
      [0, 0]).buf.take 1 = [4] ∧
    (MsgReadWriter.Read
      (MsgReadWriter.Read ⟨pack [1, 2, 3] [9] ++ (pack [4] [8] ++ [6]), [], []⟩ [0, 0]).rw
      [0, 0]).rw.input = [6] :=
  read_short_buffer [1, 2, 3] [9] [4] [8] [6] [] [0, 0] [0, 0] []
    (by decide) (by simp) (by simp) (by simp) (by simp) (by decide)

theorem createRandomPadding_length (minLength maxLength : Int) (rnd : Nat → Byte)
    (h0 : 0 ≤ minLength) (h1 : minLength < maxLength) :
    minLength ≤ ((createRandomPadding minLength maxLength rnd).length : Int) ∧
    ((createRandomPadding minLength maxLength rnd).length : Int) < maxLength := by
  unfold createRandomPadding
  simp only [List.length_map, List.length_range]
  have hpos : 0 < maxLength - minLength := by omega
  have hr : (0 : Int) ≤ ((rnd 0).val : Int) := Int.ofNat_nonneg _
  have ha := Int.tmod_nonneg (maxLength - minLength) hr
  have hb := Int.tmod_lt_of_pos ((rnd 0).val : Int) hpos
  rw [Int.toNat_of_nonneg (by omega)]
  omega

/-- C5: for every body `b` and every value of the random length byte, the
padding that `MsgReadWriter.Write` packs and writes has a length `L` with
`max(1, 100 - |b|) ≤ L ≤ 256`; in particular the padding is never empty. -/
theorem write_padding_bounds (rw : Base) (b : List Byte) (rnd : Nat → Byte) :
    ∃ padding : List Byte,
      (MsgReadWriter.Write rw b rnd).rw.output = rw.output ++ pack b padding ∧
      max (1 : Int) (100 - (b.length : Int)) ≤ (padding.length : Int) ∧
      (padding.length : Int) ≤ 256 ∧
      padding ≠ [] := by
  by_cases hmin : (100 : Int) - (b.length : Int) ≤ 0
  · refine ⟨createRandomPadding 1 256 rnd, ?_, ?_⟩
    · simp [MsgReadWriter.Write, baseWrite, MinMessageLength, MaxPaddingLength, hmin]
    · have h := createRandomPadding_length 1 256 rnd (by decide) (by decide)
      refine ⟨by omega, by omega, ?_⟩
      intro hnil
      rw [hnil] at h
      simp at h
  · refine ⟨createRandomPadding ((100 : Int) - (b.length : Int)) 256 rnd, ?_, ?_⟩
    · have hnle : ¬ (256 : Int) ≤ 100 - (b.length : Int) := by omega
      simp [MsgReadWriter.Write, baseWrite, MinMessageLength, MaxPaddingLength, hmin, hnle]
    · have h := createRandomPadding_length ((100 : Int) - (b.length : Int)) 256 rnd
        (by omega) (by omega)
      refine ⟨by omega, by omega, ?_⟩
      intro hnil
      rw [hnil] at h
      simp at h
      omega

/-- C6: for every body `b` and padding `p`, each shorter than 65536 bytes,
`pack b p` is exactly the big-endian uint16 of `|b|`, then `b`, then the
big-endian uint16 of `|p|`, then `p`; the wire length is `|b| + |p| + 4`. -/
theorem pack_wire_format (b p : List Byte) (hb : b.length < 65536) (hp : p.length < 65536) :
    pack b p = [toByte (b.length / 256), toByte b.length] ++ b
      ++ [toByte (p.length / 256), toByte p.length] ++ p ∧
    bigEndianUint16 (toByte (b.length / 256)) (toByte b.length) = b.length ∧
    bigEndianUint16 (toByte (p.length / 256)) (toByte p.length) = p.length ∧
    (pack b p).length = b.length + p.length + 4 := by
  refine ⟨?_, bigEndianUint16_toByte _ hb, bigEndianUint16_toByte _ hp, pack_length b p⟩
  rw [pack_eq, uint16_of_lt _ hb, uint16_of_lt _ hp]
  rfl

theorem pack_wire_format_witness :
    pack [10, 20, 30] [1, 2] = [0, 3] ++ [10, 20, 30] ++ [0, 2] ++ [1, 2] ∧
    bigEndianUint16 0 3 = 3 ∧ bigEndianUint16 0 2 = 2 ∧
    (pack [10, 20, 30] [1, 2]).length = 3 + 2 + 4 :=
  pack_wire_format [10, 20, 30] [1, 2] (by simp) (by simp)

end Tunnel

namespace Pipe

/-- C7: for a request read from the connection, `upgradeServerConn` hands the
connection to the probe responder and fails the upgrade exactly when the
request's Upgrade header is not `websocket` (compared under case folding) or a
non-empty server password is configured and the request's `password` query
parameter is missing or different from it; the WebSocket handshake is reached
exactly in the other case, so no request with a wrong password reaches it. -/
theorem upgradeServerConn_probe_iff (s : Server) (req : Request) (wsOk : Bool) :
    ((Event.respondToProbe req ∈ (upgradeServerConn s ⟨some req, wsOk⟩).trace ∧
        (upgradeServerConn s ⟨some req, wsOk⟩).err ≠ none) ↔
      (equalFold (valuesGet req.header "Upgrade") "websocket" = false ∨
        (s.password ≠ "" ∧ valuesGet req.query "password" ≠ s.password))) ∧
    (Event.wsUpgrade ∈ (upgradeServerConn s ⟨some req, wsOk⟩).trace ↔
      ¬ (equalFold (valuesGet req.header "Upgrade") "websocket" = false ∨
        (s.password ≠ "" ∧ valuesGet req.query "password" ≠ s.password))) := by
  cases hfold : equalFold (valuesGet req.header "Upgrade") "websocket"
  · simp [upgradeServerConn, hfold]
  · by_cases hpw : s.password ≠ "" ∧ valuesGet req.query "password" ≠ s.password
    · simp [upgradeServerConn, hfold, hpw]
    · cases wsOk <;> simp [upgradeServerConn, hfold, hpw]

end Pipe

namespace Udp

open Tunnel (Byte copyAt)

theorem copyAt_zero (b src : List Byte) (h : src.length ≤ b.length) :
    copyAt b 0 src = src ++ b.drop src.length := by
  unfold copyAt
  have h1 : min (b.length - 0) src.length = src.length := by omega
  rw [h1]
  simp only [List.take_zero, List.nil_append, Nat.sub_zero, Nat.zero_add]
  rw [List.take_of_length_le h]

theorem readRemaining_nonempty (c : udpConn) (b : List Byte) (hr : c.remaining ≠ []) :
    c.readRemaining b =
      (min b.length c.remaining.length,
        c.remaining.take b.length ++ b.drop c.remaining.length,
        { c with remaining := c.remaining.drop b.length }) := by
  have hlen : c.remaining.length ≠ 0 := fun h => hr (List.length_eq_zero.mp h)
  unfold udpConn.readRemaining
  by_cases hge : c.remaining.length ≥ b.length
  · have e1 : copyAt b 0 (c.remaining.take b.length)
        = c.remaining.take b.length ++ b.drop c.remaining.length := by
      rw [copyAt_zero _ _ (by rw [List.length_take]; omega)]
      rw [List.length_take, Nat.min_eq_left hge, List.drop_length,
        List.drop_of_length_le hge]
    simp only [hlen, hge, if_true, if_false, e1, Nat.min_eq_left hge]
  · have hlt : c.remaining.length < b.length := by omega
    have e1 : copyAt b 0 c.remaining
        = c.remaining.take b.length ++ b.drop c.remaining.length := by
      rw [copyAt_zero _ _ (by omega), List.take_of_length_le (by omega)]
    simp only [hlen, hge, if_false, e1, Nat.min_eq_right (Nat.le_of_lt hlt),
      List.drop_of_length_le (Nat.le_of_lt hlt)]

theorem readRemaining_empty (c : udpConn) (b : List Byte) (hr : c.remaining = []) :
    c.readRemaining b = (0, b, c) := by
  unfold udpConn.readRemaining
  simp [hr]

/-- A `Read` that finds bytes in `remaining` serves them and leaves the channel
alone, whether the connection is closed or not. -/
theorem Read_remaining (c : udpConn) (b : List Byte) (pick : Select)
    (hr : c.remaining ≠ []) (hb : b ≠ []) :
    c.Read b pick = some
      { n := min b.length c.remaining.length, err := none,
        buf := c.remaining.take b.length ++ b.drop c.remaining.length,
        conn := { c with remaining := c.remaining.drop b.length } } := by
  have h1 : 0 < b.length := List.length_pos.mpr hb
  have h2 : 0 < c.remaining.length := List.length_pos.mpr hr
  have hpos : min b.length c.remaining.length > 0 := by omega
  unfold udpConn.Read
  rw [readRemaining_nonempty c b hr]
  simp only [hpos, if_true]

/-- A `Read` on an open connection with nothing in `remaining` takes the oldest
datagram of the channel. -/
theorem Read_recv (c : udpConn) (d : List Byte) (q : List (List Byte)) (b : List Byte)
    (pick : Select) (hrem : c.remaining = []) (hq : c.chanMsg = d :: q)
    (hchan : c.chanClosed = false) (hd : d ≠ []) :
    c.Read b pick = some
      { n := min b.length d.length, err := none,
        buf := d.take b.length ++ b.drop d.length,
        conn := { c with remaining := d.drop b.length, chanMsg := q } } := by
  unfold udpConn.Read
  rw [readRemaining_empty c b hrem]
  simp only [gt_iff_lt, Nat.lt_irrefl, if_false, hq, hchan, selectMsgOrClosed]
  rw [readRemaining_nonempty _ b (by simpa using hd)]

theorem readSeq_remaining (pick : Select) (bufs : List (List Byte)) :
    ∀ c : udpConn, bufs ≠ [] → (∀ x ∈ bufs, x ≠ []) →
      (bufs.dropLast.map List.length).sum < c.remaining.length →
      (readSeq pick c bufs).1.length = bufs.length ∧
      (∀ x ∈ (readSeq pick c bufs).1, x.err = none) ∧
      ((readSeq pick c bufs).1.map (fun x => x.buf.take x.n)).flatten
        = c.remaining.take (bufs.map List.length).sum ∧
      (readSeq pick c bufs).2
        = { c with remaining := c.remaining.drop (bufs.map List.length).sum } := by
  induction bufs with
  | nil => intro c h; exact absurd rfl h
  | cons b bs ih =>
    intro c _ hne hsum
    have hr : c.remaining ≠ [] := by
      apply List.length_pos.mp; omega
    have hb : b ≠ [] := hne b (List.mem_cons_self _ _)
    have hR := Read_remaining c b pick hr hb
    have htake : (c.remaining.take b.length ++ b.drop c.remaining.length).take
        (min b.length c.remaining.length) = c.remaining.take b.length :=
      List.take_left' (List.length_take _ _)
    by_cases hbs : bs = []
    · subst hbs
      simp only [readSeq, hR, List.length_cons, List.length_nil, List.mem_singleton,
        forall_eq, List.map_cons, List.map_nil, List.flatten_cons, List.flatten_nil,
        List.append_nil, List.sum_cons, List.sum_nil, Nat.add_zero, htake, and_self]
    · have hsum2 : (bs.dropLast.map List.length).sum
          < (c.remaining.drop b.length).length := by
        rw [List.dropLast_cons_of_ne_nil hbs] at hsum
        simp only [List.map_cons, List.sum_cons] at hsum
        rw [List.length_drop]; omega
      have ih1 := ih { c with remaining := c.remaining.drop b.length } hbs
        (fun x hx => hne x (List.mem_cons_of_mem _ hx)) hsum2
      simp only [readSeq, hR, List.length_cons, List.map_cons, List.flatten_cons,
        List.sum_cons, htake, List.mem_cons, forall_eq_or_imp, true_and]
      refine ⟨by rw [ih1.1], ih1.2.1, ?_, ?_⟩
      · rw [ih1.2.2.1, List.take_add]
      · rw [ih1.2.2.2]
        simp only [List.drop_drop]

theorem readRemaining_eq (c : udpConn) (b : List Byte) :
    c.readRemaining b =
      (min b.length c.remaining.length,
        c.remaining.take b.length ++ b.drop c.remaining.length,
        { c with remaining := c.remaining.drop b.length }) := by
  by_cases hr : c.remaining = []
  · rw [readRemaining_empty c b hr]
    simp only [hr, List.length_nil, Nat.min_zero, List.take_nil, List.drop_zero,
      List.nil_append, List.drop_nil]
    congr 2
    cases c
    simp only at hr
    subst hr
    rfl
  · exact readRemaining_nonempty c b hr

theorem selectMsgOrClosed_recv (chanMsg : List (List Byte)) (chanClosed : Bool)
    (pick : Select) (buf : List Byte) (rest : List (List Byte))
    (h : selectMsgOrClosed chanMsg chanClosed pick = SelectResult.recv buf rest) :
    chanMsg = buf :: rest := by
  unfold selectMsgOrClosed at h
  split at h
  · injection h with h1 h2; rw [h1, h2]
  · split at h
    · injection h with h1 h2; rw [h1, h2]
    · exact absurd h (by simp)
  · exact absurd h (by simp)
  · exact absurd h (by simp)

/-- The bytes a `Read` returns are an initial segment of the partial-read buffer
or of the oldest queued datagram, which then leaves the queue: never bytes of
two datagrams. -/
theorem Read_single_datagram (c : udpConn) (b : List Byte) (pick : Select) (r : ReadResult)
    (h : c.Read b pick = some r) :
    (∃ t, r.buf.take r.n ++ t = c.remaining) ∨
    (∃ d q t, c.chanMsg = d :: q ∧ r.buf.take r.n ++ t = d ∧ r.conn.chanMsg = q) := by
  have key : ∀ (x y : List Byte), (x.take y.length ++ y.drop x.length).take
      (min y.length x.length) = x.take y.length :=
    fun x y => List.take_left' (List.length_take _ _)
  unfold udpConn.Read at h
  rw [readRemaining_eq c b] at h
  simp only at h
  split at h
  · simp only [Option.some.injEq] at h
    subst h
    exact Or.inl ⟨c.remaining.drop b.length, by
      simp only [key]; exact List.take_append_drop _ _⟩
  · cases hs : selectMsgOrClosed c.chanMsg c.chanClosed pick with
    | recv buf rest =>
      rw [hs] at h
      have hq := selectMsgOrClosed_recv _ _ _ _ _ hs
      simp only [readRemaining_eq, Option.some.injEq] at h
      subst h
      refine Or.inr ⟨buf, rest, buf.drop
        (c.remaining.take b.length ++ b.drop c.remaining.length).length, hq, ?_, rfl⟩
      simp only [key]
      exact List.take_append_drop _ _
    | closed =>
      rw [hs] at h
      simp only [Option.some.injEq] at h
      subst h
      exact Or.inl ⟨c.remaining, by simp⟩
    | blocked =>
      rw [hs] at h
      exact absurd h (by simp)

/-- C8 (as stated, refuted): a connection that received the datagram `[1, 2, 3]`
and was then closed has an empty partial-read buffer and the datagram queued;
when the `select` of `Read` takes the closed case, `Read` into a buffer of four
bytes returns 0 bytes and `net.ErrClosed`, not the datagram, which stays
queued. -/
theorem read_closed_conn_skips_datagram :
    runOps (newUDPConn "10.0.0.1:4000") [ConnOp.addMsg [1, 2, 3], ConnOp.close]
      = ⟨"10.0.0.1:4000", [], true, [[1, 2, 3]], true⟩ ∧
    udpConn.Read ⟨"10.0.0.1:4000", [], true, [[1, 2, 3]], true⟩ [0, 0, 0, 0] Select.closed
      = some ⟨0, some NetError.ErrClosed, [0, 0, 0, 0],
          ⟨"10.0.0.1:4000", [], true, [[1, 2, 3]], true⟩⟩ := by
  decide

/-- C8 (amended): for a virtual UDP connection that has not been closed, with an empty
partial-read buffer and a queued non-empty datagram `d`, `Read` into a buffer
of length `m` returns exactly `d` when `m ≥ |d|` (the rest of the buffer is
untouched and the next datagram stays queued); when `m < |d|` it returns the
first `m` bytes, and the following `Read`s into non-empty buffers return the
rest of `d` in order, never going on to the next datagram while bytes of `d`
are left. In every state the bytes one `Read` returns come from a single
datagram. -/
theorem read_datagram_preserving (c : udpConn) (d : List Byte) (q : List (List Byte))
    (b : List Byte) (pick : Select)
    (hrem : c.remaining = []) (hq : c.chanMsg = d :: q) (hd : d ≠ [])
    (hchan : c.chanClosed = false) :
    (d.length ≤ b.length →
      c.Read b pick = some
        { n := d.length, err := none, buf := d ++ b.drop d.length,
          conn := { c with remaining := [], chanMsg := q } }) ∧
    (b.length < d.length →
      c.Read b pick = some
        { n := b.length, err := none, buf := d.take b.length,
          conn := { c with remaining := d.drop b.length, chanMsg := q } } ∧
      ∀ bufs : List (List Byte), bufs ≠ [] → (∀ x ∈ bufs, x ≠ []) →
        (bufs.dropLast.map List.length).sum < (d.drop b.length).length →
        (readSeq pick { c with remaining := d.drop b.length, chanMsg := q } bufs).1.length
          = bufs.length ∧
        (∀ x ∈ (readSeq pick { c with remaining := d.drop b.length, chanMsg := q } bufs).1,
          x.err = none) ∧
        ((readSeq pick { c with remaining := d.drop b.length, chanMsg := q } bufs).1.map
            (fun x => x.buf.take x.n)).flatten
          = (d.drop b.length).take (bufs.map List.length).sum ∧
        (readSeq pick { c with remaining := d.drop b.length, chanMsg := q } bufs).2
          = { c with remaining := (d.drop b.length).drop (bufs.map List.length).sum,
                     chanMsg := q }) ∧
    (∀ (c1 : udpConn) (b1 : List Byte) (pick1 : Select) (r : ReadResult),
      c1.Read b1 pick1 = some r →
      (∃ t, r.buf.take r.n ++ t = c1.remaining) ∨
      (∃ d1 q1 t, c1.chanMsg = d1 :: q1 ∧ r.buf.take r.n ++ t = d1 ∧ r.conn.chanMsg = q1)) := by
  have hR := Read_recv c d q b pick hrem hq hchan hd
  refine ⟨?_, ?_, Read_single_datagram⟩
  · intro hle
    rw [hR, Nat.min_eq_right hle, List.take_of_length_le hle, List.drop_of_length_le hle]
  · intro hlt
    have hle : b.length ≤ d.length := Nat.le_of_lt hlt
    refine ⟨?_, ?_⟩
    · rw [hR, Nat.min_eq_left hle, List.drop_of_length_le hle, List.append_nil]
    · intro bufs h1 h2 h3
      exact readSeq_remaining pick bufs { c with remaining := d.drop b.length, chanMsg := q }
        h1 h2 h3

theorem read_datagram_preserving_witness :
    (udpConn.Read ⟨"10.0.0.1:4000", [], false, [[1, 2, 3], [9]], false⟩ [0, 0, 0, 0]
        Select.closed
      = some ⟨3, none, [1, 2, 3, 0], ⟨"10.0.0.1:4000", [], false, [[9]], false⟩⟩) ∧
    ((readSeq Select.closed ⟨"10.0.0.1:4000", [3, 4, 5], false, [[9]], false⟩
        [[0, 0], [0, 0]]).1.map (fun x => x.buf.take x.n)).flatten = [3, 4, 5] :=
  ⟨(read_datagram_preserving ⟨"10.0.0.1:4000", [], false, [[1, 2, 3], [9]], false⟩
      [1, 2, 3] [[9]] [0, 0, 0, 0] Select.closed rfl rfl (by decide) rfl).1 (by decide),
   (((read_datagram_preserving ⟨"10.0.0.1:4000", [], false, [[1, 2, 3, 4, 5], [9]], false⟩
      [1, 2, 3, 4, 5] [[9]] [0, 0] Select.closed rfl rfl (by decide) rfl).2.1 (by decide)).2
        [[0, 0], [0, 0]] (by decide) (by decide) (by decide)).2.2.1⟩

theorem readRemaining_flags (c : udpConn) (b : List Byte) :
    (c.readRemaining b).2.2.closed = c.closed ∧
    (c.readRemaining b).2.2.chanClosed = c.chanClosed := by
  unfold udpConn.readRemaining
  split
  · exact ⟨rfl, rfl⟩
  · split <;> exact ⟨rfl, rfl⟩

theorem Read_conn_flags (c : udpConn) (b : List Byte) (pick : Select) (r : ReadResult)
    (h : c.Read b pick = some r) :
    r.conn.closed = c.closed ∧ r.conn.chanClosed = c.chanClosed := by
  have hf := readRemaining_flags c b
  rcases h1 : c.readRemaining b with ⟨n, b1, c1⟩
  rw [h1] at hf
  simp only at hf
  unfold udpConn.Read at h
  rw [h1] at h
  simp only at h
  split at h
  · simp only [Option.some.injEq] at h
    subst h
    exact hf
  · cases hs : selectMsgOrClosed c1.chanMsg c1.chanClosed pick with
    | recv buf rest =>
      rw [hs] at h
      have hf2 := readRemaining_flags { c1 with chanMsg := rest, remaining := buf } b1
      rcases h2 : ({ c1 with chanMsg := rest, remaining := buf } : udpConn).readRemaining b1
        with ⟨n2, b2, c2⟩
      simp only [h2, Option.some.injEq] at hf2 h
      subst h
      exact ⟨hf2.1.trans hf.1, hf2.2.trans hf.2⟩
    | closed =>
      rw [hs] at h
      simp only [Option.some.injEq] at h
      subst h
      exact hf
    | blocked =>
      rw [hs] at h
      exact absurd h (by simp)

theorem apply_flags (c : udpConn) (op : ConnOp)
    (h : c.closed = true ∧ c.chanClosed = true) :
    (op.apply c).closed = true ∧ (op.apply c).chanClosed = true := by
  cases op with
  | read b pick =>
    cases hR : c.Read b pick with
    | none => simp only [ConnOp.apply, hR]; exact h
    | some r =>
      have := Read_conn_flags c b pick r hR
      simp only [ConnOp.apply, hR]
      exact ⟨this.1.trans h.1, this.2.trans h.2⟩
  | addMsg b =>
    simp only [ConnOp.apply, udpConn.addMsg]
    by_cases hlen : c.chanMsg.length < chanCap
    · simp only [hlen, if_true]; exact h
    · simp only [hlen, if_false]; exact h
  | close =>
    simp only [ConnOp.apply, udpConn.Close, h.1, if_true]
    exact ⟨trivial, h.2⟩

theorem apply_wf (c : udpConn) (op : ConnOp) (h : c.closed = c.chanClosed) :
    (op.apply c).closed = (op.apply c).chanClosed := by
  cases op with
  | read b pick =>
    cases hR : c.Read b pick with
    | none => simp only [ConnOp.apply, hR]; exact h
    | some r =>
      have := Read_conn_flags c b pick r hR
      simp only [ConnOp.apply, hR, this.1, this.2, h]
  | addMsg b =>
    simp only [ConnOp.apply, udpConn.addMsg]
    by_cases hlen : c.chanMsg.length < chanCap
    · simp only [hlen, if_true]; exact h
    · simp only [hlen, if_false]; exact h
  | close =>
    simp only [ConnOp.apply, udpConn.Close]
    split
    · exact h
    · rfl

theorem runOps_flags (ops : List ConnOp) :
    ∀ c : udpConn, c.closed = true ∧ c.chanClosed = true →
      (runOps c ops).closed = true ∧ (runOps c ops).chanClosed = true := by
  induction ops with
  | nil => intro c h; exact h
  | cons op ops ih => intro c h; exact ih _ (apply_flags c op h)

theorem runOps_wf (ops : List ConnOp) :
    ∀ c : udpConn, c.closed = c.chanClosed → (runOps c ops).closed = (runOps c ops).chanClosed := by
  induction ops with
  | nil => intro c h; exact h
  | cons op ops ih => intro c h; exact ih _ (apply_wf c op h)

theorem afterClose_flags (addr : String) (before after : List ConnOp) :
    (afterClose addr before after).closed = true ∧
    (afterClose addr before after).chanClosed = true := by
  unfold afterClose
  apply runOps_flags
  have hwf := runOps_wf before (newUDPConn addr) rfl
  unfold udpConn.Close
  split
  · rename_i hc
    exact ⟨hc, by rw [← hwf]; exact hc⟩
  · exact ⟨rfl, rfl⟩

/-- A `Read` on a closed connection whose `remaining` yields nothing: the closed
case is ready, so the call returns; with an empty channel it returns the closed
error. -/
theorem Read_closed_empty (c : udpConn) (b : List Byte) (pick : Select)
    (hc : c.chanClosed = true) (hr : c.remaining = []) (hq : c.chanMsg = []) :
    c.Read b pick = some { n := 0, err := some NetError.ErrClosed, buf := b, conn := c } := by
  unfold udpConn.Read
  rw [readRemaining_empty c b hr]
  simp only [gt_iff_lt, Nat.lt_irrefl, if_false, hq, hc, selectMsgOrClosed]

theorem Read_closed_isSome (c : udpConn) (b : List Byte) (pick : Select)
    (hc : c.chanClosed = true) : (c.Read b pick).isSome = true := by
  have hf := readRemaining_flags c b
  rcases h1 : c.readRemaining b with ⟨n, b1, c1⟩
  rw [h1] at hf
  simp only at hf
  unfold udpConn.Read
  rw [h1]
  simp only
  split
  · rfl
  · have hc1 : c1.chanClosed = true := hf.2.trans hc
    rw [hc1]
    rcases c1.chanMsg with _ | ⟨buf, rest⟩ <;> cases pick <;> rfl

/-- C10 (as stated, refuted): a connection that received the datagram
`[7, 1, 2]`, had its first byte read and was then closed still returns the two
buffered bytes, with no error, on the next `Read`. -/
theorem read_after_close_returns_data :
    (afterClose "10.0.0.1:4000" [ConnOp.addMsg [7, 1, 2], ConnOp.read [0] Select.msg] []).closed
      = true ∧
    (afterClose "10.0.0.1:4000" [ConnOp.addMsg [7, 1, 2], ConnOp.read [0] Select.msg] []).Read
        [0, 0] Select.closed
      = some ⟨2, none, [1, 2], ⟨"10.0.0.1:4000", [], true, [], true⟩⟩ := by
  decide

/-- C10 (amended): once a virtual UDP connection has been closed, the closed flag
never reverts and no later `Read` blocks; a `Read` returns 0 bytes and the
closed error when the partial-read buffer and the inbound queue are both empty,
while bytes still held in the partial-read buffer are returned first, without
error. -/
theorem closed_conn_read (addr : String) (before after : List ConnOp) (b : List Byte)
    (pick : Select) :
    (afterClose addr before after).closed = true ∧
    ((afterClose addr before after).Read b pick).isSome = true ∧
    ((afterClose addr before after).remaining = [] →
      (afterClose addr before after).chanMsg = [] →
      (afterClose addr before after).Read b pick
        = some { n := 0, err := some NetError.ErrClosed, buf := b,
                 conn := afterClose addr before after }) ∧
    ((afterClose addr before after).remaining ≠ [] → b ≠ [] →
      (afterClose addr before after).Read b pick
        = some { n := min b.length (afterClose addr before after).remaining.length,
                 err := none,
                 buf := (afterClose addr before after).remaining.take b.length
                   ++ b.drop (afterClose addr before after).remaining.length,
                 conn := { afterClose addr before after with
                   remaining := (afterClose addr before after).remaining.drop b.length } }) := by
  have hf := afterClose_flags addr before after
  exact ⟨hf.1, Read_closed_isSome _ b pick hf.2,
    fun hr hq => Read_closed_empty _ b pick hf.2 hr hq,
    fun hr hb => Read_remaining _ b pick hr hb⟩

theorem closed_conn_read_witness :
    (afterClose "10.0.0.1:4000" [ConnOp.addMsg [7], ConnOp.read [0] Select.msg] []).Read
        [0, 0] Select.msg
      = some ⟨0, some NetError.ErrClosed, [0, 0], ⟨"10.0.0.1:4000", [], true, [], true⟩⟩ :=
  (closed_conn_read "10.0.0.1:4000" [ConnOp.addMsg [7], ConnOp.read [0] Select.msg] []
    [0, 0] Select.msg).2.2.1 (by decide) (by decide)

theorem connOf_chanMsg_length (pre : List (String × List Byte)) (a : String) :
    (connOf pre a).chanMsg.length ≤ pre.length := by
  simp only [connOf, List.length_map]
  exact List.length_filter_le _ _

theorem Close_conn_flags (c : udpConn) (h : c.closed = c.chanClosed) :
    c.Close.closed = true ∧ c.Close.chanClosed = true := by
  unfold udpConn.Close
  split
  · rename_i hc
    exact ⟨hc, by rw [← h]; exact hc⟩
  · exact ⟨rfl, rfl⟩

theorem closeConnAt_length (cs : List udpConn) (i : Nat) :
    (closeConnAt cs i).length = cs.length := by
  unfold closeConnAt
  split
  · exact List.length_set _ _ _
  · rfl

theorem closeConnAt_wf (cs : List udpConn) (i : Nat)
    (hwf : ∀ c ∈ cs, c.closed = c.chanClosed) :
    ∀ c ∈ closeConnAt cs i, c.closed = c.chanClosed := by
  unfold closeConnAt
  split
  · rename_i c0 hget
    intro c hc
    rcases List.mem_or_eq_of_mem_set hc with h | h
    · exact hwf c h
    · have h0 := Close_conn_flags c0 (hwf c0 (List.get?_mem hget))
      rw [h, h0.1, h0.2]
  · exact hwf

theorem closeConnAt_self (cs : List udpConn) (i : Nat) (hi : i < cs.length)
    (hwf : ∀ c ∈ cs, c.closed = c.chanClosed) : ClosedAt (closeConnAt cs i) i := by
  have hget : cs.get? i = some (cs.get ⟨i, hi⟩) := List.get?_eq_get hi
  unfold closeConnAt
  rw [hget]
  have h0 := Close_conn_flags (cs.get ⟨i, hi⟩) (hwf _ (List.get_mem _ _ _))
  refine ⟨(cs.get ⟨i, hi⟩).Close, ?_, h0.1, h0.2⟩
  rw [List.get?_eq_getElem?, List.getElem?_set_self hi]

theorem closeConnAt_mono (cs : List udpConn) (i j : Nat) (h : ClosedAt cs j) :
    ClosedAt (closeConnAt cs i) j := by
  obtain ⟨c, hget, hc1, hc2⟩ := h
  unfold closeConnAt
  split
  · rename_i c0 hget0
    by_cases hij : i = j
    · subst hij
      rw [hget] at hget0
      injection hget0 with hget0
      subst hget0
      have hlt : i < cs.length := by
        rw [List.get?_eq_getElem?] at hget
        exact (List.getElem?_eq_some.mp hget).1
      refine ⟨c.Close, ?_, ?_, ?_⟩
      · rw [List.get?_eq_getElem?, List.getElem?_set_self hlt]
      · simp [udpConn.Close, hc1]
      · simp [udpConn.Close, hc1, hc2]
    · refine ⟨c, ?_, hc1, hc2⟩
      rw [List.get?_eq_getElem?, List.getElem?_set_ne hij, ← List.get?_eq_getElem?]
      exact hget
  · exact ⟨c, hget, hc1, hc2⟩

theorem lookup_mem_keys (nt : List (String × Nat)) (key : String) (i : Nat)
    (h : nt.lookup key = some i) : key ∈ nt.map Prod.fst := by
  induction nt with
  | nil => simp at h
  | cons e es ih =>
    obtain ⟨k, v⟩ := e
    rw [List.lookup_cons] at h
    by_cases hk : key = k
    · subst hk; simp
    · have hbeq : (key == k) = false := by simpa using hk
      rw [hbeq] at h
      exact List.mem_cons_of_mem _ (ih h)

theorem closeAll_spec (nt : List (String × Nat)) (keys : List String) :
    ∀ cs : List udpConn, (∀ c ∈ cs, c.closed = c.chanClosed) →
      (∀ j, ClosedAt cs j → ClosedAt (keys.foldl
        (fun cs key =>
          match nt.lookup key with
          | some i => closeConnAt cs i
          | none => cs) cs) j) ∧
      (∀ key i, key ∈ keys → nt.lookup key = some i → i < cs.length →
        ClosedAt (keys.foldl
          (fun cs key =>
            match nt.lookup key with
            | some i => closeConnAt cs i
            | none => cs) cs) i) := by
  induction keys with
  | nil =>
    intro cs _
    exact ⟨fun j h => h, fun key i hk => absurd hk (List.not_mem_nil _)⟩
  | cons k ks ih =>
    intro cs hwf
    have hwf1 : ∀ c ∈ (match nt.lookup k with
        | some i => closeConnAt cs i
        | none => cs), c.closed = c.chanClosed := by
      split
      · exact closeConnAt_wf cs _ hwf
      · exact hwf
    have hlen1 : (match nt.lookup k with
        | some i => closeConnAt cs i
        | none => cs).length = cs.length := by
      split
      · exact closeConnAt_length cs _
      · rfl
    have hmono1 : ∀ j, ClosedAt cs j → ClosedAt (match nt.lookup k with
        | some i => closeConnAt cs i
        | none => cs) j := by
      intro j hj
      split
      · exact closeConnAt_mono cs _ j hj
      · exact hj
    obtain ⟨ihm, ihk⟩ := ih _ hwf1
    simp only [List.foldl_cons]
    refine ⟨fun j hj => ihm j (hmono1 j hj), ?_⟩
    intro key i hkey hlook hi
    rcases List.mem_cons.mp hkey with h | h
    · subst h
      apply ihm
      rw [hlook]
      exact closeConnAt_self cs i hi hwf
    · exact ihk key i h hlook (by rw [hlen1]; exact hi)

theorem apply_listener_closed (l : Listener) (op : ListenerOp) (h : l.closed = true) :
    (op.apply l).closed = true := by
  cases op with
  | acceptMsg addr msg =>
    simp only [ListenerOp.apply]
    cases hR : l.acceptMsg addr msg with
    | none => exact h
    | some l1 =>
      simp only
      unfold Listener.acceptMsg at hR
      simp only at hR
      repeat' split at hR
      all_goals first
        | (simp only [Option.some.injEq] at hR; subst hR; exact h)
        | simp at hR
  | accept pick =>
    simp only [ListenerOp.apply, Listener.Accept, Listener.isClosed, h, if_true]
  | close =>
    simp only [ListenerOp.apply, Listener.Close, Listener.isClosed, h, if_true]

theorem runListenerOps_closed (ops : List ListenerOp) :
    ∀ l : Listener, l.closed = true → (runListenerOps l ops).closed = true := by
  induction ops with
  | nil => intro l h; exact h
  | cons op ops ih => intro l h; exact ih _ (apply_listener_closed l op h)

theorem Close_closed (l : Listener) : l.Close.closed = true := by
  unfold Listener.Close Listener.isClosed
  split
  · rename_i h; exact h
  · rfl

theorem closeTracked_length (nt : List (String × Nat)) (cs : List udpConn) :
    (closeTracked nt cs).length = cs.length := by
  unfold closeTracked
  generalize nt.map Prod.fst = keys
  induction keys generalizing cs with
  | nil => rfl
  | cons k ks ih =>
    simp only [List.foldl_cons]
    rw [ih]
    split
    · exact closeConnAt_length cs _
    · rfl

/-- C11: after `Listener.Close` returns from closing an open listener, every
connection the NAT table maps a key to is closed; and after any `Close`, every
later `Accept` returns `net.ErrClosed`, whatever is still waiting in the accept
queue and whatever happens to the listener in between. -/
theorem listener_close (l : Listener) :
    (l.closed = false → (∀ c ∈ l.conns, c.closed = c.chanClosed) →
      ∀ key i c, l.Close.natTable.lookup key = some i → l.Close.conns.get? i = some c →
        c.closed = true ∧ c.chanClosed = true) ∧
    (∀ (ops : List ListenerOp) (pick : Select),
      (runListenerOps l.Close ops).Accept pick
        = some { conn := none, err := some NetError.ErrClosed,
                 l := runListenerOps l.Close ops }) := by
  constructor
  · intro hopen hwf key i c hlook hget
    have hnt : l.Close.natTable = l.natTable := by
      unfold Listener.Close Listener.isClosed
      simp [hopen]
    have hcs : l.Close.conns = closeTracked l.natTable l.conns := by
      unfold Listener.Close Listener.isClosed
      simp [hopen]
    rw [hnt] at hlook
    rw [hcs] at hget
    by_cases hi : i < l.conns.length
    · obtain ⟨c1, hc1, h1, h2⟩ := (closeAll_spec l.natTable (l.natTable.map Prod.fst)
        l.conns hwf).2 key i (lookup_mem_keys _ _ _ hlook) hlook hi
      unfold closeTracked at hget
      rw [hget] at hc1
      injection hc1 with hc1
      subst hc1
      exact ⟨h1, h2⟩
    · exfalso
      have hlen := closeTracked_length l.natTable l.conns
      rw [List.get?_eq_getElem?] at hget
      have := (List.getElem?_eq_some.mp hget).1
      omega
  · intro ops pick
    have hcl := runListenerOps_closed ops l.Close (Close_closed l)
    simp only [Listener.Accept, Listener.isClosed, hcl, if_true]

theorem listener_close_witness :
    ((Listener.Close ⟨[⟨"10.0.0.1:4000", [], false, [[1]], false⟩,
          ⟨"10.0.0.2:4000", [], false, [[2]], false⟩],
        [("10.0.0.2:4000", 1), ("10.0.0.1:4000", 0)], [0, 1], false, false⟩).natTable.lookup
        "10.0.0.2:4000" = some 1) ∧
    (udpConn.mk "10.0.0.2:4000" [] true [[2]] true).closed = true ∧
    (udpConn.mk "10.0.0.2:4000" [] true [[2]] true).chanClosed = true :=
  ⟨by decide,
    (listener_close ⟨[⟨"10.0.0.1:4000", [], false, [[1]], false⟩,
          ⟨"10.0.0.2:4000", [], false, [[2]], false⟩],
        [("10.0.0.2:4000", 1), ("10.0.0.1:4000", 0)], [0, 1], false, false⟩).1 rfl
      (by decide) "10.0.0.2:4000" 1 ⟨"10.0.0.2:4000", [], true, [[2]], true⟩
      (by decide) (by decide)⟩

end Udp

namespace Weir

/-! ## Rates -/

/-- A rate that `ValidateRate` accepts comes back positive: a zero never reaches
the caller. -/
theorem ValidateRate_ok_pos (s : Bool) (r v : Int) (h : ValidateRate s r = (v, none)) :
    0 < v := by
  unfold ValidateRate at h
  cases s <;> simp only [MaxRate32, MaxRate64] at h <;> split_ifs at h <;>
    simp only [Prod.mk.injEq, reduceCtorEq, and_false, and_true] at h <;> omega

/-- The error of `ValidateRate` is set exactly for a negative rate and for a rate
above 4194303. -/
theorem ValidateRate_err_iff (s : Bool) (r : Int) :
    (ValidateRate s r).2.isSome = true ↔ (r < 0 ∨ r > 4194303) := by
  unfold ValidateRate
  cases s <;> simp only [MaxRate32, MaxRate64] <;> split_ifs <;> simp <;> omega

/-- C12: `ValidateRate r` fails if and only if `r < 0` or `r` is greater than the
maximum supported rate, 4194303 Kbps whatever the 64-bit probe found; on success
it returns `r` unchanged when `r > 0` and the maximum supported rate when
`r = 0`. -/
theorem ValidateRate_spec (supports64Bit : Bool) (r : Int) :
    ((ValidateRate supports64Bit r).2.isSome = true ↔ (r < 0 ∨ r > 4194303)) ∧
    (0 < r → r ≤ 4194303 → ValidateRate supports64Bit r = (r, none)) ∧
    (r = 0 → ValidateRate supports64Bit r = (4194303, none)) := by
  refine ⟨ValidateRate_err_iff supports64Bit r, ?_, ?_⟩
  all_goals
    unfold ValidateRate
    cases supports64Bit <;> simp only [MaxRate32, MaxRate64] <;> split_ifs <;> simp <;> omega

/-- Instance of `ValidateRate_spec`: 1000 Kbps is accepted unchanged, 0 becomes
4194303. -/
theorem ValidateRate_spec_witness :
    ValidateRate true 1000 = (1000, none) ∧ ValidateRate true 0 = (4194303, none) :=
  ⟨(ValidateRate_spec true 1000).2.1 (by decide) (by decide),
   (ValidateRate_spec true 0).2.2 rfl⟩

/-! ## Class IDs -/

/-- The loop of `(*sum64a).Write` is a left fold of the FNV-1a round. -/
theorem sum64aWrite_eq_foldl (data : List Nat) (hash : Nat) :
    sum64aWrite hash data
      = data.foldl (fun h o => (h ^^^ o) * 1099511628211 % 18446744073709551616) hash := by
  induction data generalizing hash with
  | nil => rfl
  | cons c data ih =>
    simp only [sum64aWrite, List.foldl_cons, prime64]
    exact ih _

/-! ### The bytes of a string

`bytesOf` is compared with the UTF-8 encoding of the standard library,
`String.toUTF8`. -/

theorem uint8_toNat_and (a b : UInt8) : (a &&& b).toNat = a.toNat &&& b.toNat :=
  BitVec.toNat_and a.toBitVec b.toBitVec

theorem uint8_toNat_or (a b : UInt8) : (a ||| b).toNat = a.toNat ||| b.toNat :=
  BitVec.toNat_or a.toBitVec b.toBitVec

theorem uint32_toNat_shiftRight (v s : UInt32) (hs : s.toNat < 32) :
    (v >>> s).toNat = v.toNat / 2 ^ s.toNat := by
  have h : (s.mod 32).toBitVec.toNat = s.toNat := by
    show (s.toBitVec % (32 : UInt32).toBitVec).toNat = _
    rw [BitVec.toNat_umod]
    exact Nat.mod_eq_of_lt hs
  show (v.toBitVec >>> (s.mod 32).toBitVec.toNat).toNat = _
  rw [BitVec.toNat_ushiftRight, h, Nat.shiftRight_eq_div_pow]
  rfl

theorem uint32_toUInt8_toNat (v : UInt32) : v.toUInt8.toNat = v.toNat % 256 := rfl

/-- A continuation byte: `10` above the six low bits. -/
theorem cont_byte (x : Nat) : (x % 256 &&& 63) ||| 128 = 128 + x % 64 := by
  have h1 : x % 256 &&& 63 = x % 256 % 64 := Nat.and_pow_two_sub_one_eq_mod (x % 256) 6
  have h2 : x % 256 % 64 = x % 64 := Nat.mod_mod_of_dvd x (by decide)
  rw [h1, h2, Nat.or_comm]
  exact (@Nat.mul_add_lt_is_or 6 (x % 64) (Nat.mod_lt x (by decide)) 2).symm

/-- The leading byte of a sequence of two bytes. -/
theorem lead_byte2 (x : Nat) (hx : x < 32) : (x % 256 &&& 31) ||| 192 = 192 + x := by
  have h1 : x % 256 &&& 31 = x % 256 % 32 := Nat.and_pow_two_sub_one_eq_mod (x % 256) 5
  have h2 : x % 256 % 32 = x % 32 := Nat.mod_mod_of_dvd x (by decide)
  rw [h1, h2, Nat.mod_eq_of_lt hx, Nat.or_comm]
  exact (@Nat.mul_add_lt_is_or 5 x hx 6).symm

/-- The leading byte of a sequence of three bytes. -/
theorem lead_byte3 (x : Nat) (hx : x < 16) : (x % 256 &&& 15) ||| 224 = 224 + x := by
  have h1 : x % 256 &&& 15 = x % 256 % 16 := Nat.and_pow_two_sub_one_eq_mod (x % 256) 4
  have h2 : x % 256 % 16 = x % 16 := Nat.mod_mod_of_dvd x (by decide)
  rw [h1, h2, Nat.mod_eq_of_lt hx, Nat.or_comm]
  exact (@Nat.mul_add_lt_is_or 4 x hx 14).symm

/-- The leading byte of a sequence of four bytes. -/
theorem lead_byte4 (x : Nat) (hx : x < 8) : (x % 256 &&& 7) ||| 240 = 240 + x := by
  have h1 : x % 256 &&& 7 = x % 256 % 8 := Nat.and_pow_two_sub_one_eq_mod (x % 256) 3
  have h2 : x % 256 % 8 = x % 8 := Nat.mod_mod_of_dvd x (by decide)
  rw [h1, h2, Nat.mod_eq_of_lt hx, Nat.or_comm]
  exact (@Nat.mul_add_lt_is_or 3 x hx 30).symm

theorem char_toNat_lt (c : Char) : c.toNat < 0x110000 := by
  have h := c.valid
  show c.val.toNat < _
  rcases h with h | ⟨_, h⟩
  · have : c.val.toNat < 0xd800 := h
    omega
  · exact h

/-- The bytes of a rune are those of `String.utf8EncodeChar`. -/
theorem utf8Bytes_eq (c : Char) : utf8Bytes c = (String.utf8EncodeChar c).map UInt8.toNat := by
  have hlt := char_toNat_lt c
  have hn : c.toNat = c.val.toNat := rfl
  unfold utf8Bytes String.utf8EncodeChar
  simp only [hn] at hlt ⊢
  have e6 : (c.val >>> 6).toNat = c.val.toNat / 64 := uint32_toNat_shiftRight c.val 6 (by decide)
  have e12 : (c.val >>> 12).toNat = c.val.toNat / 4096 :=
    uint32_toNat_shiftRight c.val 12 (by decide)
  have e18 : (c.val >>> 18).toNat = c.val.toNat / 262144 :=
    uint32_toNat_shiftRight c.val 18 (by decide)
  have t7f : (c.val ≤ 0x7f) ↔ c.val.toNat < 0x80 := by
    show c.val.toNat ≤ 127 ↔ _
    omega
  have t7ff : (c.val ≤ 0x7ff) ↔ c.val.toNat < 0x800 := by
    show c.val.toNat ≤ 2047 ↔ _
    omega
  have tffff : (c.val ≤ 0xffff) ↔ c.val.toNat < 0x10000 := by
    show c.val.toNat ≤ 65535 ↔ _
    omega
  simp only [t7f, t7ff, tffff]
  split_ifs with h1 h2 h3
  · simp only [List.map_cons, List.map_nil, uint32_toUInt8_toNat]
    rw [Nat.mod_eq_of_lt (by omega)]
  · simp only [List.map_cons, List.map_nil, uint8_toNat_or, uint8_toNat_and,
      uint32_toUInt8_toNat, e6]
    rw [show (0x1f : UInt8).toNat = 31 from rfl, show (0xc0 : UInt8).toNat = 192 from rfl,
      show (0x3f : UInt8).toNat = 63 from rfl, show (0x80 : UInt8).toNat = 128 from rfl,
      lead_byte2 _ (by omega), cont_byte]
  · simp only [List.map_cons, List.map_nil, uint8_toNat_or, uint8_toNat_and,
      uint32_toUInt8_toNat, e6, e12]
    rw [show (0x0f : UInt8).toNat = 15 from rfl, show (0xe0 : UInt8).toNat = 224 from rfl,
      show (0x3f : UInt8).toNat = 63 from rfl, show (0x80 : UInt8).toNat = 128 from rfl,
      lead_byte3 _ (by omega), cont_byte, cont_byte]
  · simp only [List.map_cons, List.map_nil, uint8_toNat_or, uint8_toNat_and,
      uint32_toUInt8_toNat, e6, e12, e18]
    rw [show (0x07 : UInt8).toNat = 7 from rfl, show (0xf0 : UInt8).toNat = 240 from rfl,
      show (0x3f : UInt8).toNat = 63 from rfl, show (0x80 : UInt8).toNat = 128 from rfl,
      lead_byte4 _ (by omega), cont_byte, cont_byte, cont_byte]

/-- Go `[]byte(s)` as modelled by `bytesOf` is the UTF-8 encoding of the string as
the standard library computes it. -/
theorem bytesOf_eq_toUTF8 (s : String) :
    bytesOf s = s.toUTF8.data.toList.map UInt8.toNat := by
  show s.data.flatMap utf8Bytes = (s.data.flatMap String.utf8EncodeChar).map UInt8.toNat
  rw [List.map_flatMap]
  congr 1
  funext c
  exact utf8Bytes_eq c

/-- C14: for every peer string `p`, `PeerToClassBase p` is the 64-bit FNV-1a hash
of the bytes of `p` (its UTF-8 encoding, `String.toUTF8`) modulo `0xfff`, and so
lies in `[0, 0xfff]`; it depends on `p` alone. The hash is the FNV-1a of the
published test vectors: the empty input, `a` and `foobar`. -/
theorem PeerToClassBase_spec (p : String) :
    PeerToClassBase p
      = ((FNV1a_64 (p.toUTF8.data.toList.map UInt8.toNat) % 0xfff : Nat) : Int) ∧
    0 ≤ PeerToClassBase p ∧ PeerToClassBase p ≤ 0xfff ∧
    FNV1a_64 [] = 0xcbf29ce484222325 ∧
    FNV1a_64 [0x61] = 0xaf63dc4c8601ec8c ∧
    FNV1a_64 [0x66, 0x6f, 0x6f, 0x62, 0x61, 0x72] = 0x85944171f73967e8 ∧
    PeerToClassBase "a" = ((0xaf63dc4c8601ec8c % 0xfff : Nat) : Int) := by
  have h : PeerToClassBase p
      = ((FNV1a_64 (p.toUTF8.data.toList.map UInt8.toNat) % 0xfff : Nat) : Int) := by
    rw [← bytesOf_eq_toUTF8]
    unfold PeerToClassBase FNV1a_64
    rw [sum64aWrite_eq_foldl]
    rfl
  refine ⟨h, ?_, ?_, by decide, by decide, by decide, by decide⟩
  · rw [h]; exact Int.ofNat_nonneg _
  · rw [h]
    have : FNV1a_64 (p.toUTF8.data.toList.map UInt8.toNat) % 0xfff < 0xfff :=
      Nat.mod_lt _ (by decide)
    omega

/-! ## main: validation -/

/-- The probe leaves exactly its two commands in the trace, whatever they
return. -/
theorem Detect64BitSupport_trace (env : Env) (w : World) :
    (Detect64BitSupport env w).2.trace = w.trace ++ probeCmds := by
  unfold Detect64BitSupport
  dsimp only
  split_ifs <;> simp [run, probeCmds, TCPath, MaxRate32, wrap64, fmtD] <;> decide

set_option maxRecDepth 100000 in
/-- C20 (as stated, refuted): the invocation with `-upload-rate -1000` exits with
status 1 only after two TC commands have been issued, the `class add` and the
`class del` of the 64-bit probe. -/
theorem main_negative_rate_runs_probe :
    (main freshSystem negativeRateFlags).1 = 1 ∧
    (main freshSystem negativeRateFlags).2.trace
      = [["/sbin/tc", "class", "add", "dev", "lo", "parent", "1:", "classid", "1:999",
            "htb", "rate", "4194304000bit"],
         ["/sbin/tc", "class", "del", "dev", "lo", "classid", "1:999"]] ∧
    (main freshSystem negativeRateFlags).2.trace ≠ [] := by
  decide

/-- C20 (amended): when validation fails, the shaper exits with status 1 and the
only commands issued are those of the 64-bit probe, which runs before the rates
are processed: a `class add` and a `class del` of the test class `1:999` on
`lo`. With `-nuke` the only validation is that of the interface flag, and its
failure exits with status 1 before any command. -/
theorem main_validation_failure (env : Env) (f : Flags) :
    (f.nuke = false →
      (f.uploadRate < 0 ∨ f.uploadRate > 4194303 ∨ f.downloadRate < 0 ∨
        f.downloadRate > 4194303 ∨ f.iface = "" ∨ f.peerKey = "" ∨ f.protocol = "" ∨
        f.allowedIPs = "" ∨ (f.protocol ≠ "wg" ∧ f.protocol ≠ "awg")) →
      (main env f).1 = 1 ∧ (main env f).2.trace = probeCmds) ∧
    (f.nuke = true → f.iface = "" → (main env f).1 = 1 ∧ (main env f).2.trace = []) := by
  constructor
  · intro hn hbad
    have htr := Detect64BitSupport_trace env
      { trace := [], schedulerType := f.scheduler, supports64Bit := false }
    simp only [List.nil_append] at htr
    unfold main
    simp only [hn, Bool.false_eq_true, if_false]
    rcases hu : ValidateRate (Detect64BitSupport env
      { trace := [], schedulerType := f.scheduler, supports64Bit := false }).1 f.uploadRate
      with ⟨u, eu⟩
    cases eu with
    | some e => exact ⟨rfl, htr⟩
    | none =>
      rcases hd : ValidateRate (Detect64BitSupport env
        { trace := [], schedulerType := f.scheduler, supports64Bit := false }).1 f.downloadRate
        with ⟨d, ed⟩
      cases ed with
      | some e => exact ⟨rfl, htr⟩
      | none =>
        have hu1 := ValidateRate_err_iff (Detect64BitSupport env
          { trace := [], schedulerType := f.scheduler, supports64Bit := false }).1 f.uploadRate
        have hd1 := ValidateRate_err_iff (Detect64BitSupport env
          { trace := [], schedulerType := f.scheduler, supports64Bit := false }).1 f.downloadRate
        rw [hu] at hu1
        rw [hd] at hd1
        simp only [Option.isSome_none, Bool.false_eq_true, false_iff, not_or, not_lt,
          not_le] at hu1 hd1
        have hrest : (f.iface = "" ∨ f.peerKey = "" ∨ f.protocol = "" ∨ f.allowedIPs = "") ∨
            (f.protocol ≠ "wg" ∧ f.protocol ≠ "awg") := by
          rcases hbad with h | h | h | h | h | h | h | h | h
          · omega
          · omega
          · omega
          · omega
          · exact Or.inl (Or.inl h)
          · exact Or.inl (Or.inr (Or.inl h))
          · exact Or.inl (Or.inr (Or.inr (Or.inl h)))
          · exact Or.inl (Or.inr (Or.inr (Or.inr h)))
          · exact Or.inr h
        simp only []
        rcases hrest with h | h
        · rw [if_pos h]; exact ⟨rfl, htr⟩
        · by_cases h0 : f.iface = "" ∨ f.peerKey = "" ∨ f.protocol = "" ∨ f.allowedIPs = ""
          · rw [if_pos h0]; exact ⟨rfl, htr⟩
          · rw [if_neg h0, if_pos h]; exact ⟨rfl, htr⟩
  · intro hn hi
    unfold main
    simp [hn, hi]

/-- Instance of `main_validation_failure`: a download rate above the ceiling on
the simulated fresh system. -/
theorem main_validation_failure_witness :
    (main freshSystem { negativeRateFlags with uploadRate := 5, downloadRate := 4194304 }).1 = 1 ∧
    (main freshSystem
      { negativeRateFlags with uploadRate := 5, downloadRate := 4194304 }).2.trace = probeCmds :=
  (main_validation_failure freshSystem
    { negativeRateFlags with uploadRate := 5, downloadRate := 4194304 }).1 rfl
    (Or.inr (Or.inr (Or.inr (Or.inl (by decide)))))

/-! ## main: what the validation lets through -/

set_option maxRecDepth 1000000 in
/-- C13 (not met by the code): with `-download-rate 0` (and upload 1000, HTB) on a
fresh system the run issues `class change` and then `class add` for the download
class `1:dc92` of the peer at the maximum rate, adds the download filter for the
address, and never lists the filters of `wg0` to remove one. `ValidateRate` has
turned the 0 into 4194303 before `main` compares the rate with 0. -/
theorem main_zero_download_creates_class :
    (main freshSystem zeroDownloadFlags).1 = 0 ∧
    ["/sbin/tc", "class", "change", "dev", "wg0", "parent", "1:", "classid", "1:dc92",
      "htb", "rate", "4194303000bit", "burst", "15k", "ceil", "4194303000bit"]
      ∈ (main freshSystem zeroDownloadFlags).2.trace ∧
    ["/sbin/tc", "class", "add", "dev", "wg0", "parent", "1:", "classid", "1:dc92",
      "htb", "rate", "4194303000bit", "burst", "15k", "ceil", "4194303000bit"]
      ∈ (main freshSystem zeroDownloadFlags).2.trace ∧
    ["/sbin/tc", "filter", "add", "dev", "wg0", "protocol", "ip", "parent", "1:", "prio", "1",
      "u32", "match", "ip", "dst", "10.0.0.2", "flowid", "1:dc92"]
      ∈ (main freshSystem zeroDownloadFlags).2.trace ∧
    ["/sbin/tc", "filter", "show", "dev", "wg0", "parent", "1:"]
      ∉ (main freshSystem zeroDownloadFlags).2.trace := by
  decide

set_option maxRecDepth 1000000 in
/-- C18 (not met by the code): the invocation of `TestCommandInjection` with the peer
`test_peer; echo 'injected'` is not rejected. It exits with status 0 after it has
created the download class `1:69b2` on `lo` and the upload class `1:69b1` on
`ifb-lo` for that peer. -/
theorem main_accepts_injection_peer :
    (main freshSystem injectionFlags).1 = 0 ∧
    ["/sbin/tc", "class", "add", "dev", "lo", "parent", "1:", "classid", "1:69b2",
      "htb", "rate", "2000000bit", "burst", "15k", "ceil", "2000000bit"]
      ∈ (main freshSystem injectionFlags).2.trace ∧
    ["/sbin/tc", "class", "add", "dev", "ifb-lo", "parent", "1:", "classid", "1:69b1",
      "htb", "rate", "1000000bit", "burst", "15k", "ceil", "1000000bit"]
      ∈ (main freshSystem injectionFlags).2.trace := by
  decide

set_option maxRecDepth 1000000 in
/-- C19 (not met by the code): the invocations of `TestSchedulerSecurity` with the
schedulers `invalid`, `HTB` and `htb; rm -rf /` all exit with status 0; they are
shaped with HTB, the `default` case of every switch on the scheduler type. -/
theorem main_accepts_unknown_scheduler :
    (main freshSystem (schedulerFlags "invalid")).1 = 0 ∧
    (main freshSystem (schedulerFlags "HTB")).1 = 0 ∧
    (main freshSystem (schedulerFlags "htb; rm -rf /")).1 = 0 ∧
    ["/sbin/tc", "qdisc", "add", "dev", "lo", "root", "handle", "1:", "htb", "default", "99"]
      ∈ (main freshSystem (schedulerFlags "invalid")).2.trace := by
  decide

/-! ## Root qdisc -/

/-- C16 (not met by the code): the device has an HTB root qdisc, `class show` lists
the peer class `1:12` besides `1:99`, both as `CreateClass` creates them
(`parent 1:`, shown with the word `root`), and HFSC is requested; the existing
qdisc is not preserved. A class line that carries the word `root` does not
count as an active class; the run deletes the root qdisc, adds an HFSC one and
keeps `hfsc` as scheduler type. -/
theorem CheckAndSetupRootQdisc_deletes_with_peer_class :
    CheckAndSetupRootQdisc htbWithPeerClass "wg0"
        { trace := [], schedulerType := "hfsc", supports64Bit := true }
      = (none,
         { trace :=
            [["/sbin/tc", "qdisc", "show", "dev", "wg0"],
             ["/sbin/tc", "class", "show", "dev", "wg0"],
             ["/sbin/tc", "qdisc", "del", "dev", "wg0", "root"],
             ["/sbin/tc", "qdisc", "add", "dev", "wg0", "root", "handle", "1:", "hfsc",
               "default", "99"],
             ["/sbin/tc", "filter", "add", "dev", "wg0", "protocol", "ip", "parent", "1:",
               "prio", "1", "u32", "match", "u32", "0", "0", "flowid", "1:99"],
             ["/sbin/tc", "filter", "add", "dev", "wg0", "protocol", "ipv6", "parent", "1:",
               "prio", "2", "u32", "match", "ip6", "src", "::/0", "flowid", "1:99"]],
           schedulerType := "hfsc", supports64Bit := true }) := by
  decide

/-! ## CAKE -/

/-- A product below `2^63` of non-negative factors is not changed by the
conversion to `int64`. -/
theorem wrap64_of_range (x : Int) (h0 : 0 ≤ x) (h1 : x < 2 ^ 63) : wrap64 x = x := by
  unfold wrap64
  have h : (x + 2 ^ 63) % 2 ^ 64 = x + 2 ^ 63 :=
    Int.emod_eq_of_lt (by omega) (by omega)
  omega

/-- C17: in CAKE mode, for every allowed IP and positive rates `d` (download) and
`u` (upload) in Kbps, `SetupCAKEPerPeerLimits` issues no `class` command; it adds
the ingress qdisc, then the download policing filter at parent `ffff:` matching
`dst` = ip and, when that was accepted, the upload policing filter at parent
`1:` matching `src` = ip, each with `police rate` = rate * 1000 `bit`,
`burst` = rate * 125 and `drop`. These two filters are all it installs, and it
returns no error exactly when both are accepted. -/
theorem SetupCAKEPerPeerLimits_spec (env : Env) (iface allowedIP : String) (d u : Int)
    (w : World) (hd : 0 < d) (hu : 0 < u) (hdm : d * 1000 < 2 ^ 63) (hum : u * 1000 < 2 ^ 63) :
    let ip := splitHead allowedIP '/'
    let proto := if contains ip ":" then "ipv6" else "ip"
    let mt := if contains ip ":" then "ip6" else "ip"
    let ing := ["/sbin/tc", "qdisc", "add", "dev", iface, "ingress"]
    let dl := ["/sbin/tc", "filter", "add", "dev", iface, "parent", "ffff:", "protocol", proto,
      "prio", "1", "u32", "match", mt, "dst", ip, "police", "rate", fmtD (d * 1000) ++ "bit",
      "burst", fmtD (d * 125), "drop", "flowid", ":1"]
    let ul := ["/sbin/tc", "filter", "add", "dev", iface, "parent", "1:", "protocol", proto,
      "prio", "1", "u32", "match", mt, "src", ip, "police", "rate", fmtD (u * 1000) ++ "bit",
      "burst", fmtD (u * 125), "drop", "flowid", ":1"]
    let r := SetupCAKEPerPeerLimits env iface allowedIP d u w
    (∀ c ∈ r.2.trace.drop w.trace.length, c.get? 1 ≠ some "class") ∧
    ((env.exec (w.trace ++ [ing]) dl).err = none →
      r.2.trace = w.trace ++ [ing, dl, ul] ∧
      (r.1 = none ↔ (env.exec (w.trace ++ [ing, dl]) ul).err = none)) ∧
    ((env.exec (w.trace ++ [ing]) dl).err ≠ none →
      r.1 ≠ none ∧ r.2.trace = w.trace ++ [ing, dl]) := by
  have wd1 := wrap64_of_range (d * 1000) (by omega) hdm
  have wd2 := wrap64_of_range (d * 125) (by omega) (by omega)
  have wu1 := wrap64_of_range (u * 1000) (by omega) hum
  have wu2 := wrap64_of_range (u * 125) (by omega) (by omega)
  intro ip proto mt ing dl ul r
  have hr : r = SetupCAKEPerPeerLimits env iface allowedIP d u w := rfl
  unfold SetupCAKEPerPeerLimits at hr
  simp only [gt_iff_lt, hd, hu, if_true, wd1, wd2, wu1, wu2, run, TCPath] at hr
  change (r = match (match (env.exec (w.trace ++ [ing]) dl).err with
      | some e => (some ("failed to add CAKE download filter: " ++ e ++ ", output: "
          ++ (env.exec (w.trace ++ [ing]) dl).output),
          ({ w with trace := w.trace ++ [ing] ++ [dl] } : World))
      | none => (none, ({ w with trace := w.trace ++ [ing] ++ [dl] } : World))) with
    | (some e, w1) => (some e, w1)
    | (none, w1) =>
      match (env.exec (w1.trace) ul).err with
      | some e => (some ("failed to add CAKE upload filter: " ++ e ++ ", output: "
          ++ (env.exec w1.trace ul).output), { w1 with trace := w1.trace ++ [ul] })
      | none => (none, { w1 with trace := w1.trace ++ [ul] })) at hr
  rcases hdl : (env.exec (w.trace ++ [ing]) dl).err with _ | e
  · rw [hdl] at hr
    simp only [List.append_assoc, List.singleton_append] at hr
    rcases hul : (env.exec (w.trace ++ [ing, dl]) ul).err with _ | e2
    · rw [hul] at hr
      simp only [List.append_assoc, List.singleton_append, List.cons_append,
        List.nil_append] at hr
      rw [hr]
      refine ⟨?_, fun _ => ⟨rfl, by simp⟩, fun h => absurd rfl h⟩
      intro c hc
      simp only [List.drop_left, List.mem_cons, List.mem_singleton, List.not_mem_nil,
        or_false] at hc
      rcases hc with rfl | rfl | rfl <;> simp [ing, dl, ul]
    · rw [hul] at hr
      simp only [List.append_assoc, List.singleton_append, List.cons_append,
        List.nil_append] at hr
      rw [hr]
      refine ⟨?_, fun _ => ⟨rfl, by simp⟩, fun h => absurd rfl h⟩
      intro c hc
      simp only [List.drop_left, List.mem_cons, List.mem_singleton, List.not_mem_nil,
        or_false] at hc
      rcases hc with rfl | rfl | rfl <;> simp [ing, dl, ul]
  · rw [hdl] at hr
    simp only [List.append_assoc, List.singleton_append] at hr
    rw [hr]
    refine ⟨?_, fun h => absurd h (by simp), fun _ => ⟨by simp, rfl⟩⟩
    intro c hc
    simp only [List.drop_left, List.mem_cons, List.mem_singleton, List.not_mem_nil,
      or_false] at hc
    rcases hc with rfl | rfl <;> simp [ing, dl]

/-- Instance of `SetupCAKEPerPeerLimits_spec`: 2000 Kbps down and 1000 Kbps up for
`10.0.0.2/32` on the simulated fresh system. -/
theorem SetupCAKEPerPeerLimits_spec_witness :
    (SetupCAKEPerPeerLimits freshSystem "wg0" "10.0.0.2/32" 2000 1000
        { trace := [], schedulerType := "cake", supports64Bit := true }).2.trace
      = [["/sbin/tc", "qdisc", "add", "dev", "wg0", "ingress"],
         ["/sbin/tc", "filter", "add", "dev", "wg0", "parent", "ffff:", "protocol", "ip",
           "prio", "1", "u32", "match", "ip", "dst", "10.0.0.2", "police", "rate", "2000000bit",
           "burst", "250000", "drop", "flowid", ":1"],
         ["/sbin/tc", "filter", "add", "dev", "wg0", "parent", "1:", "protocol", "ip",
           "prio", "1", "u32", "match", "ip", "src", "10.0.0.2", "police", "rate", "1000000bit",
           "burst", "125000", "drop", "flowid", ":1"]] :=
  ((SetupCAKEPerPeerLimits_spec freshSystem "wg0" "10.0.0.2/32" 2000 1000
    { trace := [], schedulerType := "cake", supports64Bit := true }
    (by decide) (by decide) (by decide) (by decide)).2.1 (by decide)).1

/-! ## Hexadecimal rendering and parsing -/

/-- The digits are put in front of the accumulator. -/
theorem toDigitsAux_acc (b fuel n : Nat) (acc : List Char) :
    toDigitsAux b fuel n acc = toDigitsAux b fuel n [] ++ acc := by
  induction fuel generalizing n acc with
  | zero => simp [toDigitsAux]
  | succ fuel ih =>
    unfold toDigitsAux
    split_ifs
    · simp
    · rw [ih (n / b) (digitChar (n % b) :: acc), ih (n / b) [digitChar (n % b)]]
      simp

/-- Any fuel above the number gives the same digits. -/
theorem toDigitsAux_fuel (b : Nat) (hb : 2 ≤ b) (f f2 n : Nat) (acc : List Char)
    (h1 : n < f) (h2 : n < f2) : toDigitsAux b f n acc = toDigitsAux b f2 n acc := by
  induction f generalizing f2 n acc with
  | zero => omega
  | succ f ih =>
    cases f2 with
    | zero => omega
    | succ f2 =>
      unfold toDigitsAux
      split_ifs with hn
      · rfl
      · have hlt : n / b < n := Nat.div_lt_self (by omega) (by omega)
        exact ih f2 (n / b) _ (by omega) (by omega)

theorem hexOfNat_small (n : Nat) (h : n < 16) : hexOfNat n = [digitChar n] := by
  unfold hexOfNat toDigitsAux
  simp [h]

theorem hexOfNat_step (n : Nat) (h : 16 ≤ n) :
    hexOfNat n = hexOfNat (n / 16) ++ [digitChar (n % 16)] := by
  have hlt : n / 16 < n := Nat.div_lt_self (by omega) (by omega)
  unfold hexOfNat
  rw [toDigitsAux]
  rw [if_neg (by omega), toDigitsAux_acc]
  rw [toDigitsAux_fuel 16 (by omega) n (n / 16 + 1) (n / 16) [] hlt (by omega)]

theorem hexVal_digitChar (d : Nat) (h : d < 16) : hexVal (digitChar d) = some d := by
  interval_cases d <;> decide

theorem isLowerHex_digitChar (d : Nat) (h : d < 16) : isLowerHex (digitChar d) = true := by
  interval_cases d <;> decide

/-- Every rune of `%x` is a lower-case hexadecimal digit. -/
theorem hexOfNat_all (n : Nat) : ∀ c ∈ hexOfNat n, isLowerHex c = true := by
  induction n using Nat.strong_induction_on with
  | _ n ih =>
    by_cases h : n < 16
    · rw [hexOfNat_small n h]
      intro c hc
      simp only [List.mem_singleton] at hc
      rw [hc]
      exact isLowerHex_digitChar n h
    · rw [hexOfNat_step n (by omega)]
      intro c hc
      rcases List.mem_append.1 hc with hc | hc
      · exact ih (n / 16) (Nat.div_lt_self (by omega) (by omega)) c hc
      · simp only [List.mem_singleton] at hc
        rw [hc]
        exact isLowerHex_digitChar _ (Nat.mod_lt _ (by omega))

theorem hexOfNat_ne_nil (n : Nat) : hexOfNat n ≠ [] := by
  by_cases h : n < 16
  · rw [hexOfNat_small n h]; simp
  · rw [hexOfNat_step n (by omega)]; simp

/-- A number below `16^k` has at most `k` hexadecimal digits. -/
theorem hexOfNat_length (k : Nat) : ∀ n, n < 16 ^ (k + 1) → (hexOfNat n).length ≤ k + 1 := by
  induction k with
  | zero =>
    intro n hn
    rw [hexOfNat_small n (by simpa using hn)]
    simp
  | succ k ih =>
    intro n hn
    by_cases h : n < 16
    · rw [hexOfNat_small n h]; simp
    · rw [hexOfNat_step n (by omega)]
      have : n / 16 < 16 ^ (k + 1) := by
        rw [Nat.div_lt_iff_lt_mul (by omega)]
        rw [pow_succ] at hn
        exact hn
      have := ih (n / 16) this
      simp only [List.length_append, List.length_singleton]
      omega

/-- The digit loop of `ParseUint` runs through a concatenation part by part. -/
theorem parseUintLoop_append (xs ys : List Char) (v : Nat) :
    parseUintLoop (xs ++ ys) v = (parseUintLoop xs v).bind (fun m => parseUintLoop ys m) := by
  induction xs generalizing v with
  | nil => simp [parseUintLoop]
  | cons c xs ih =>
    simp only [List.cons_append, parseUintLoop]
    cases hexVal c with
    | none => simp
    | some d =>
      simp only
      split_ifs
      · simp
      · simp
      · exact ih _

/-- One more hexadecimal digit `c` of value `d` after the value `v`. -/
theorem parseUintLoop_digit (c : Char) (d v : Nat) (hc : hexVal c = some d) (hd : d < 16)
    (hv : v < 2 ^ 60) : parseUintLoop [c] v = some (v * 16 + d) := by
  simp only [parseUintLoop, hc]
  rw [if_neg (by omega), if_neg (by omega)]

/-- Parsing the `%x` rendering of a number gives the number back. -/
theorem parseUintLoop_hexOfNat (n : Nat) (hn : n < 2 ^ 64) :
    parseUintLoop (hexOfNat n) 0 = some n := by
  induction n using Nat.strong_induction_on with
  | _ n ih =>
    by_cases h : n < 16
    · rw [hexOfNat_small n h, parseUintLoop_digit _ n 0 (hexVal_digitChar n h) h (by decide)]
      simp
    · rw [hexOfNat_step n (by omega), parseUintLoop_append,
        ih (n / 16) (Nat.div_lt_self (by omega) (by omega)) (by omega)]
      simp only [Option.some_bind]
      rw [parseUintLoop_digit _ (n % 16) (n / 16) (hexVal_digitChar _ (Nat.mod_lt _ (by omega)))
        (Nat.mod_lt _ (by omega)) (by omega)]
      congr 1
      omega

/-- Leading zeros do not change the value. -/
theorem parseUintLoop_zeros (k : Nat) (xs : List Char) :
    parseUintLoop (List.replicate k '0' ++ xs) 0 = parseUintLoop xs 0 := by
  induction k with
  | zero => simp
  | succ k ih =>
    rw [List.replicate_succ, List.cons_append, parseUintLoop]
    have h0 : hexVal '0' = some 0 := by decide
    simp only [h0]
    rw [if_neg (by decide), if_neg (by decide)]
    exact ih

/-- Go `strconv.ParseInt` on a non-empty string of lower-case hexadecimal digits
is the digit loop followed by the range check. -/
theorem parseInt16_digits (cs : List Char) (hne : cs ≠ [])
    (hall : ∀ c ∈ cs, isLowerHex c = true) :
    parseInt16 (String.mk cs)
      = (parseUintLoop cs 0).bind (fun un => if un ≥ 2 ^ 63 then none else some (un : Int)) := by
  cases cs with
  | nil => exact absurd rfl hne
  | cons c cs =>
    have hc := hall c (List.mem_cons_self _ _)
    have hp : c ≠ '+' := by rintro rfl; exact absurd hc (by decide)
    have hm : c ≠ '-' := by rintro rfl; exact absurd hc (by decide)
    unfold parseInt16
    split
    · rename_i h; simp at h
    · rename_i h
      simp only [List.cons.injEq] at h
      exact absurd h.1 hp
    · rename_i h
      simp only [List.cons.injEq] at h
      exact absurd h.1 hm
    · simp only [parseUint16]
      cases parseUintLoop (c :: cs) 0 <;> rfl

/-- Go `strings.Split` leaves a string without the separator in one piece. -/
theorem splitL_no_sep (sep : Char) (cs cur : List Char) (h : sep ∉ cs) :
    splitL sep cs cur = [cur.reverse ++ cs] := by
  induction cs generalizing cur with
  | nil => simp [splitL]
  | cons c cs ih =>
    simp only [List.mem_cons, not_or] at h
    unfold splitL
    rw [if_neg (fun hc => h.1 hc.symm), ih (c :: cur) h.2]
    simp

/-! ## Class-ID normalisation -/

/-- No lower-case hexadecimal digit is a colon. -/
theorem colon_not_mem (cs : List Char) (h : ∀ c ∈ cs, isLowerHex c = true) : ':' ∉ cs := by
  intro hc
  exact absurd (h ':' hc) (by decide)

/-- The normalisation of a rendered class ID: `1:`, the `%x` digits of `b`, and one
more hexadecimal digit `c` of value `d`. -/
theorem normalizeClassID_rendered (b d : Nat) (c : Char) (hb : b < 4096)
    (hc : hexVal c = some d) (hd : d < 16) (hl : isLowerHex c = true) :
    normalizeClassID (String.mk ('1' :: ':' :: (hexOfNat b ++ [c])))
      = Except.ok ("1:" ++ fmtX04 ((b * 16 + d : Nat) : Int)) := by
  have hall : ∀ x ∈ hexOfNat b ++ [c], isLowerHex x = true := by
    intro x hx
    rcases List.mem_append.1 hx with hx | hx
    · exact hexOfNat_all b x hx
    · simp only [List.mem_singleton] at hx
      rw [hx]; exact hl
  have hsplit : split (String.mk ('1' :: ':' :: (hexOfNat b ++ [c]))) ':'
      = ["1", String.mk (hexOfNat b ++ [c])] := by
    unfold split
    simp only [splitL]
    rw [if_pos trivial, splitL_no_sep ':' _ [] (colon_not_mem _ hall)]
    rfl
  have hparse : parseInt16 (String.mk (hexOfNat b ++ [c])) = some ((b * 16 + d : Nat) : Int) := by
    rw [parseInt16_digits _ (by simp) hall, parseUintLoop_append,
      parseUintLoop_hexOfNat b (by omega)]
    simp only [Option.some_bind]
    rw [parseUintLoop_digit c d b hc hd (by omega)]
    simp only [Option.some_bind]
    rw [if_neg (by omega)]
  unfold normalizeClassID
  rw [hsplit]
  simp only [hparse]

/-- Go `%04x` of a number below `0x10000`: exactly four lower-case hexadecimal
digits. -/
theorem fmtX04_digits (n : Nat) (hn : n < 65536) :
    (fmtX04 (n : Int)).data.length = 4 ∧ ∀ c ∈ (fmtX04 (n : Int)).data, isLowerHex c = true := by
  have hlen := hexOfNat_length 3 n (by simpa using hn)
  unfold fmtX04
  rw [if_neg (by omega)]
  simp only [Int.toNat_ofNat, List.length_append, List.length_replicate]
  refine ⟨by omega, ?_⟩
  intro c hc
  rcases List.mem_append.1 hc with hc | hc
  · rw [(List.mem_replicate.1 hc).2]; decide
  · exact hexOfNat_all n c hc

/-- A normalised class ID of a number below `0x10000` matches `^1:[0-9a-f]{4}$`. -/
theorem matchesClassID_fmtX04 (n : Nat) (hn : n < 65536) :
    matchesClassID ("1:" ++ fmtX04 (n : Int)) = true := by
  have h := fmtX04_digits n hn
  have hd : ("1:" ++ fmtX04 (n : Int)).data = '1' :: ':' :: (fmtX04 (n : Int)).data := by
    rw [String.data_append]; rfl
  unfold matchesClassID
  rw [hd]
  simp only [h.1, beq_self_eq_true, Bool.true_and, List.all_eq_true]
  exact h.2

/-- The four digits of `%04x` denote the number that was printed. -/
theorem parseInt16_fmtX04 (n : Nat) (hn : n < 65536) :
    parseInt16 (fmtX04 (n : Int)) = some (n : Int) := by
  have h := fmtX04_digits n hn
  have hne : (fmtX04 (n : Int)).data ≠ [] := by
    intro h0
    rw [h0] at h
    simp at h
  have hp := parseInt16_digits (fmtX04 (n : Int)).data hne h.2
  rw [show String.mk (fmtX04 (n : Int)).data = fmtX04 (n : Int) from rfl] at hp
  rw [hp]
  unfold fmtX04
  rw [if_neg (by omega)]
  simp only [Int.toNat_ofNat, parseUintLoop_zeros, parseUintLoop_hexOfNat n (by omega),
    Option.some_bind]
  rw [if_neg (by omega)]

/-- C15: for every peer identity and both suffixes (1 = upload, 2 = download), the
normalisation in `CreateClass` of the class ID that `main` renders as
`1:{base:x}{suffix}` never fails; the class ID it yields matches
`^1:[0-9a-f]{4}$` and its four digits denote, in hexadecimal,
`16 * base + suffix`. -/
theorem classID_normalisation (p : String) :
    (∃ s, normalizeClassID ("1:" ++ fmtX (PeerToClassBase p) ++ "1") = Except.ok s ∧
      matchesClassID s = true ∧ s = "1:" ++ fmtX04 (16 * PeerToClassBase p + 1) ∧
      parseInt16 (String.mk (s.data.drop 2)) = some (16 * PeerToClassBase p + 1)) ∧
    (∃ s, normalizeClassID ("1:" ++ fmtX (PeerToClassBase p) ++ "2") = Except.ok s ∧
      matchesClassID s = true ∧ s = "1:" ++ fmtX04 (16 * PeerToClassBase p + 2) ∧
      parseInt16 (String.mk (s.data.drop 2)) = some (16 * PeerToClassBase p + 2)) := by
  obtain ⟨b, hb, hbase⟩ : ∃ b : Nat, b < 4096 ∧ PeerToClassBase p = (b : Int) :=
    ⟨sum64aWrite offset64 (bytesOf p) % 0xfff,
      lt_trans (Nat.mod_lt _ (by decide)) (by decide), rfl⟩
  have hrender : ∀ c : Char, "1:" ++ fmtX (PeerToClassBase p) ++ String.mk [c]
      = String.mk ('1' :: ':' :: (hexOfNat b ++ [c])) := by
    intro c
    rw [hbase]
    unfold fmtX
    rw [if_neg (by omega)]
    apply String.ext
    simp only [String.data_append, Int.toNat_ofNat]
    rfl
  have hdrop : ∀ n : Nat, String.mk (("1:" ++ fmtX04 (n : Int)).data.drop 2) = fmtX04 (n : Int) := by
    intro n
    apply String.ext
    rw [String.data_append]
    rfl
  have key : ∀ (c : Char) (d : Nat), hexVal c = some d → d < 16 → isLowerHex c = true →
      ∃ s, normalizeClassID ("1:" ++ fmtX (PeerToClassBase p) ++ String.mk [c]) = Except.ok s ∧
        matchesClassID s = true ∧ s = "1:" ++ fmtX04 (16 * PeerToClassBase p + d) ∧
        parseInt16 (String.mk (s.data.drop 2)) = some (16 * PeerToClassBase p + d) := by
    intro c d hc hd hl
    have hnum : (16 * PeerToClassBase p + (d : Int)) = ((b * 16 + d : Nat) : Int) := by
      rw [hbase]; push_cast; ring
    refine ⟨"1:" ++ fmtX04 ((b * 16 + d : Nat) : Int), ?_, ?_, ?_, ?_⟩
    · rw [hrender c]
      exact normalizeClassID_rendered b d c hb hc hd hl
    · exact matchesClassID_fmtX04 _ (by omega)
    · rw [hnum]
    · rw [hdrop, hnum]
      exact parseInt16_fmtX04 _ (by omega)
  exact ⟨key '1' 1 (by decide) (by decide) (by decide),
    key '2' 2 (by decide) (by decide) (by decide)⟩

/-! ## Substrings -/

theorem startsWithL_nil (s : List Char) : startsWithL s [] = true := by
  cases s <;> rfl

theorem startsWithL_iff (p s : List Char) :
    startsWithL s p = true ↔ ∃ post, s = p ++ post := by
  induction p generalizing s with
  | nil => simp [startsWithL_nil]
  | cons a ps ih =>
    cases s with
    | nil => simp [startsWithL]
    | cons c cs =>
      simp only [startsWithL, Bool.and_eq_true, beq_iff_eq, ih, List.cons_append,
        List.cons.injEq]
      constructor
      · rintro ⟨rfl, post, rfl⟩
        exact ⟨post, rfl, rfl⟩
      · rintro ⟨post, rfl, rfl⟩
        exact ⟨rfl, post, rfl⟩

/-- Go `strings.Contains` holds exactly when the string is a prefix, the substring
and a suffix. -/
theorem containsL_iff (t s : List Char) :
    containsL s t = true ↔ ∃ pre post, s = pre ++ t ++ post := by
  induction s with
  | nil =>
    simp only [containsL, List.isEmpty_iff]
    constructor
    · rintro rfl
      exact ⟨[], [], rfl⟩
    · rintro ⟨pre, post, h⟩
      have h2 := congrArg List.length h
      simp only [List.length_nil, List.length_append] at h2
      exact List.length_eq_zero.1 (by omega)
  | cons c cs ih =>
    simp only [containsL, Bool.or_eq_true, startsWithL_iff, ih]
    constructor
    · rintro (⟨post, h⟩ | ⟨pre, post, h⟩)
      · exact ⟨[], post, by simpa using h⟩
      · exact ⟨c :: pre, post, by simp [h]⟩
    · rintro ⟨pre, post, h⟩
      cases pre with
      | nil => exact Or.inl ⟨post, by simpa using h⟩
      | cons x pre =>
        simp only [List.cons_append, List.cons.injEq] at h
        exact Or.inr ⟨pre, post, h.2⟩

/-- A string that contains `a ++ t ++ b` contains `t`. -/
theorem containsL_inner (a t b s : List Char) (h : containsL s (a ++ t ++ b) = true) :
    containsL s t = true := by
  rcases (containsL_iff _ s).1 h with ⟨pre, post, rfl⟩
  exact (containsL_iff t _).2 ⟨pre ++ a, b ++ post, by simp⟩

/-- A line that mentions the class ID `1:99` as a word of its own contains
`1:99`. -/
theorem contains_default_class (line : String) (h : contains line " 1:99 " = true) :
    contains line "1:99" = true :=
  containsL_inner [' '] "1:99".data [' '] line.data h

/-! ## Root qdisc: preserve or replace -/

/-- The scan for an active class line finds one exactly when some line mentions
`class ` and neither `1:99` nor `root`. -/
theorem hasActiveClassLine_iff (lines : List String) :
    hasActiveClassLine lines = true ↔
      ∃ line ∈ lines, contains line "class " = true ∧ contains line "1:99" = false ∧
        contains line "root" = false := by
  induction lines with
  | nil => simp [hasActiveClassLine]
  | cons l ls ih =>
    unfold hasActiveClassLine
    split_ifs with h
    · simp only [List.mem_cons, exists_eq_or_imp, true_iff]
      exact Or.inl ⟨h.1, by simpa using h.2.1, by simpa using h.2.2⟩
    · rw [ih]
      simp only [List.mem_cons, exists_eq_or_imp]
      constructor
      · exact fun hx => Or.inr hx
      · rintro (⟨h1, h2, h3⟩ | hx)
        · exact absurd ⟨h1, by simp [h2], by simp [h3]⟩ h
        · exact hx

/-- The commands of `addRootQdisc` start with the `qdisc add` it is given. -/
theorem addRootQdisc_trace (env : Env) (dev : String) (cmd : Cmd) (w : World) :
    ∃ rest, (addRootQdisc env dev cmd w).2.trace = w.trace ++ cmd :: rest := by
  unfold addRootQdisc
  simp only [run, AddDualStackSupport]
  cases (env.exec w.trace cmd).err with
  | some e => exact ⟨[], by simp⟩
  | none => exact ⟨_, by simp only [List.append_assoc, List.singleton_append]; rfl⟩

/-- The first command of `SetupRootQdisc` is a `qdisc add` of a root qdisc with
handle `1:` on the device. -/
theorem SetupRootQdisc_first (env : Env) (dev : String) (w : World) :
    ∃ tail rest, (SetupRootQdisc env dev w).2.trace
      = w.trace ++ (["/sbin/tc", "qdisc", "add", "dev", dev, "root", "handle", "1:"] ++ tail)
          :: rest := by
  unfold SetupRootQdisc
  split
  · simp only [run, TCPath]
    cases (env.exec w.trace ["/sbin/tc", "qdisc", "add", "dev", dev,
      "root", "handle", "1:", "cake", "bandwidth", "1Gbit", "besteffort"]).err with
    | none => exact ⟨["cake", "bandwidth", "1Gbit", "besteffort"], [], by simp⟩
    | some e =>
      obtain ⟨rest, hrest⟩ := addRootQdisc_trace env dev
        ["/sbin/tc", "qdisc", "add", "dev", dev, "root", "handle", "1:", "htb", "default", "99"]
        { w with trace := w.trace ++ [["/sbin/tc", "qdisc", "add", "dev", dev,
          "root", "handle", "1:", "cake", "bandwidth", "1Gbit", "besteffort"]] }
      exact ⟨["cake", "bandwidth", "1Gbit", "besteffort"], _, by
        simp only [hrest, List.append_assoc, List.singleton_append]; rfl⟩
  · obtain ⟨rest, hrest⟩ := addRootQdisc_trace env dev
      [TCPath, "qdisc", "add", "dev", dev, "root", "handle", "1:", "hfsc", "default", "99"] w
    exact ⟨["hfsc", "default", "99"], rest, hrest⟩
  · obtain ⟨rest, hrest⟩ := addRootQdisc_trace env dev
      [TCPath, "qdisc", "add", "dev", dev, "root", "handle", "1:", "htb", "default", "99"] w
    exact ⟨["htb", "default", "99"], rest, hrest⟩

/-- Setting the root qdisc up, with or without the retry, starts with a
`qdisc add` of a root qdisc on the device. -/
theorem setupWithRetry_first (env : Env) (dev : String) (w : World) :
    ∃ tail rest, (setupWithRetry env dev w).2.trace
      = w.trace ++ (["/sbin/tc", "qdisc", "add", "dev", dev, "root", "handle", "1:"] ++ tail)
          :: rest := by
  obtain ⟨tail, rest, h⟩ := SetupRootQdisc_first env dev w
  unfold setupWithRetry
  rcases hs : SetupRootQdisc env dev w with ⟨e, w1⟩
  rw [hs] at h
  simp only at h
  cases e with
  | none => exact ⟨tail, rest, h⟩
  | some e =>
    simp only
    split_ifs
    · obtain ⟨tail2, rest2, h2⟩ := SetupRootQdisc_first env dev
        (run env (run env w1 [TCPath, "qdisc", "del", "dev", dev, "root"]).2
          [TCPath, "qdisc", "del", "dev", dev, "ingress"]).2
      refine ⟨tail, rest ++ [[TCPath, "qdisc", "del", "dev", dev, "root"],
        [TCPath, "qdisc", "del", "dev", dev, "ingress"]] ++
          ((["/sbin/tc", "qdisc", "add", "dev", dev, "root", "handle", "1:"] ++ tail2)
            :: rest2), ?_⟩
      have hx : ∀ r : Err × World, (match r with
          | (none, w2) => ((none : Err), w2)
          | (some e2, w2) => (some ("failed to set up qdisc on " ++ dev ++ ": " ++ e2), w2)).2
          = r.2 := by
        rintro ⟨_ | _, _⟩ <;> rfl
      rw [hx, h2]
      simp only [run, h, List.append_assoc, List.singleton_append, List.cons_append,
        List.nil_append]
    · exact ⟨tail, rest, h⟩

/-- What the scan of `CheckAndSetupRootQdisc` does when `qdisc show` reports a root
qdisc of another type than the requested scheduler: it preserves the qdisc (its
only commands are `qdisc show` and `class show`) and adopts the existing type if
`class show` succeeds and lists a class line that mentions neither `1:99` nor
`root`; it deletes the root qdisc and then sets the root qdisc up as for the
requested scheduler (the next command is a `qdisc add` of a root qdisc with
handle `1:`) if `class show` fails or every class line it lists is marked `root`
or is that of class `1:99`. -/
theorem CheckAndSetupRootQdisc_other_type (env : Env) (dev existing : String) (w : World)
    (hq : (env.exec w.trace ["/sbin/tc", "qdisc", "show", "dev", dev]).err = none)
    (hnot : contains (env.exec w.trace ["/sbin/tc", "qdisc", "show", "dev", dev]).output
      ("qdisc " ++ w.schedulerType) = false)
    (hex : existingQdiscType
      (split (env.exec w.trace ["/sbin/tc", "qdisc", "show", "dev", dev]).output '\n')
        = some existing)
    (hne : existing ≠ "") (hdiff : existing ≠ w.schedulerType) :
    let qshow := ["/sbin/tc", "qdisc", "show", "dev", dev]
    let cshow := ["/sbin/tc", "class", "show", "dev", dev]
    let qdel := ["/sbin/tc", "qdisc", "del", "dev", dev, "root"]
    let cl := env.exec (w.trace ++ [qshow]) cshow
    (cl.err = none →
      (∃ line ∈ split cl.output '\n', contains line "class " = true ∧
        contains line "1:99" = false ∧ contains line "root" = false) →
      CheckAndSetupRootQdisc env dev w
        = (none, { w with trace := w.trace ++ [qshow, cshow], schedulerType := existing })) ∧
    ((cl.err ≠ none ∨ ∀ line ∈ split cl.output '\n', contains line "class " = true →
        contains line "root" = true ∨ contains line " 1:99 " = true) →
      CheckAndSetupRootQdisc env dev w
        = setupWithRetry env dev { w with trace := w.trace ++ [qshow, cshow, qdel] } ∧
      ∃ tail rest, (CheckAndSetupRootQdisc env dev w).2.trace
        = w.trace ++ [qshow, cshow, qdel]
          ++ (["/sbin/tc", "qdisc", "add", "dev", dev, "root", "handle", "1:"] ++ tail)
            :: rest) := by
  intro qshow cshow qdel cl
  have hmain : CheckAndSetupRootQdisc env dev w
      = if (match cl.err with
          | none => hasActiveClassLine (split cl.output '\n')
          | some _ => false) = true
        then (none, { w with trace := w.trace ++ [qshow, cshow], schedulerType := existing })
        else setupWithRetry env dev { w with trace := w.trace ++ [qshow, cshow, qdel] } := by
    unfold CheckAndSetupRootQdisc CheckAndSetupRootQdiscWithIPv6
    simp only [run, TCPath, hq, hnot, hex, Bool.false_eq_true, if_false]
    rw [if_pos ⟨hne, hdiff⟩]
    simp only [List.append_assoc, List.singleton_append, List.cons_append, List.nil_append]
  constructor
  · intro herr hline
    rw [hmain, herr, if_pos ((hasActiveClassLine_iff _).2 hline)]
  · intro hno
    have hfalse : (match cl.err with
        | none => hasActiveClassLine (split cl.output '\n')
        | some _ => false) = false := by
      rcases hno with herr | hall
      · cases h : cl.err with
        | none => exact absurd h herr
        | some e => rfl
      · cases h : cl.err with
        | some e => rfl
        | none =>
          simp only
          rw [Bool.eq_false_iff]
          intro hact
          rcases (hasActiveClassLine_iff _).1 hact with ⟨line, hmem, h1, h2, h3⟩
          rcases hall line hmem h1 with hr | hd
          · rw [h3] at hr; exact Bool.noConfusion hr
          · rw [contains_default_class line hd] at h2; exact Bool.noConfusion h2
    rw [hmain, hfalse, if_neg (by simp)]
    refine ⟨rfl, ?_⟩
    obtain ⟨tail, rest, h⟩ := setupWithRetry_first env dev
      { w with trace := w.trace ++ [qshow, cshow, qdel] }
    exact ⟨tail, rest, h⟩

/-- Instance of `CheckAndSetupRootQdisc_other_type`: an HTB root qdisc with a peer
class below an inner class is preserved when HFSC is requested. -/
theorem CheckAndSetupRootQdisc_other_type_witness :
    CheckAndSetupRootQdisc htbWithLeafClass "wg0"
        { trace := [], schedulerType := "hfsc", supports64Bit := true }
      = (none,
         { trace := [["/sbin/tc", "qdisc", "show", "dev", "wg0"],
             ["/sbin/tc", "class", "show", "dev", "wg0"]],
           schedulerType := "htb", supports64Bit := true }) :=
  (CheckAndSetupRootQdisc_other_type htbWithLeafClass "wg0" "htb"
    { trace := [], schedulerType := "hfsc", supports64Bit := true }
    (by decide) (by decide) (by decide) (by decide) (by decide)).1 (by decide) (by decide)

/-! ## Peer and filter parsing -/

/-- C22 (not met by the code): for the `wg show` output that lists the peers `AAAA=`
(allowed IP `10.0.0.2/32`) and then `BBBB=` (allowed IP `10.0.0.3/32`),
`ParsePeerInfo` with the key `AAAA=` also returns the allowed IP of `BBBB=`:
`foundPeer` is never reset at the next peer. With the key of the last peer only
that peer's address is returned. -/
theorem ParsePeerInfo_includes_next_peer :
    (ParsePeerInfo twoPeerOutput "AAAA=").toOption
      = some { PublicKey := "AAAA=", AllowedIPs := ["10.0.0.2/32", "10.0.0.3/32"] } ∧
    (ParsePeerInfo twoPeerOutput "BBBB=").toOption
      = some { PublicKey := "BBBB=", AllowedIPs := ["10.0.0.3/32"] } := by
  decide

/-- C26 (not met by the code): in a listing with a filter for `10.0.0.10` (handle
`800::800`) and one for `10.0.0.1` (handle `800::801`), `ParseFilterOutput` with
the address `10.0.0.1` returns both handles: `dst 10.0.0.1` is looked for as a
substring and is found in `dst 10.0.0.10`. -/
theorem ParseFilterOutput_matches_address_prefix :
    ParseFilterOutput twoFilterOutput "10.0.0.1" = ["800::800", "800::801"] ∧
    ParseFilterOutput twoFilterOutput "10.0.0.10" = ["800::800"] := by
  decide

/-! ## Filters: add and remove -/

/-- C24 (not met by the code): for the IPv6 address `fd00::2/128`,
`TryAddFiltersForIP` adds the download filter with `prio 2`, while the
delete-by-match command of `RemovePeerRateLimitOnDevice` on the same device
names `prio 1`; no delete command with `prio 2` is issued. Parent, protocol,
match type, direction and address agree. -/
theorem remove_by_match_priority_differs :
    ["/sbin/tc", "filter", "add", "dev", "wg0", "protocol", "ipv6", "parent", "1:", "prio", "2",
      "u32", "match", "ip6", "dst", "fd00::2", "flowid", "1:dc92"]
      ∈ (TryAddFiltersForIP freshSystem "wg0" "1:dc92" "fd00::2/128" 0 1000 htbWorld).2.trace ∧
    ["/sbin/tc", "filter", "del", "dev", "wg0", "parent", "1:", "protocol", "ipv6", "prio", "1",
      "u32", "match", "ip6", "dst", "fd00::2"]
      ∈ (RemovePeerRateLimitOnDevice freshSystem "wg0" "fd00::2/128" "peerA" htbWorld).2.trace ∧
    ["/sbin/tc", "filter", "del", "dev", "wg0", "parent", "1:", "protocol", "ipv6", "prio", "2",
      "u32", "match", "ip6", "dst", "fd00::2"]
      ∉ (RemovePeerRateLimitOnDevice freshSystem "wg0" "fd00::2/128" "peerA" htbWorld).2.trace := by
  decide

/-- C28: for every rate `v` that `ValidateRate` accepts, `v * 1000` (the bit rate
passed to TC) is positive and at most 4194303000, which is below `2^32`, and
`v * 125` (the police burst) is smaller still; neither product is changed by
the `int64` arithmetic. -/
theorem validated_rate_bounds (supports64Bit : Bool) (r v : Int)
    (h : ValidateRate supports64Bit r = (v, none)) :
    0 < v * 1000 ∧ v * 1000 ≤ 4194303000 ∧ (4194303000 : Int) < 2 ^ 32 ∧
    0 < v * 125 ∧ v * 125 < v * 1000 ∧
    wrap64 (v * 1000) = v * 1000 ∧ wrap64 (v * 125) = v * 125 := by
  have hpos := ValidateRate_ok_pos supports64Bit r v h
  have hmax : v ≤ 4194303 := by
    unfold ValidateRate at h
    cases supports64Bit <;> simp only [MaxRate32, MaxRate64] at h <;> split_ifs at h <;>
      simp only [Prod.mk.injEq, reduceCtorEq, and_false, and_true] at h <;> omega
  refine ⟨by omega, by omega, by norm_num, by omega, by omega, ?_, ?_⟩
  · exact wrap64_of_range _ (by omega) (by omega)
  · exact wrap64_of_range _ (by omega) (by omega)

/-- Instance of `validated_rate_bounds`: the rate 0, which `ValidateRate` turns into
the maximum 4194303. -/
theorem validated_rate_bounds_witness :
    ValidateRate true 0 = (4194303, none) ∧ (4194303 : Int) * 1000 ≤ 4194303000 ∧
    wrap64 (4194303 * 1000) = 4194303 * 1000 :=
  ⟨by decide, (validated_rate_bounds true 0 4194303 (by decide)).2.1,
    (validated_rate_bounds true 0 4194303 (by decide)).2.2.2.2.2.1⟩

/-! ## Class IDs are distinct -/

/-- The string after `1:` determines a class ID. -/
theorem classID_tail_inj (x y : String) (h : "1:" ++ x = "1:" ++ y) : x = y := by
  have hd := congrArg String.data h
  simp only [String.data_append] at hd
  exact String.ext (List.append_cancel_left hd)

/-- Go `%04x` is injective below `0x10000`. -/
theorem fmtX04_inj (n m : Nat) (hn : n < 65536) (hm : m < 65536)
    (h : fmtX04 (n : Int) = fmtX04 (m : Int)) : n = m := by
  have h1 := parseInt16_fmtX04 n hn
  have h2 := parseInt16_fmtX04 m hm
  rw [h, h2] at h1
  exact (Int.ofNat_inj.1 (Option.some.inj h1)).symm

/-- The rendering of a class ID in `main` and `RemovePeerRateLimitOnDevice`, as
runes: `1:`, the `%x` digits of the base, the suffix digit. -/
theorem render_data (b : Nat) (c : Char) :
    "1:" ++ fmtX (b : Int) ++ String.mk [c] = String.mk ('1' :: ':' :: (hexOfNat b ++ [c])) := by
  unfold fmtX
  rw [if_neg (by omega)]
  apply String.ext
  simp only [String.data_append, Int.toNat_ofNat]
  rfl

/-- C27: over bases in `[0, 0xffe]` and the suffixes `1` and `2`, the class ID that
is rendered as `1:{base:x}{suffix}` and normalised by `CreateClass` determines
the base and the suffix: the upload and the download ID of a peer differ, and
two peers share an ID only when their bases are equal. No such ID is the
default class `1:99`, neither as rendered nor after normalisation. -/
theorem classID_injective (b1 b2 : Nat) (c1 c2 : Char) :
    b1 ≤ 0xffe → b2 ≤ 0xffe → (c1 = '1' ∨ c1 = '2') → (c2 = '1' ∨ c2 = '2') →
    (normalizeClassID ("1:" ++ fmtX (b1 : Int) ++ String.mk [c1])
        = normalizeClassID ("1:" ++ fmtX (b2 : Int) ++ String.mk [c2]) → b1 = b2 ∧ c1 = c2) ∧
    normalizeClassID ("1:" ++ fmtX (b1 : Int) ++ String.mk [c1]) ≠ normalizeClassID "1:99" ∧
    normalizeClassID ("1:" ++ fmtX (b1 : Int) ++ String.mk [c1]) ≠ Except.ok "1:99" ∧
    "1:" ++ fmtX (b1 : Int) ++ String.mk [c1] ≠ "1:99" := by
  intro hb1 hb2 hc1 hc2
  have hval : ∀ c : Char, (c = '1' ∨ c = '2') →
      ∃ d, hexVal c = some d ∧ (d = 1 ∨ d = 2) ∧ isLowerHex c = true ∧ (d = 1 ↔ c = '1') := by
    rintro c (rfl | rfl)
    · exact ⟨1, by decide, Or.inl rfl, by decide, by decide⟩
    · exact ⟨2, by decide, Or.inr rfl, by decide, by decide⟩
  obtain ⟨d1, hv1, hd1, hl1, hi1⟩ := hval c1 hc1
  obtain ⟨d2, hv2, hd2, hl2, hi2⟩ := hval c2 hc2
  have n1 := normalizeClassID_rendered b1 d1 c1 (by omega) hv1 (by omega) hl1
  have n2 := normalizeClassID_rendered b2 d2 c2 (by omega) hv2 (by omega) hl2
  rw [render_data b1 c1, render_data b2 c2, n1, n2]
  have hdef : normalizeClassID "1:99" = Except.ok ("1:" ++ fmtX04 ((153 : Nat) : Int)) := by
    have := normalizeClassID_rendered 9 9 '9' (by omega) (by decide) (by omega) (by decide)
    exact this
  refine ⟨?_, ?_, ?_, ?_⟩
  · intro h
    have h3 := fmtX04_inj _ _ (by omega) (by omega) (classID_tail_inj _ _ (Except.ok.inj h))
    have hb : b1 = b2 := by omega
    have hd : d1 = d2 := by omega
    refine ⟨hb, ?_⟩
    rcases hc1 with rfl | rfl <;> rcases hc2 with rfl | rfl <;> first | rfl | skip
    · have e1 : d1 = 1 := hi1.2 rfl
      have e2 : d2 ≠ 1 := fun h1 => absurd (hi2.1 h1) (by decide)
      omega
    · have e1 : d2 = 1 := hi2.2 rfl
      have e2 : d1 ≠ 1 := fun h1 => absurd (hi1.1 h1) (by decide)
      omega
  · rw [hdef]
    intro h
    have h3 := fmtX04_inj _ _ (by omega) (by omega) (classID_tail_inj _ _ (Except.ok.inj h))
    omega
  · intro h
    have h3 := congrArg (fun s => s.data.length) (Except.ok.inj h)
    have h4 := (fmtX04_digits (b1 * 16 + d1) (by omega)).1
    simp only [String.data_append, List.length_append, h4] at h3
    exact absurd h3 (by decide)
  · intro h
    have h3 := congrArg String.data h
    have h5 : hexOfNat b1 ++ [c1] = ['9', '9'] := by
      have : ('1' :: ':' :: (hexOfNat b1 ++ [c1])) = ['1', ':', '9', '9'] := h3
      simpa using this
    have h7 : c1 = '9' := by
      have h6 := congrArg List.reverse h5
      simp only [List.reverse_append, List.reverse_cons, List.reverse_nil, List.nil_append,
        List.singleton_append, List.cons.injEq] at h6
      exact h6.1
    rcases hc1 with rfl | rfl <;> exact absurd h7 (by decide)

/-- Instance of `classID_injective`: bases `0xdc9` and `0xdc9`, suffixes `1` and
`2`. -/
theorem classID_injective_witness :
    normalizeClassID ("1:" ++ fmtX ((3529 : Nat) : Int) ++ String.mk ['1'])
      ≠ normalizeClassID "1:99" :=
  (classID_injective 3529 3529 '1' '2' (by decide) (by decide) (Or.inl rfl) (Or.inr rfl)).2.1

/-! ## main: the remove branch -/

theorem orExit_none (r : Err × World) (k : World → Nat × World) (h : r.1 = none) :
    orExit r k = k r.2 := by
  rcases r with ⟨e, w⟩
  simp only at h
  subst h
  rfl

theorem orExit_some (r : Err × World) (k : World → Nat × World) (h : r.1 ≠ none) :
    orExit r k = (1, r.2) := by
  rcases r with ⟨_ | e, w⟩
  · exact absurd rfl h
  · rfl

/-- The probe does not touch the scheduler type. -/
theorem Detect64BitSupport_schedulerType (env : Env) (w : World) :
    (Detect64BitSupport env w).2.schedulerType = w.schedulerType := by
  unfold Detect64BitSupport
  dsimp only
  split_ifs <;> rfl

/-- With valid arguments and the TC utility installed, a `-remove` invocation is
the probe followed by the remove branch. -/
theorem main_remove_eq (env : Env) (f : Flags) (hn : f.nuke = false) (hr : f.remove = true)
    (hu : 0 ≤ f.uploadRate ∧ f.uploadRate ≤ 4194303)
    (hd : 0 ≤ f.downloadRate ∧ f.downloadRate ≤ 4194303)
    (hi : f.iface ≠ "") (hp : f.peerKey ≠ "") (ha : f.allowedIPs ≠ "")
    (hproto : f.protocol = "wg" ∨ f.protocol = "awg") (htc : env.lookPathTC = true) :
    main env f = mainRemove env f (trimSpace (splitHead f.allowedIPs ','))
      { (Detect64BitSupport env
          { trace := [], schedulerType := f.scheduler, supports64Bit := false }).2 with
        supports64Bit := (Detect64BitSupport env
          { trace := [], schedulerType := f.scheduler, supports64Bit := false }).1 } := by
  have hpne : f.protocol ≠ "" := by
    rcases hproto with h | h <;> rw [h] <;> decide
  unfold main
  simp only [hn, Bool.false_eq_true, if_false]
  rcases hu1 : ValidateRate (Detect64BitSupport env
    { trace := [], schedulerType := f.scheduler, supports64Bit := false }).1 f.uploadRate
    with ⟨u, eu⟩
  have hue := ValidateRate_err_iff (Detect64BitSupport env
    { trace := [], schedulerType := f.scheduler, supports64Bit := false }).1 f.uploadRate
  rw [hu1] at hue
  cases eu with
  | some e => simp at hue; omega
  | none =>
    rcases hd1 : ValidateRate (Detect64BitSupport env
      { trace := [], schedulerType := f.scheduler, supports64Bit := false }).1 f.downloadRate
      with ⟨d, ed⟩
    have hde := ValidateRate_err_iff (Detect64BitSupport env
      { trace := [], schedulerType := f.scheduler, supports64Bit := false }).1 f.downloadRate
    rw [hd1] at hde
    cases ed with
    | some e => simp at hde; omega
    | none =>
      simp only []
      rw [if_neg (by simp [hi, hp, hpne, ha]), if_neg (by
        rcases hproto with h | h <;> simp [h])]
      simp only [htc, Bool.not_true, Bool.false_eq_true, if_false, hr, if_true]

/-- The removal on a device never returns an error. -/
theorem RemovePeerRateLimitOnDevice_err (env : Env) (dev ip peer : String) (w : World) :
    (RemovePeerRateLimitOnDevice env dev ip peer w).1 = none := rfl

/-- The CAKE removal never returns an error. -/
theorem RemoveCAKERateLimit_err (env : Env) (iface ip : String) (w : World) :
    (RemoveCAKERateLimit env iface ip w).1 = none := rfl

/-- Re-adding the default filters succeeds when every `filter add` does. -/
theorem AddDefaultFilterOnDevice_ok (env : Env) (dev ip : String) (w : World)
    (hadd : ∀ hist rest, (env.exec hist ("/sbin/tc" :: "filter" :: "add" :: rest)).err = none) :
    (AddDefaultFilterOnDevice env dev ip w).1 = none := by
  unfold AddDefaultFilterOnDevice
  simp only [run, TCPath, hadd]

/-- Re-adding the default filters fails when the first of them is rejected. -/
theorem AddDefaultFilterOnDevice_fail (env : Env) (dev ip : String) (w : World)
    (hfail : (env.exec w.trace ["/sbin/tc", "filter", "add", "dev", dev, "parent", "1:",
      "protocol", if contains (splitHead ip '/') ":" then "ipv6" else "ip", "prio", "9999",
      "u32", "match", if contains (splitHead ip '/') ":" then "ip6" else "ip", "src",
      splitHead ip '/', "flowid", "1:99"]).err ≠ none) :
    (AddDefaultFilterOnDevice env dev ip w).1 ≠ none := by
  unfold AddDefaultFilterOnDevice
  simp only [run, TCPath]
  rcases h : (env.exec w.trace ["/sbin/tc", "filter", "add", "dev", dev, "parent", "1:",
      "protocol", if contains (splitHead ip '/') ":" then "ipv6" else "ip", "prio", "9999",
      "u32", "match", if contains (splitHead ip '/') ":" then "ip6" else "ip", "src",
      splitHead ip '/', "flowid", "1:99"]).err with _ | e
  · exact absurd h hfail
  · simp

/-- The remove branch exits with status 0 when every `filter add` succeeds. -/
theorem mainRemove_ok (env : Env) (f : Flags) (ip : String) (w : World)
    (hadd : ∀ hist rest, (env.exec hist ("/sbin/tc" :: "filter" :: "add" :: rest)).err = none) :
    (mainRemove env f ip w).1 = 0 := by
  unfold mainRemove
  split_ifs with hc
  · rw [orExit_none _ _ (RemoveCAKERateLimit_err env f.iface ip w)]
  · rw [orExit_none _ _ (RemovePeerRateLimitOnDevice_err env f.iface ip f.peerKey w)]
    simp only []
    split
    · rw [orExit_none _ _ (RemovePeerRateLimitOnDevice_err env _ ip f.peerKey _),
        orExit_none _ _ (AddDefaultFilterOnDevice_ok env _ ip _ hadd),
        orExit_none _ _ (AddDefaultFilterOnDevice_ok env _ ip _ hadd)]
    · rw [orExit_none _ _ (AddDefaultFilterOnDevice_ok env _ ip _ hadd)]

/-- The CAKE remove branch always exits with status 0. -/
theorem mainRemove_cake (env : Env) (f : Flags) (ip : String) (w : World)
    (hc : w.schedulerType = "cake") : (mainRemove env f ip w).1 = 0 := by
  unfold mainRemove
  rw [if_pos hc, orExit_none _ _ (RemoveCAKERateLimit_err env f.iface ip w)]

/-- The remove branch for HTB and HFSC exits with status 1 when the default
filter cannot be re-added on the interface. -/
theorem mainRemove_fail (env : Env) (f : Flags) (ip : String) (w : World)
    (hc : w.schedulerType ≠ "cake")
    (hfail : ∀ hist, (env.exec hist ["/sbin/tc", "filter", "add", "dev", f.iface, "parent", "1:",
      "protocol", if contains (splitHead ip '/') ":" then "ipv6" else "ip", "prio", "9999",
      "u32", "match", if contains (splitHead ip '/') ":" then "ip6" else "ip", "src",
      splitHead ip '/', "flowid", "1:99"]).err ≠ none) :
    (mainRemove env f ip w).1 = 1 := by
  unfold mainRemove
  rw [if_neg hc, orExit_none _ _ (RemovePeerRateLimitOnDevice_err env f.iface ip f.peerKey w)]
  simp only []
  split
  · rw [orExit_none _ _ (RemovePeerRateLimitOnDevice_err env _ ip f.peerKey _)]
    rcases hifb : (AddDefaultFilterOnDevice env (ifbName f.iface) ip
      (RemovePeerRateLimitOnDevice env (ifbName f.iface) ip f.peerKey
        (run env (RemovePeerRateLimitOnDevice env f.iface ip f.peerKey w).2
          ["ip", "link", "show", ifbName f.iface]).2).2).1 with _ | e
    · rw [orExit_none _ _ hifb,
        orExit_some _ _ (AddDefaultFilterOnDevice_fail env f.iface ip _ (hfail _))]
    · rw [orExit_some _ _ (by rw [hifb]; simp)]
  · rw [orExit_some _ _ (AddDefaultFilterOnDevice_fail env f.iface ip _ (hfail _))]

set_option maxRecDepth 1000000 in
/-- C21 (as stated, refuted): on a system where every TC command fails, the
invocation `-interface wg0 -peer peerA -allowed-ips 10.0.0.2/32 -remove` exits
with status 1: the failures of the listing, deleting and replacing commands
are skipped, the failure to re-add the default filter is fatal. -/
theorem main_remove_fatal :
    (main failingSystem removeFlags).1 = 1 ∧
    (main failingSystem removeFlags).2.trace.getLast?
      = some ["/sbin/tc", "filter", "add", "dev", "wg0", "parent", "1:", "protocol", "ip",
          "prio", "9999", "u32", "match", "ip", "src", "10.0.0.2", "flowid", "1:99"] := by
  decide

/-- C21 (amended): given valid arguments and the TC utility installed, no failure
of a command that lists or deletes filters or classes, replaces the default
class or looks for the IFB device is fatal to a `-remove` invocation. In CAKE
mode it always exits with status 0; in every mode it exits with status 0 when
the `filter add` commands that re-add the default filters succeed, whatever the
other commands return; for HTB and HFSC it exits with status 1 when the default
filter for the source address cannot be re-added on the interface. -/
theorem main_remove_exit (env : Env) (f : Flags) (hn : f.nuke = false) (hr : f.remove = true)
    (hu : 0 ≤ f.uploadRate ∧ f.uploadRate ≤ 4194303)
    (hd : 0 ≤ f.downloadRate ∧ f.downloadRate ≤ 4194303)
    (hi : f.iface ≠ "") (hp : f.peerKey ≠ "") (ha : f.allowedIPs ≠ "")
    (hproto : f.protocol = "wg" ∨ f.protocol = "awg") (htc : env.lookPathTC = true) :
    let addr := splitHead (trimSpace (splitHead f.allowedIPs ',')) '/'
    let readd := ["/sbin/tc", "filter", "add", "dev", f.iface, "parent", "1:",
      "protocol", if contains addr ":" then "ipv6" else "ip", "prio", "9999",
      "u32", "match", if contains addr ":" then "ip6" else "ip", "src", addr, "flowid", "1:99"]
    (f.scheduler = "cake" → (main env f).1 = 0) ∧
    ((∀ hist rest, (env.exec hist ("/sbin/tc" :: "filter" :: "add" :: rest)).err = none) →
      (main env f).1 = 0) ∧
    (f.scheduler ≠ "cake" → (∀ hist, (env.exec hist readd).err ≠ none) → (main env f).1 = 1) := by
  intro addr readd
  rw [main_remove_eq env f hn hr hu hd hi hp ha hproto htc]
  refine ⟨fun hc => ?_, fun hadd => ?_, fun hc hfail => ?_⟩
  · exact mainRemove_cake env f _ _ (by
      simp only [Detect64BitSupport_schedulerType]; exact hc)
  · exact mainRemove_ok env f _ _ hadd
  · exact mainRemove_fail env f _ _ (by
      simp only [Detect64BitSupport_schedulerType]; exact hc) hfail

set_option maxRecDepth 1000000 in
/-- Instance of `main_remove_exit`: the removal on the simulated fresh system, where
every `filter add` succeeds. -/
theorem main_remove_exit_witness : (main freshSystem removeFlags).1 = 0 :=
  (main_remove_exit freshSystem removeFlags rfl rfl (by decide) (by decide) (by decide)
    (by decide) (by decide) (by decide) rfl).2.1 (by
      intro hist rest
      rfl)

/-! ## The peer identity reaches the commands through its class base only -/

theorem RemovePeerRateLimitOnDevice_base (env : Env) (dev ip p1 p2 : String) (w : World)
    (h : PeerToClassBase p1 = PeerToClassBase p2) :
    RemovePeerRateLimitOnDevice env dev ip p1 w = RemovePeerRateLimitOnDevice env dev ip p2 w := by
  unfold RemovePeerRateLimitOnDevice
  rw [h]

theorem mainRemove_base (env : Env) (f : Flags) (p1 p2 ip : String) (w : World)
    (h : PeerToClassBase p1 = PeerToClassBase p2) :
    mainRemove env { f with peerKey := p1 } ip w = mainRemove env { f with peerKey := p2 } ip w := by
  unfold mainRemove
  simp only [RemovePeerRateLimitOnDevice_base env _ ip p1 p2 _ h]

theorem mainUpload_base (env : Env) (f : Flags) (p1 p2 ip cls : String) (u : Int) (w : World) :
    mainUpload env { f with peerKey := p1 } ip cls u w
      = mainUpload env { f with peerKey := p2 } ip cls u w := rfl

theorem mainApply_base (env : Env) (f : Flags) (p1 p2 ip : String) (u d : Int) (w : World)
    (h : PeerToClassBase p1 = PeerToClassBase p2) :
    mainApply env { f with peerKey := p1 } ip u d w
      = mainApply env { f with peerKey := p2 } ip u d w := by
  unfold mainApply
  simp only [h, mainUpload_base env f p1 p2]

/-- C29: with the interface, the allowed IPs, the rates, the scheduler, every other
flag and the outcomes of the external commands fixed, two peer identities with
the same `PeerToClassBase` value (both non-empty, as the argument check
requires) give the same run of `main`: the same exit status and the same
sequence of commands, in the apply, the remove and the nuke branch. -/
theorem main_depends_on_class_base (env : Env) (f : Flags) (p1 p2 : String)
    (hne1 : p1 ≠ "") (hne2 : p2 ≠ "") (h : PeerToClassBase p1 = PeerToClassBase p2) :
    main env { f with peerKey := p1 } = main env { f with peerKey := p2 } ∧
    (main env { f with peerKey := p1 }).2.trace = (main env { f with peerKey := p2 }).2.trace := by
  have key : main env { f with peerKey := p1 } = main env { f with peerKey := p2 } := by
    unfold main
    simp only [hne1, hne2, mainRemove_base env f p1 p2 _ _ h, mainApply_base env f p1 p2 _ _ _ _ h]
  exact ⟨key, by rw [key]⟩

set_option maxRecDepth 1000000 in
/-- Instance of `main_depends_on_class_base`: the peers `peerA` and `peer3497`, both
of class base `0xdc9`, on the simulated fresh system. -/
theorem main_depends_on_class_base_witness :
    (main freshSystem { zeroDownloadFlags with peerKey := "peerA" }).2.trace
      = (main freshSystem { zeroDownloadFlags with peerKey := "peer3497" }).2.trace :=
  (main_depends_on_class_base freshSystem zeroDownloadFlags "peerA" "peer3497"
    (by decide) (by decide) (by decide)).2

end Weir

namespace Pipe

/-! ## Destination connections -/

/-- C25 (not met by the code): for every non-nil destination connection `c`,
`closeDstConn` returns at once: `c` is neither closed nor removed from
`dstConns`. After `processConn` has dialed `c`, `c` is still tracked and has not
been closed by it; the deferred call was made with the nil connection. -/
theorem closeDstConn_skips_open_conn (s : DstState) (c : Nat) :
    closeDstConn s (some c) = s ∧
    some c ∈ (processConn s (some c)).dstConns ∧
    (processConn s (some c)).closed = s.closed ∧
    (processConn s (some c)).nilCloserCalls = s.nilCloserCalls + 1 := by
  refine ⟨by simp [closeDstConn], ?_, ?_, ?_⟩
  · simp only [processConn, closeDstConn, ne_eq, not_true_eq_false, if_false, onCloserError,
      List.mem_filter, decide_eq_true_eq, reduceCtorEq, not_false_eq_true, and_true]
    unfold saveDstConn
    split_ifs with h
    · exact h
    · exact List.mem_cons_self _ _
  · simp only [processConn, closeDstConn, ne_eq, not_true_eq_false, if_false, onCloserError]
    unfold saveDstConn
    split_ifs <;> rfl
  · simp only [processConn, closeDstConn, ne_eq, not_true_eq_false, if_false, onCloserError]
    unfold saveDstConn
    split_ifs <;> rfl

end Pipe

namespace Tunnel

/-! ## The length prefix -/

theorem copyAt_nil (buf : List Byte) : copyAt buf 0 [] = buf := by
  simp [copyAt]

/-- C30: `pack` stores `len(b) mod 2^16` in the body-length prefix. For every body
of at most 65535 bytes the prefix is `|b|` and `Read` (into a buffer that holds
the body) recovers `b`; a body of 65536 bytes, the size of the copy buffer of
`pipe`, is written with the prefix `0 0`, and `Read` returns `n = 0` and leaves
the buffer as it was: the body is not recovered. -/
theorem pack_body_length_mod (b p rest out buf : List Byte) (log : List Nat)
    (hp : p.length < 65536) :
    binaryReadUint16 (pack b p ++ rest)
      = (none, b.length % 65536, b ++ uint16Bytes p.length ++ p ++ rest) ∧
    (b.length ≤ 65535 →
      binaryReadUint16 (pack b p ++ rest)
        = (none, b.length, b ++ uint16Bytes p.length ++ p ++ rest) ∧
      (b.length ≤ buf.length →
        (MsgReadWriter.Read ⟨pack b p ++ rest, out, log⟩ buf).err = none ∧
        (MsgReadWriter.Read ⟨pack b p ++ rest, out, log⟩ buf).n = b.length ∧
        (MsgReadWriter.Read ⟨pack b p ++ rest, out, log⟩ buf).buf.take b.length = b)) ∧
    (b.length = 65536 →
      (pack b p).take 2 = [0, 0] ∧
      (MsgReadWriter.Read ⟨pack b p ++ rest, out, log⟩ buf).n = 0 ∧
      (MsgReadWriter.Read ⟨pack b p ++ rest, out, log⟩ buf).buf = buf) := by
  have hpfx : binaryReadUint16 (pack b p ++ rest)
      = (none, b.length % 65536, b ++ uint16Bytes p.length ++ p ++ rest) := by
    rw [pack_eq, uint16_of_lt p.length hp]
    simp only [List.append_assoc, uint16]
    rw [binaryReadUint16_bytes _ (Nat.mod_lt _ (by decide))]
  refine ⟨hpfx, ?_, ?_⟩
  · intro hb
    refine ⟨?_, fun hfit => Read_pack_fits b p rest out buf log (by omega) hp hfit⟩
    rw [hpfx, Nat.mod_eq_of_lt (by omega)]
  · intro hb
    have hpk : pack b p ++ rest
        = uint16Bytes ([] : List Byte).length ++ [] ++ (b ++ uint16Bytes p.length ++ p ++ rest) := by
      rw [pack_eq, uint16_of_lt p.length hp]
      have h0 : uint16 b.length = 0 := by rw [hb]; rfl
      rw [h0]
      simp only [List.length_nil, List.append_nil, List.append_assoc]
    refine ⟨?_, ?_⟩
    · rw [pack_eq]
      have h0 : uint16 b.length = 0 := by rw [hb]; rfl
      rw [h0]
      rfl
    · unfold MsgReadWriter.Read
      rw [hpk, readPrefixed_bytes [] _ out log (by decide)]
      simp only [List.length_nil, Nat.not_lt_zero, if_false, copyAt_nil]
      generalize readPrefixed
        ⟨b ++ uint16Bytes p.length ++ p ++ rest, out, logAfter log 0⟩ = r
      rcases r with ⟨⟨m, _ | e⟩, rw2⟩ <;> exact ⟨rfl, rfl⟩

/-- Instance of `pack_body_length_mod`: a body of 65536 bytes is not recovered, a body
of three bytes is. -/
theorem pack_body_length_mod_witness :
    (MsgReadWriter.Read ⟨pack (List.replicate 65536 7) [1] ++ [], [], []⟩ (makeBytes 65536)).n
      = 0 ∧
    (MsgReadWriter.Read ⟨pack [1, 2, 3] [9] ++ [], [], []⟩ [0, 0, 0]).n
      = ([1, 2, 3] : List Byte).length :=
  ⟨((pack_body_length_mod (List.replicate 65536 7) [1] [] [] (makeBytes 65536) []
      (by decide)).2.2 (List.length_replicate _ _)).2.1,
    (((pack_body_length_mod [1, 2, 3] [9] [] [] [0, 0, 0] [] (by decide)).2.1
      (by decide)).2 (by decide)).2.1⟩

end Tunnel
